import Mathlib

/-!
# E20 simulators: a shallow embedding

Two C++ programs are embedded here:

* `E20_Processor.cpp`, the plain fetch-decode-execute engine (called the
  no-cache engine below), and
* `E20_Cache.cpp`, the same engine with one or two set-associative caches
  that observe every `lw` and `sw`.

Machine words (`unsigned short`) are natural numbers reduced `% 65536` at every
assignment; `int` values (cache geometry, tags, row slots) are integers with the
truncating division of C++.  An access outside an array, or a division by zero,
is undefined behaviour in C++ and is modelled by the result `none`.
-/

namespace E20

/-! ## Machine state -/

/-- The architectural state of both engines: `registers[8]`, `memory[8192]`, `pc`
and the loop flag `halt`. -/
structure State where
  registers : Nat → Nat
  memory : Nat → Nat
  pc : Nat
  halt : Bool

/-- The assignment `registers[dst] = v`. -/
def setReg (s : State) (dst v : Nat) : State :=
  { s with registers := fun r => if r = dst then v else s.registers r }

/-- The assignment `memory[a] = v`. -/
def setMem (s : State) (a v : Nat) : State :=
  { s with memory := fun x => if x = a then v else s.memory x }

/-- The assignment `pc = v`. -/
def setPc (s : State) (v : Nat) : State :=
  { s with pc := v }

/-- The state right after `load_machine_code`: registers and `pc` zero, the
loop flag clear, memory as loaded. -/
def initState (mem : Nat → Nat) : State :=
  { registers := fun _ => 0, memory := mem, pc := 0, halt := false }

/-! ## Sign extension (both files, identical text) -/

/-- The function `signExtender7B`, on `unsigned` values; the bitwise or of two
values below `2^32` stays below `2^32`, so no reduction is needed. -/
def signExtender7B (imm : Nat) : Nat :=
  if imm &&& 64 = 64 then imm ||| 65408 else imm

/-- Conversion of an `int` result to `unsigned short`. -/
def toU16 (x : Int) : Nat :=
  (x % 65536).toNat

/-! ## The no-cache engine (`E20_Processor.cpp`, lines 145-266) -/

/-- Branch `opcode == 0` of `E20_Processor.cpp` (lines 149-191): `pc += 1`
stands inside `if (dst != 0)`, after each of the five writes. -/
def rtypeProcessor (s : State) (curr_instruction : Nat) : State :=
  let srcA := (curr_instruction >>> 10) &&& 7
  let srcB := (curr_instruction >>> 7) &&& 7
  let dst := (curr_instruction >>> 4) &&& 7
  let s1 : State :=
    if dst ≠ 0 then
      if curr_instruction &&& 15 = 0 then
        setPc (setReg s dst ((s.registers srcA + s.registers srcB) % 65536))
          ((s.pc + 1) % 65536)
      else if curr_instruction &&& 15 = 1 then
        setPc (setReg s dst (toU16 ((s.registers srcA : Int) - (s.registers srcB : Int))))
          ((s.pc + 1) % 65536)
      else if curr_instruction &&& 15 = 2 then
        setPc (setReg s dst ((s.registers srcA ||| s.registers srcB) % 65536))
          ((s.pc + 1) % 65536)
      else if curr_instruction &&& 15 = 3 then
        setPc (setReg s dst ((s.registers srcA &&& s.registers srcB) % 65536))
          ((s.pc + 1) % 65536)
      else if curr_instruction &&& 15 = 4 then
        setPc (setReg s dst (if s.registers srcA < s.registers srcB then 1 else 0))
          ((s.pc + 1) % 65536)
      else s
    else s
  if curr_instruction &&& 15 = 8 then setPc s1 (s1.registers srcA) else s1

/-- Branch `opcode == 7`, slti (the same text in both files). -/
def execSlti (s : State) (curr_instruction : Nat) : State :=
  let srcA := (curr_instruction >>> 10) &&& 7
  let dst := (curr_instruction >>> 7) &&& 7
  let imm := signExtender7B (curr_instruction &&& 127) % 65536
  let s1 : State :=
    if dst ≠ 0 then setReg s dst (if s.registers srcA < imm then 1 else 0) else s
  setPc s1 ((s1.pc + 1) % 65536)

/-- Branch `opcode == 4`, lw, of `E20_Processor.cpp` (lines 209-217): `none`
when `memory[result]` is outside the 8192 words. -/
def lwProcessor (s : State) (curr_instruction : Nat) : Option State :=
  let srcA := (curr_instruction >>> 10) &&& 7
  let dst := (curr_instruction >>> 7) &&& 7
  let imm := signExtender7B (curr_instruction &&& 127) % 65536
  if dst ≠ 0 then
    let result := (s.registers srcA + imm) % 65536
    if result < 8192 then
      some (setPc (setReg s dst (s.memory result)) ((s.pc + 1) % 65536))
    else none
  else some (setPc s ((s.pc + 1) % 65536))

/-- Branch `opcode == 5`, sw, of `E20_Processor.cpp` (lines 220-226): `none`
when `memory[address]` is outside the 8192 words. -/
def swProcessor (s : State) (curr_instruction : Nat) : Option State :=
  let srcA := (curr_instruction >>> 10) &&& 7
  let srcB := (curr_instruction >>> 7) &&& 7
  let imm := signExtender7B (curr_instruction &&& 127) % 65536
  let address := (s.registers srcA + imm) % 65536
  if address < 8192 then
    some (setPc (setMem s address (s.registers srcB)) ((s.pc + 1) % 65536))
  else none

/-- Branch `opcode == 6`, jeq (the same text in both files). -/
def execJeq (s : State) (curr_instruction : Nat) : State :=
  let srcA := (curr_instruction >>> 10) &&& 7
  let srcB := (curr_instruction >>> 7) &&& 7
  let imm := signExtender7B (curr_instruction &&& 127) % 65536
  let s1 : State :=
    if s.registers srcA = s.registers srcB then setPc s ((s.pc + imm) % 65536) else s
  setPc s1 ((s1.pc + 1) % 65536)

/-- Branch `opcode == 1`, addi (the same text in both files). -/
def execAddi (s : State) (curr_instruction : Nat) : State :=
  let srcA := (curr_instruction >>> 10) &&& 7
  let dst := (curr_instruction >>> 7) &&& 7
  let imm := signExtender7B (curr_instruction &&& 127) % 65536
  let s1 : State :=
    if dst ≠ 0 then setReg s dst ((s.registers srcA + imm) % 65536) else s
  setPc s1 ((s1.pc + 1) % 65536)

/-- Branch `opcode == 2`, j (the same text in both files). -/
def execJ (s : State) (curr_instruction : Nat) : State :=
  let imm := curr_instruction &&& 8191
  if s.pc = imm then { s with halt := true } else setPc s imm

/-- Branch `opcode == 3`, jal (the same text in both files). -/
def execJal (s : State) (curr_instruction : Nat) : State :=
  let imm := curr_instruction &&& 8191
  setPc (setReg s 7 ((s.pc + 1) % 65536)) imm

/-- The body of the `while (!halt)` loop of `E20_Processor.cpp` on the fetched
word `curr_instruction`, the closing `pc %= 8192` included.  The result is
`none` when `memory[...]` is indexed outside its 8192 words. -/
def execProcessor (s : State) (curr_instruction : Nat) : Option State :=
  let opcode := curr_instruction >>> 13
  let body : Option State :=
    if opcode = 0 then some (rtypeProcessor s curr_instruction)
    else if opcode = 7 then some (execSlti s curr_instruction)
    else if opcode = 4 then lwProcessor s curr_instruction
    else if opcode = 5 then swProcessor s curr_instruction
    else if opcode = 6 then some (execJeq s curr_instruction)
    else if opcode = 1 then some (execAddi s curr_instruction)
    else if opcode = 2 then some (execJ s curr_instruction)
    else if opcode = 3 then some (execJal s curr_instruction)
    else some s
  match body with
  | none => none
  | some s1 => some (setPc s1 (s1.pc % 8192))

/-- One iteration of the loop: fetch `memory[pc]`, then the body. -/
def stepProcessor (s : State) : Option State :=
  if s.pc < 8192 then execProcessor s (s.memory s.pc) else none

/-- The loop `while (!halt)` of `E20_Processor.cpp`, cut after `n` iterations. -/
def runProcessor : Nat → State → Option State
  | 0, s => some s
  | n + 1, s =>
    if s.halt then some s
    else
      match stepProcessor s with
      | none => none
      | some s1 => runProcessor n s1

/-- States the no-cache engine passes through at the head of its loop, from
the state set up by the loader. -/
inductive ReachableProcessor (mem : Nat → Nat) : State → Prop
  | init : ReachableProcessor mem (initState mem)
  | step (s s1 : State) : ReachableProcessor mem s → s.halt = false →
      stepProcessor s = some s1 → ReachableProcessor mem s1

/-! ## Cache rows (`E20_Cache.cpp`)

A row is a `vector<int>` of `assoc` slots; `-1` marks an unused slot.  The row
code below is the code of `main` for rows with at least one slot; the callers
further down refuse a row without slots, on which `row[size-1]` is outside the
vector. -/

/-- The inner loop `for (j = start; j < size; j++) row[j-1] = row[j];`, for the
`n` iterations that remain when the counter is `j`. -/
def shiftLoop : Nat → Nat → List Int → List Int
  | 0, _, row => row
  | n + 1, j, row => shiftLoop n (j + 1) (row.set (j - 1) (row.getD j 0))

/-- The whole inner loop started at `j = start`, followed by
`row[size-1] = curr_tag`. -/
def shiftInsert (start : Nat) (curr_tag : Int) (row : List Int) : List Int :=
  (shiftLoop (row.length - start) start row).set (row.length - 1) curr_tag

/-- What the scan loop leaves behind: the row and the two flags. -/
structure Scan where
  row : List Int
  tagFound : Bool
  evictLRU : Bool

/-- The scan `for (int i = size-1; i >= 0; i--)` with its two `break` branches;
the last argument is `i + 1`.  The flags start as `evictLRU = true`,
`tagFound = false`. -/
def scanLoop (curr_tag : Int) (row : List Int) : Nat → Scan
  | 0 => { row := row, tagFound := false, evictLRU := true }
  | i + 1 =>
    if row.getD i 0 = curr_tag then
      { row := shiftInsert (i + 1) curr_tag row, tagFound := true, evictLRU := true }
    else if row.getD i 0 = -1 then
      { row := shiftInsert 1 curr_tag row, tagFound := false, evictLRU := false }
    else scanLoop curr_tag row i

/-- Load, one cache (lines 296-320): the eviction is guarded by
`evictLRU && !tagFound`.  Returns the row and `tagFound`. -/
def lwOneRow (curr_tag : Int) (row : List Int) : List Int × Bool :=
  let sc := scanLoop curr_tag row row.length
  if sc.evictLRU && !sc.tagFound then (shiftInsert 1 curr_tag sc.row, sc.tagFound)
  else (sc.row, sc.tagFound)

/-- Store, one cache (lines 427-451): the eviction is guarded by `evictLRU`
alone. -/
def swOneRow (curr_tag : Int) (row : List Int) : List Int × Bool :=
  let sc := scanLoop curr_tag row row.length
  if sc.evictLRU then (shiftInsert 1 curr_tag sc.row, sc.tagFound)
  else (sc.row, sc.tagFound)

/-- Load, two caches, L1 (lines 343-367): the eviction is guarded by
`L1evictLRU` alone. -/
def lwL1Row (L1curr_tag : Int) (row : List Int) : List Int × Bool :=
  let sc := scanLoop L1curr_tag row row.length
  if sc.evictLRU then (shiftInsert 1 L1curr_tag sc.row, sc.tagFound)
  else (sc.row, sc.tagFound)

/-- Load, two caches, L2 (lines 375-399). -/
def lwL2Row (L2curr_tag : Int) (row : List Int) : List Int × Bool :=
  let sc := scanLoop L2curr_tag row row.length
  if sc.evictLRU && !sc.tagFound then (shiftInsert 1 L2curr_tag sc.row, sc.tagFound)
  else (sc.row, sc.tagFound)

/-- Store, two caches, L1 (lines 468-492). -/
def swL1Row (L1curr_tag : Int) (row : List Int) : List Int × Bool :=
  let sc := scanLoop L1curr_tag row row.length
  if sc.evictLRU && !sc.tagFound then (shiftInsert 1 L1curr_tag sc.row, sc.tagFound)
  else (sc.row, sc.tagFound)

/-- Store, two caches, L2 (lines 495-519). -/
def swL2Row (L2curr_tag : Int) (row : List Int) : List Int × Bool :=
  let sc := scanLoop L2curr_tag row row.length
  if sc.evictLRU && !sc.tagFound then (shiftInsert 1 L2curr_tag sc.row, sc.tagFound)
  else (sc.row, sc.tagFound)

/-! ## Cache accesses -/

/-- First argument of `print_log_entry`. -/
inductive CacheName
  | L1
  | L2
  deriving DecidableEq

/-- Second argument of `print_log_entry`. -/
inductive Status
  | HIT
  | MISS
  | SW
  deriving DecidableEq

/-- One line written by `print_log_entry`. -/
structure LogEntry where
  cache_name : CacheName
  status : Status
  pc : Nat
  addr : Nat
  row : Int
  deriving DecidableEq

/-- The function `print_log_entry`, as the record of its arguments. -/
def print_log_entry (cache_name : CacheName) (status : Status) (pc addr : Nat) (row : Int) :
    LogEntry :=
  { cache_name := cache_name, status := status, pc := pc, addr := addr, row := row }

/-- The three `int` lines `blockid = address / blocksize; index = blockid % rows;
curr_tag = blockid / rows`, as `(index, curr_tag)`; `none` on a division by
zero. -/
def decompose (address : Nat) (blocksize rows : Int) : Option (Int × Int) :=
  if blocksize = 0 then none
  else if rows = 0 then none
  else
    let blockid := Int.tdiv (address : Int) blocksize
    some (Int.tmod blockid rows, Int.tdiv blockid rows)

/-- Run the row code `f` on `cache[index]` in place; `none` when `index` is
outside the vector or the row has no slot. -/
def onRow (cache : List (List Int)) (index : Int) (f : List Int → List Int × Bool) :
    Option (List (List Int) × Bool) :=
  if index < 0 then none
  else
    match cache.get? index.toNat with
    | none => none
    | some row =>
      if row.length = 0 then none
      else some (cache.set index.toNat (f row).1, (f row).2)

/-- The single-cache configuration (`parts.size() == 3`). -/
structure OneCache where
  c1L1blocksize : Int
  c1L1rows : Int
  cache : List (List Int)

/-- The two-level configuration (`parts.size() == 6`). -/
structure TwoCaches where
  c2L1blocksize : Int
  c2L1rows : Int
  c2L2blocksize : Int
  c2L2rows : Int
  L1cache : List (List Int)
  L2cache : List (List Int)

/-- The cache simulated by the run. -/
inductive CacheSim
  | one (c : OneCache)
  | two (c : TwoCaches)

/-- Load with one cache (lines 289-328). -/
def lwOne (c : OneCache) (pc address : Nat) : Option (OneCache × List LogEntry) :=
  match decompose address c.c1L1blocksize c.c1L1rows with
  | none => none
  | some (index, curr_tag) =>
    match onRow c.cache index (lwOneRow curr_tag) with
    | none => none
    | some (cache1, tagFound) =>
      some ({ c with cache := cache1 },
        [print_log_entry CacheName.L1 (if tagFound then Status.HIT else Status.MISS)
          pc address index])

/-- Store with one cache (lines 420-453). -/
def swOne (c : OneCache) (pc address : Nat) : Option (OneCache × List LogEntry) :=
  match decompose address c.c1L1blocksize c.c1L1rows with
  | none => none
  | some (index, curr_tag) =>
    match onRow c.cache index (swOneRow curr_tag) with
    | none => none
    | some (cache1, _) =>
      some ({ c with cache := cache1 }, [print_log_entry CacheName.L1 Status.SW pc address index])

/-- Load with two caches (lines 330-408): both decompositions are computed
first; L2 is touched only after an L1 miss. -/
def lwTwo (c : TwoCaches) (pc address : Nat) : Option (TwoCaches × List LogEntry) :=
  match decompose address c.c2L1blocksize c.c2L1rows with
  | none => none
  | some (L1index, L1curr_tag) =>
    match decompose address c.c2L2blocksize c.c2L2rows with
    | none => none
    | some (L2index, L2curr_tag) =>
      match onRow c.L1cache L1index (lwL1Row L1curr_tag) with
      | none => none
      | some (l1, L1tagFound) =>
        if L1tagFound then
          some ({ c with L1cache := l1 },
            [print_log_entry CacheName.L1 Status.HIT pc address L1index])
        else
          match onRow c.L2cache L2index (lwL2Row L2curr_tag) with
          | none => none
          | some (l2, L2tagFound) =>
            some ({ c with L1cache := l1, L2cache := l2 },
              [print_log_entry CacheName.L1 Status.MISS pc address L1index,
               print_log_entry CacheName.L2 (if L2tagFound then Status.HIT else Status.MISS)
                 pc address L2index])

/-- Store with two caches (lines 455-521). -/
def swTwo (c : TwoCaches) (pc address : Nat) : Option (TwoCaches × List LogEntry) :=
  match decompose address c.c2L1blocksize c.c2L1rows with
  | none => none
  | some (L1index, L1curr_tag) =>
    match decompose address c.c2L2blocksize c.c2L2rows with
    | none => none
    | some (L2index, L2curr_tag) =>
      match onRow c.L1cache L1index (swL1Row L1curr_tag) with
      | none => none
      | some (l1, _) =>
        match onRow c.L2cache L2index (swL2Row L2curr_tag) with
        | none => none
        | some (l2, _) =>
          some ({ c with L1cache := l1, L2cache := l2 },
            [print_log_entry CacheName.L1 Status.SW pc address L1index,
             print_log_entry CacheName.L2 Status.SW pc address L2index])

/-- The cache part of the `lw` branch. -/
def lwCache (sim : CacheSim) (pc address : Nat) : Option (CacheSim × List LogEntry) :=
  match sim with
  | CacheSim.one c =>
    match lwOne c pc address with
    | none => none
    | some (c1, log) => some (CacheSim.one c1, log)
  | CacheSim.two c =>
    match lwTwo c pc address with
    | none => none
    | some (c1, log) => some (CacheSim.two c1, log)

/-- The cache part of the `sw` branch. -/
def swCache (sim : CacheSim) (pc address : Nat) : Option (CacheSim × List LogEntry) :=
  match sim with
  | CacheSim.one c =>
    match swOne c pc address with
    | none => none
    | some (c1, log) => some (CacheSim.one c1, log)
  | CacheSim.two c =>
    match swTwo c pc address with
    | none => none
    | some (c1, log) => some (CacheSim.two c1, log)

/-! ## The cache-enabled engine (`E20_Cache.cpp`, lines 219-561) -/

/-- Branch `opcode == 0` of `E20_Cache.cpp` (lines 223-261): `pc += 1` stands
after `if (dst != 0)`. -/
def rtypeCache (s : State) (curr_instruction : Nat) : State :=
  let srcA := (curr_instruction >>> 10) &&& 7
  let srcB := (curr_instruction >>> 7) &&& 7
  let dst := (curr_instruction >>> 4) &&& 7
  let s1 : State :=
    if dst ≠ 0 then
      if curr_instruction &&& 15 = 0 then
        setReg s dst ((s.registers srcA + s.registers srcB) % 65536)
      else if curr_instruction &&& 15 = 1 then
        setReg s dst (toU16 ((s.registers srcA : Int) - (s.registers srcB : Int)))
      else if curr_instruction &&& 15 = 2 then
        setReg s dst ((s.registers srcA ||| s.registers srcB) % 65536)
      else if curr_instruction &&& 15 = 3 then
        setReg s dst ((s.registers srcA &&& s.registers srcB) % 65536)
      else if curr_instruction &&& 15 = 4 then
        setReg s dst (if s.registers srcA < s.registers srcB then 1 else 0)
      else s
    else s
  let s2 := setPc s1 ((s1.pc + 1) % 65536)
  if curr_instruction &&& 15 = 8 then setPc s2 (s2.registers srcA) else s2

/-- Branch `opcode == 4`, lw, of `E20_Cache.cpp` (lines 279-409): the address
is computed first, memory is read only when `dst != 0`, the cache is touched
in both cases, and the log carries the `pc` of the instruction. -/
def lwCached (sim : CacheSim) (s : State) (curr_instruction : Nat) :
    Option (State × CacheSim × List LogEntry) :=
  let srcA := (curr_instruction >>> 10) &&& 7
  let dst := (curr_instruction >>> 7) &&& 7
  let imm := signExtender7B (curr_instruction &&& 127) % 65536
  let address := (s.registers srcA + imm) % 65536
  let loaded : Option State :=
    if dst ≠ 0 then
      if address < 8192 then some (setReg s dst (s.memory address)) else none
    else some s
  match loaded with
  | none => none
  | some s1 =>
    match lwCache sim s1.pc address with
    | none => none
    | some (sim1, log) => some (setPc s1 ((s1.pc + 1) % 65536), sim1, log)

/-- Branch `opcode == 5`, sw, of `E20_Cache.cpp` (lines 412-522). -/
def swCached (sim : CacheSim) (s : State) (curr_instruction : Nat) :
    Option (State × CacheSim × List LogEntry) :=
  let srcA := (curr_instruction >>> 10) &&& 7
  let srcB := (curr_instruction >>> 7) &&& 7
  let imm := signExtender7B (curr_instruction &&& 127) % 65536
  let address := (s.registers srcA + imm) % 65536
  if address < 8192 then
    let s1 := setMem s address (s.registers srcB)
    match swCache sim s1.pc address with
    | none => none
    | some (sim1, log) => some (setPc s1 ((s1.pc + 1) % 65536), sim1, log)
  else none

/-- The body of the loop `while (!halt && pc < 8192)` of `E20_Cache.cpp` on the
fetched word: the new state, the new cache and the log lines written.  There
is no `pc %= 8192` in this loop. -/
def execCache (sim : CacheSim) (s : State) (curr_instruction : Nat) :
    Option (State × CacheSim × List LogEntry) :=
  let opcode := curr_instruction >>> 13
  if opcode = 0 then some (rtypeCache s curr_instruction, sim, [])
  else if opcode = 7 then some (execSlti s curr_instruction, sim, [])
  else if opcode = 4 then lwCached sim s curr_instruction
  else if opcode = 5 then swCached sim s curr_instruction
  else if opcode = 6 then some (execJeq s curr_instruction, sim, [])
  else if opcode = 1 then some (execAddi s curr_instruction, sim, [])
  else if opcode = 2 then some (execJ s curr_instruction, sim, [])
  else if opcode = 3 then some (execJal s curr_instruction, sim, [])
  else some (s, sim, [])

/-- One iteration of the cache-enabled loop, entered only with `pc < 8192`. -/
def stepCache (sim : CacheSim) (s : State) : Option (State × CacheSim × List LogEntry) :=
  execCache sim s (s.memory s.pc)

/-- States and caches the cache-enabled engine passes through at the head of
its loop, from the loaded memory and the cache built from the configuration. -/
inductive ReachableCache (mem : Nat → Nat) (sim0 : CacheSim) : State → CacheSim → Prop
  | init : ReachableCache mem sim0 (initState mem) sim0
  | step (s s1 : State) (sim sim1 : CacheSim) (log : List LogEntry) :
      ReachableCache mem sim0 s sim → s.halt = false → s.pc < 8192 →
      stepCache sim s = some (s1, sim1, log) → ReachableCache mem sim0 s1 sim1

/-! ## Predicates and reference definitions used by the statements -/

/-- The ordering invariant of a set: no valid tag stands before an unused slot
(`-1`), so all unused slots come first. -/
def Ordered (row : List Int) : Prop :=
  List.Pairwise (fun a b => b = -1 → a = -1) row

instance (row : List Int) : Decidable (Ordered row) := by
  unfold Ordered; infer_instance

/-- No valid tag occurs twice in the row (unused slots may repeat). -/
def NoDupTags (row : List Int) : Prop :=
  (row.filter (fun x => decide (x ≠ -1))).Nodup

instance (row : List Int) : Decidable (NoDupTags row) := by
  unfold NoDupTags; infer_instance

/-- Reference LRU update of a set, after the lookup algorithm of the
specification: a tag that is present is taken out and put at the back, the
others keeping their order; otherwise the front entry is dropped and the tag
put at the back. -/
def lruReference (t : Int) (row : List Int) : List Int :=
  if t ∈ row then row.filter (fun x => decide (x ≠ t)) ++ [t] else row.tail ++ [t]

/-- A sequence of accesses to one set by the row code `f`, each on the row the
previous one left: the final row and the classification of each access as it
is logged by a load (`tagFound ? HIT : MISS`). -/
def accessSeq (f : Int → List Int → List Int × Bool) : List Int → List Int → List Int × List Status
  | row, [] => (row, [])
  | row, t :: ts =>
    ((accessSeq f (f t row).1 ts).1,
      (if (f t row).2 then Status.HIT else Status.MISS) :: (accessSeq f (f t row).1 ts).2)

/-- A cache as the configuration code builds it from a usable geometry:
positive block size and row count, `rows` rows, each with at least one slot. -/
def WFCache (blocksize rows : Int) (cache : List (List Int)) : Prop :=
  0 < blocksize ∧ 0 < rows ∧ cache.length = rows.toNat ∧ ∀ row ∈ cache, row ≠ []

instance (blocksize rows : Int) (cache : List (List Int)) :
    Decidable (WFCache blocksize rows cache) := by
  unfold WFCache; infer_instance

/-- Both levels of a two-level configuration are well formed. -/
def WFTwo (c : TwoCaches) : Prop :=
  WFCache c.c2L1blocksize c.c2L1rows c.L1cache ∧ WFCache c.c2L2blocksize c.c2L2rows c.L2cache

instance (c : TwoCaches) : Decidable (WFTwo c) := by
  unfold WFTwo; infer_instance

/-- The loop `while (!halt && pc < 8192)` of `E20_Cache.cpp`, cut after `n`
iterations: the state, the cache and the log lines written so far. -/
def runCache : Nat → CacheSim → State → Option (State × CacheSim × List LogEntry)
  | 0, sim, s => some (s, sim, [])
  | n + 1, sim, s =>
    if s.halt = false ∧ s.pc < 8192 then
      match stepCache sim s with
      | none => none
      | some (s1, sim1, log) =>
        match runCache n sim1 s1 with
        | none => none
        | some (s2, sim2, log2) => some (s2, sim2, log ++ log2)
    else some (s, sim, [])

/-! ## Cache construction (`E20_Cache.cpp`, lines 190-211) -/

/-- The row count `size / (assoc * blocksize)` in `int` arithmetic: `none` on a
signed overflow or a division by zero. -/
def rowCount (size assoc blocksize : Int) : Option Int :=
  if assoc * blocksize < -2147483648 ∨ 2147483647 < assoc * blocksize then none
  else if assoc * blocksize = 0 then none
  else if size = -2147483648 ∧ assoc * blocksize = -1 then none
  else some (Int.tdiv size (assoc * blocksize))

/-- The value `vector<vector<int>>(rows, vector<int>(assoc, -1))`: `none` when a
count is negative, where the constructor throws. -/
def buildCache (rows assoc : Int) : Option (List (List Int)) :=
  if rows < 0 ∨ assoc < 0 then none
  else some (List.replicate rows.toNat (List.replicate assoc.toNat (-1)))

/-- The configuration branch `parts.size() == 3`. -/
def initOne (size assoc blocksize : Int) : Option OneCache :=
  match rowCount size assoc blocksize with
  | none => none
  | some rows =>
    match buildCache rows assoc with
    | none => none
    | some cache => some { c1L1blocksize := blocksize, c1L1rows := rows, cache := cache }

/-- The configuration branch `parts.size() == 6`. -/
def initTwo (L1size L1assoc L1blocksize L2size L2assoc L2blocksize : Int) : Option TwoCaches :=
  match rowCount L1size L1assoc L1blocksize with
  | none => none
  | some L1rows =>
    match rowCount L2size L2assoc L2blocksize with
    | none => none
    | some L2rows =>
      match buildCache L1rows L1assoc with
      | none => none
      | some L1cache =>
        match buildCache L2rows L2assoc with
        | none => none
        | some L2cache =>
          some { c2L1blocksize := L1blocksize, c2L1rows := L1rows,
                 c2L2blocksize := L2blocksize, c2L2rows := L2rows,
                 L1cache := L1cache, L2cache := L2cache }

/-! ## Invariants of a cache -/

/-- Every set of the cache has exactly `A` slots and satisfies the ordering
invariant. -/
def CacheInv (A : Nat) (cache : List (List Int)) : Prop :=
  ∀ row ∈ cache, row.length = A ∧ Ordered row

instance (A : Nat) (cache : List (List Int)) : Decidable (CacheInv A cache) := by
  unfold CacheInv; infer_instance

/-- The set invariant of the simulated cache, with the part of the geometry
that keeps tags from being negative: a positive block size and a row count
that is not negative.  `A1` and `A2` are the associativities of L1 and L2. -/
def SimInv (A1 A2 : Nat) : CacheSim → Prop
  | CacheSim.one c => 0 < c.c1L1blocksize ∧ 0 ≤ c.c1L1rows ∧ CacheInv A1 c.cache
  | CacheSim.two c =>
    (0 < c.c2L1blocksize ∧ 0 ≤ c.c2L1rows ∧ CacheInv A1 c.L1cache) ∧
    (0 < c.c2L2blocksize ∧ 0 ≤ c.c2L2rows ∧ CacheInv A2 c.L2cache)

/-- A well-formed simulated cache, one or two levels. -/
def WFSim : CacheSim → Prop
  | CacheSim.one c => WFCache c.c1L1blocksize c.c1L1rows c.cache
  | CacheSim.two c => WFTwo c

instance (sim : CacheSim) : Decidable (WFSim sim) := by
  cases sim <;> unfold WFSim <;> infer_instance

instance (A1 A2 : Nat) (sim : CacheSim) : Decidable (SimInv A1 A2 sim) := by
  cases sim <;> unfold SimInv <;> infer_instance

/-- Reference for a miss with free capacity, after the lookup algorithm of the
specification: the entries between the found empty slot `i` and the end move
forward by one, filling the slot, and the tag is put at the back. -/
def specFreeInsert (row : List Int) (i : Nat) (t : Int) : List Int :=
  row.take i ++ row.drop (i + 1) ++ [t]

/-! ## Sign extension -/

set_option maxRecDepth 100000 in
/-- All 128 immediates, by evaluation. -/
theorem signExtender7B_cases : ∀ i : Fin 128,
    (i.val < 64 → signExtender7B i.val = i.val) ∧
    (64 ≤ i.val → signExtender7B i.val = i.val ||| 0xFF80 ∧
      (signExtender7B i.val : Int) = ((i.val : Int) - 128) % 65536) := by
  decide

/-- C1, as amended: for every 7-bit immediate `i`, `signExtender7B i` is `i`
when `i < 64` and `i | 0xFF80` when `64 <= i <= 127`; in the second case this
is `(i - 128) mod 2^16`, the 16-bit two's-complement encoding of the signed
7-bit value; `5 -> 5`, `65 -> 0xFFC1`, `127 -> 0xFFFF`. -/
theorem signExtender7B_spec (i : Nat) (h : i ≤ 127) :
    (i < 64 → signExtender7B i = i) ∧
    (64 ≤ i → signExtender7B i = i ||| 0xFF80 ∧
      (signExtender7B i : Int) = ((i : Int) - 128) % 65536) ∧
    signExtender7B 5 = 5 ∧ signExtender7B 65 = 0xFFC1 ∧ signExtender7B 127 = 0xFFFF := by
  have hi := signExtender7B_cases ⟨i, by omega⟩
  exact ⟨hi.1, hi.2, by decide, by decide, by decide⟩

/-- Witness of C1 at the immediate 65. -/
theorem signExtender7B_spec_witness :
    (65 < 64 → signExtender7B 65 = 65) ∧
    (64 ≤ 65 → signExtender7B 65 = 65 ||| 0xFF80 ∧
      (signExtender7B 65 : Int) = ((65 : Int) - 128) % 65536) ∧
    signExtender7B 5 = 5 ∧ signExtender7B 65 = 0xFFC1 ∧ signExtender7B 127 = 0xFFFF :=
  signExtender7B_spec 65 (by decide)

/-- C1, the example as written: the immediate 65 is not extended to `0xFF81`;
the result is `0xFFC1`, which is `65 | 0xFF80` and `(65 - 128) mod 2^16`. -/
theorem signExtender7B_65_counterexample :
    signExtender7B 65 ≠ 0xFF81 ∧ signExtender7B 65 = 0xFFC1 ∧
      (65 ||| 0xFF80 : Nat) = 0xFFC1 ∧ (((65 : Int) - 128) % 65536) = 0xFFC1 := by
  decide

/-! ## The zero register -/

@[simp] theorem setReg_registers (s : State) (dst v r : Nat) :
    (setReg s dst v).registers r = if r = dst then v else s.registers r := rfl

@[simp] theorem setReg_memory (s : State) (dst v : Nat) :
    (setReg s dst v).memory = s.memory := rfl

@[simp] theorem setReg_pc (s : State) (dst v : Nat) : (setReg s dst v).pc = s.pc := rfl

@[simp] theorem setReg_halt (s : State) (dst v : Nat) : (setReg s dst v).halt = s.halt := rfl

@[simp] theorem setMem_registers (s : State) (a v : Nat) :
    (setMem s a v).registers = s.registers := rfl

@[simp] theorem setMem_memory (s : State) (a v x : Nat) :
    (setMem s a v).memory x = if x = a then v else s.memory x := rfl

@[simp] theorem setMem_pc (s : State) (a v : Nat) : (setMem s a v).pc = s.pc := rfl

@[simp] theorem setMem_halt (s : State) (a v : Nat) : (setMem s a v).halt = s.halt := rfl

@[simp] theorem setPc_registers (s : State) (v : Nat) : (setPc s v).registers = s.registers := rfl

@[simp] theorem setPc_memory (s : State) (v : Nat) : (setPc s v).memory = s.memory := rfl

@[simp] theorem setPc_pc (s : State) (v : Nat) : (setPc s v).pc = v := rfl

@[simp] theorem setPc_halt (s : State) (v : Nat) : (setPc s v).halt = s.halt := rfl

/-- Shape of the R-type branch of the no-cache engine: `pc` is set, and at
most the register `dst`, which is then not register 0, is written. -/
theorem rtypeProcessor_shape (s : State) (w : Nat) :
    ∃ p, rtypeProcessor s w = setPc s p ∨
      ∃ v, (w >>> 4) &&& 7 ≠ 0 ∧ rtypeProcessor s w = setPc (setReg s ((w >>> 4) &&& 7) v) p := by
  unfold rtypeProcessor
  lift_lets
  extract_lets srcA srcB dst s1
  have hs1 : ∃ p, s1 = setPc s p ∨ ∃ v, dst ≠ 0 ∧ s1 = setPc (setReg s dst v) p := by
    simp only [s1]
    generalize w &&& 15 = func
    clear_value dst srcA srcB
    clear s1
    repeat' split
    all_goals first
      | exact ⟨_, Or.inl rfl⟩
      | exact ⟨_, Or.inr ⟨_, by assumption, rfl⟩⟩
  clear_value s1
  obtain ⟨p, hp | ⟨v, hd, hp⟩⟩ := hs1
  · subst hp
    split
    · exact ⟨_, Or.inl rfl⟩
    · exact ⟨_, Or.inl rfl⟩
  · subst hp
    split
    · exact ⟨_, Or.inr ⟨_, hd, rfl⟩⟩
    · exact ⟨_, Or.inr ⟨_, hd, rfl⟩⟩

/-- Shape of the R-type branch of the cache-enabled engine. -/
theorem rtypeCache_shape (s : State) (w : Nat) :
    ∃ p, rtypeCache s w = setPc s p ∨
      ∃ v, (w >>> 4) &&& 7 ≠ 0 ∧ rtypeCache s w = setPc (setReg s ((w >>> 4) &&& 7) v) p := by
  unfold rtypeCache
  lift_lets
  extract_lets srcA srcB dst s1 s2
  have hs1 : s1 = s ∨ ∃ v, dst ≠ 0 ∧ s1 = setReg s dst v := by
    simp only [s1]
    generalize w &&& 15 = func
    clear_value dst srcA srcB
    clear s2 s1
    repeat' split
    all_goals first
      | exact Or.inl rfl
      | exact Or.inr ⟨_, by assumption, rfl⟩
  simp only [s2]
  clear s2
  clear_value s1
  obtain hp | ⟨v, hd, hp⟩ := hs1
  · subst hp
    split
    · exact ⟨_, Or.inl rfl⟩
    · exact ⟨_, Or.inl rfl⟩
  · subst hp
    split
    · exact ⟨_, Or.inr ⟨_, hd, rfl⟩⟩
    · exact ⟨_, Or.inr ⟨_, hd, rfl⟩⟩

/-- The R-type branch of the no-cache engine leaves `registers[0]` alone. -/
theorem rtypeProcessor_reg0 (s : State) (w : Nat) :
    (rtypeProcessor s w).registers 0 = s.registers 0 := by
  obtain ⟨p, h | ⟨v, hd, h⟩⟩ := rtypeProcessor_shape s w
  · rw [h]; rfl
  · rw [h]
    simp only [setPc_registers, setReg_registers]
    exact if_neg (Ne.symm hd)

/-- The R-type branch of the cache-enabled engine leaves `registers[0]` alone. -/
theorem rtypeCache_reg0 (s : State) (w : Nat) :
    (rtypeCache s w).registers 0 = s.registers 0 := by
  obtain ⟨p, h | ⟨v, hd, h⟩⟩ := rtypeCache_shape s w
  · rw [h]; rfl
  · rw [h]
    simp only [setPc_registers, setReg_registers]
    exact if_neg (Ne.symm hd)

theorem execSlti_reg0 (s : State) (w : Nat) : (execSlti s w).registers 0 = s.registers 0 := by
  unfold execSlti
  simp only []
  split_ifs <;> simp <;> omega

theorem execAddi_reg0 (s : State) (w : Nat) : (execAddi s w).registers 0 = s.registers 0 := by
  unfold execAddi
  simp only []
  split_ifs <;> simp <;> omega

theorem execJeq_registers (s : State) (w : Nat) : (execJeq s w).registers = s.registers := by
  unfold execJeq
  simp only []
  split_ifs <;> simp

theorem execJ_registers (s : State) (w : Nat) : (execJ s w).registers = s.registers := by
  unfold execJ
  simp only []
  split_ifs <;> simp

theorem execJal_reg0 (s : State) (w : Nat) : (execJal s w).registers 0 = s.registers 0 := by
  simp [execJal]

theorem lwProcessor_reg0 (s s1 : State) (w : Nat) (h : lwProcessor s w = some s1) :
    s1.registers 0 = s.registers 0 := by
  unfold lwProcessor at h
  simp only [] at h
  split_ifs at h with h1 h2 <;> injection h with h <;> subst h <;> simp
  omega

theorem swProcessor_registers (s s1 : State) (w : Nat) (h : swProcessor s w = some s1) :
    s1.registers = s.registers := by
  unfold swProcessor at h
  simp only [] at h
  split_ifs at h with h1 <;> injection h with h <;> subst h <;> simp

theorem lwCached_reg0 (sim sim1 : CacheSim) (s s1 : State) (w : Nat) (log : List LogEntry)
    (h : lwCached sim s w = some (s1, sim1, log)) : s1.registers 0 = s.registers 0 := by
  unfold lwCached at h
  simp only [] at h
  split at h
  · exact absurd h (by simp)
  · rename_i s2 hs2
    split at h
    · exact absurd h (by simp)
    · rename_i sim2 log2 hc
      simp only [Option.some.injEq, Prod.mk.injEq] at h
      obtain ⟨h, -, -⟩ := h
      subst h
      split_ifs at hs2 with h1 h2
      · injection hs2 with hs2
        subst hs2
        simp
        omega
      · injection hs2 with hs2
        subst hs2
        simp

theorem swCached_registers (sim sim1 : CacheSim) (s s1 : State) (w : Nat) (log : List LogEntry)
    (h : swCached sim s w = some (s1, sim1, log)) : s1.registers = s.registers := by
  unfold swCached at h
  simp only [] at h
  split_ifs at h with h1
  split at h
  · exact absurd h (by simp)
  · simp only [Option.some.injEq, Prod.mk.injEq] at h
    obtain ⟨h, -, -⟩ := h
    subst h
    simp

/-- Inversion of the no-cache loop body: which branch ran, by opcode. -/
theorem execProcessor_inv (s s1 : State) (w : Nat) (h : execProcessor s w = some s1) :
    ∃ b, s1 = setPc b (b.pc % 8192) ∧
      ((w >>> 13 = 0 ∧ b = rtypeProcessor s w) ∨ (w >>> 13 = 7 ∧ b = execSlti s w) ∨
       (w >>> 13 = 4 ∧ lwProcessor s w = some b) ∨ (w >>> 13 = 5 ∧ swProcessor s w = some b) ∨
       (w >>> 13 = 6 ∧ b = execJeq s w) ∨ (w >>> 13 = 1 ∧ b = execAddi s w) ∨
       (w >>> 13 = 2 ∧ b = execJ s w) ∨ (w >>> 13 = 3 ∧ b = execJal s w) ∨
       (8 ≤ w >>> 13 ∧ b = s)) := by
  unfold execProcessor at h
  simp only [] at h
  split at h
  · exact absurd h (by simp)
  · rename_i b hb
    injection h with h
    refine ⟨b, h.symm, ?_⟩
    clear h
    generalize w >>> 13 = opcode at hb ⊢
    split_ifs at hb with h0 h7 h4 h5 h6 h1 h2 h3
    · injection hb with hb; exact Or.inl ⟨h0, hb.symm⟩
    · injection hb with hb; exact Or.inr (Or.inl ⟨h7, hb.symm⟩)
    · exact Or.inr (Or.inr (Or.inl ⟨h4, hb⟩))
    · exact Or.inr (Or.inr (Or.inr (Or.inl ⟨h5, hb⟩)))
    · injection hb with hb; exact Or.inr (Or.inr (Or.inr (Or.inr (Or.inl ⟨h6, hb.symm⟩))))
    · injection hb with hb
      exact Or.inr (Or.inr (Or.inr (Or.inr (Or.inr (Or.inl ⟨h1, hb.symm⟩)))))
    · injection hb with hb
      exact Or.inr (Or.inr (Or.inr (Or.inr (Or.inr (Or.inr (Or.inl ⟨h2, hb.symm⟩))))))
    · injection hb with hb
      exact Or.inr (Or.inr (Or.inr (Or.inr (Or.inr (Or.inr (Or.inr (Or.inl ⟨h3, hb.symm⟩)))))))
    · injection hb with hb
      exact Or.inr (Or.inr (Or.inr (Or.inr (Or.inr (Or.inr (Or.inr (Or.inr
        ⟨by omega, hb.symm⟩)))))))

/-- Inversion of the cache-enabled loop body: which branch ran, by opcode. -/
theorem execCache_inv (sim sim1 : CacheSim) (s s1 : State) (w : Nat) (log : List LogEntry)
    (h : execCache sim s w = some (s1, sim1, log)) :
    (w >>> 13 = 0 ∧ s1 = rtypeCache s w ∧ sim1 = sim ∧ log = []) ∨
    (w >>> 13 = 7 ∧ s1 = execSlti s w ∧ sim1 = sim ∧ log = []) ∨
    (w >>> 13 = 4 ∧ lwCached sim s w = some (s1, sim1, log)) ∨
    (w >>> 13 = 5 ∧ swCached sim s w = some (s1, sim1, log)) ∨
    (w >>> 13 = 6 ∧ s1 = execJeq s w ∧ sim1 = sim ∧ log = []) ∨
    (w >>> 13 = 1 ∧ s1 = execAddi s w ∧ sim1 = sim ∧ log = []) ∨
    (w >>> 13 = 2 ∧ s1 = execJ s w ∧ sim1 = sim ∧ log = []) ∨
    (w >>> 13 = 3 ∧ s1 = execJal s w ∧ sim1 = sim ∧ log = []) ∨
    (8 ≤ w >>> 13 ∧ s1 = s ∧ sim1 = sim ∧ log = []) := by
  unfold execCache at h
  simp only [] at h
  generalize w >>> 13 = opcode at h ⊢
  split_ifs at h with h0 h7 h4 h5 h6 h1 h2 h3
  · simp only [Option.some.injEq, Prod.mk.injEq] at h
    exact Or.inl ⟨h0, h.1.symm, h.2.1.symm, h.2.2.symm⟩
  · simp only [Option.some.injEq, Prod.mk.injEq] at h
    exact Or.inr (Or.inl ⟨h7, h.1.symm, h.2.1.symm, h.2.2.symm⟩)
  · exact Or.inr (Or.inr (Or.inl ⟨h4, h⟩))
  · exact Or.inr (Or.inr (Or.inr (Or.inl ⟨h5, h⟩)))
  · simp only [Option.some.injEq, Prod.mk.injEq] at h
    exact Or.inr (Or.inr (Or.inr (Or.inr (Or.inl ⟨h6, h.1.symm, h.2.1.symm, h.2.2.symm⟩))))
  · simp only [Option.some.injEq, Prod.mk.injEq] at h
    exact Or.inr (Or.inr (Or.inr (Or.inr (Or.inr (Or.inl
      ⟨h1, h.1.symm, h.2.1.symm, h.2.2.symm⟩)))))
  · simp only [Option.some.injEq, Prod.mk.injEq] at h
    exact Or.inr (Or.inr (Or.inr (Or.inr (Or.inr (Or.inr (Or.inl
      ⟨h2, h.1.symm, h.2.1.symm, h.2.2.symm⟩))))))
  · simp only [Option.some.injEq, Prod.mk.injEq] at h
    exact Or.inr (Or.inr (Or.inr (Or.inr (Or.inr (Or.inr (Or.inr (Or.inl
      ⟨h3, h.1.symm, h.2.1.symm, h.2.2.symm⟩)))))))
  · simp only [Option.some.injEq, Prod.mk.injEq] at h
    exact Or.inr (Or.inr (Or.inr (Or.inr (Or.inr (Or.inr (Or.inr (Or.inr
      ⟨by omega, h.1.symm, h.2.1.symm, h.2.2.symm⟩)))))))

/-- The body of the no-cache loop never changes `registers[0]`. -/
theorem execProcessor_reg0 (s s1 : State) (w : Nat) (h : execProcessor s w = some s1) :
    s1.registers 0 = s.registers 0 := by
  obtain ⟨b, rfl, hb⟩ := execProcessor_inv s s1 w h
  simp only [setPc_registers]
  rcases hb with ⟨-, hb⟩ | ⟨-, hb⟩ | ⟨-, hb⟩ | ⟨-, hb⟩ | ⟨-, hb⟩ | ⟨-, hb⟩ | ⟨-, hb⟩ |
    ⟨-, hb⟩ | ⟨-, hb⟩
  · rw [hb]; exact rtypeProcessor_reg0 s w
  · rw [hb]; exact execSlti_reg0 s w
  · exact lwProcessor_reg0 s b w hb
  · rw [swProcessor_registers s b w hb]
  · rw [hb, execJeq_registers]
  · rw [hb]; exact execAddi_reg0 s w
  · rw [hb, execJ_registers]
  · rw [hb]; exact execJal_reg0 s w
  · rw [hb]

/-- The body of the cache-enabled loop never changes `registers[0]`. -/
theorem execCache_reg0 (sim sim1 : CacheSim) (s s1 : State) (w : Nat) (log : List LogEntry)
    (h : execCache sim s w = some (s1, sim1, log)) : s1.registers 0 = s.registers 0 := by
  rcases execCache_inv sim sim1 s s1 w log h with ⟨-, hb, -⟩ | ⟨-, hb, -⟩ | ⟨-, hb⟩ | ⟨-, hb⟩ |
    ⟨-, hb, -⟩ | ⟨-, hb, -⟩ | ⟨-, hb, -⟩ | ⟨-, hb, -⟩ | ⟨-, hb, -⟩
  · rw [hb]; exact rtypeCache_reg0 s w
  · rw [hb]; exact execSlti_reg0 s w
  · exact lwCached_reg0 sim sim1 s s1 w log hb
  · rw [swCached_registers sim sim1 s s1 w log hb]
  · rw [hb, execJeq_registers]
  · rw [hb]; exact execAddi_reg0 s w
  · rw [hb, execJ_registers]
  · rw [hb]; exact execJal_reg0 s w
  · rw [hb]

/-- C2: if `registers[0]` is 0, it is still 0 after one step of the no-cache
engine and after one step of the cache-enabled engine, for every instruction
word; hence it is 0 in every state either engine reaches from its initial
state. -/
theorem zero_register_invariant :
    (∀ (s s1 : State) (w : Nat), s.registers 0 = 0 → execProcessor s w = some s1 →
      s1.registers 0 = 0) ∧
    (∀ (sim sim1 : CacheSim) (s s1 : State) (w : Nat) (log : List LogEntry),
      s.registers 0 = 0 → execCache sim s w = some (s1, sim1, log) → s1.registers 0 = 0) ∧
    (∀ (mem : Nat → Nat) (s : State), ReachableProcessor mem s → s.registers 0 = 0) ∧
    (∀ (mem : Nat → Nat) (sim0 sim : CacheSim) (s : State),
      ReachableCache mem sim0 s sim → s.registers 0 = 0) := by
  refine ⟨?_, ?_, ?_, ?_⟩
  · intro s s1 w h0 h
    rw [execProcessor_reg0 s s1 w h, h0]
  · intro sim sim1 s s1 w log h0 h
    rw [execCache_reg0 sim sim1 s s1 w log h, h0]
  · intro mem s hr
    induction hr with
    | init => rfl
    | step s s1 _ _ hstep ih =>
      unfold stepProcessor at hstep
      split_ifs at hstep
      rw [execProcessor_reg0 s s1 _ hstep, ih]
  · intro mem sim0 sim s hr
    induction hr with
    | init => rfl
    | step s s1 sim sim1 log _ _ _ hstep ih =>
      rw [execCache_reg0 sim sim1 s s1 _ log hstep, ih]

/-- Witness of C2: `addi $1,$0,5` (word `0x2085`) in the no-cache engine and
`lw $1,0($0)` (word `0x8080`) in the cache-enabled engine with a one-row,
one-way cache, both from the initial state over a zeroed memory. -/
theorem zero_register_invariant_witness :
    (execProcessor (initState fun _ => 0) 0x2085
        = some (setPc (setReg (initState fun _ => 0) 1 5) 1) ∧
      (setPc (setReg (initState fun _ => 0) 1 5) 1).registers 0 = 0) ∧
    (execCache (CacheSim.one ⟨1, 1, [[-1]]⟩) (initState fun _ => 0) 0x8080
        = some (setPc (setReg (initState fun _ => 0) 1 0) 1, CacheSim.one ⟨1, 1, [[0]]⟩,
            [print_log_entry CacheName.L1 Status.MISS 0 0 0]) ∧
      (setPc (setReg (initState fun _ => 0) 1 0) 1).registers 0 = 0) :=
  ⟨⟨rfl, zero_register_invariant.1 (initState fun _ => 0) _ 0x2085 rfl rfl⟩,
   ⟨rfl, zero_register_invariant.2.1 (CacheSim.one ⟨1, 1, [[-1]]⟩) _ (initState fun _ => 0) _
      0x8080 _ rfl rfl⟩⟩

/-! ## Program counter and halting in the no-cache engine -/

/-- C3, at the failing input: the word `0x0000` (`add $0,$0,$0`, which is also
what a zeroed memory holds) leaves `pc` at 0 in the no-cache engine, not at
`(0 + 1) mod 8192`, so the loop never leaves that instruction; the
cache-enabled engine advances `pc` to 1 on the same word. -/
theorem pc_stuck_on_rtype_dst_zero :
    execProcessor (initState fun _ => 0) 0 = some (initState fun _ => 0) ∧
    (initState fun _ => 0).pc ≠ ((initState fun _ => 0).pc + 1) % 8192 ∧
    (∀ n, runProcessor n (initState fun _ => 0) = some (initState fun _ => 0)) ∧
    execCache (CacheSim.one ⟨1, 1, [[-1]]⟩) (initState fun _ => 0) 0
      = some (setPc (initState fun _ => 0) 1, CacheSim.one ⟨1, 1, [[-1]]⟩, []) := by
  refine ⟨rfl, by decide, ?_, rfl⟩
  intro n
  induction n with
  | zero => rfl
  | succ n ih =>
    have hstep : stepProcessor (initState fun _ => 0) = some (initState fun _ => 0) := rfl
    simp only [runProcessor, hstep]
    exact ih

theorem rtypeProcessor_halt (s : State) (w : Nat) : (rtypeProcessor s w).halt = s.halt := by
  obtain ⟨p, h | ⟨v, _, h⟩⟩ := rtypeProcessor_shape s w <;> rw [h] <;> rfl

theorem rtypeCache_halt (s : State) (w : Nat) : (rtypeCache s w).halt = s.halt := by
  obtain ⟨p, h | ⟨v, _, h⟩⟩ := rtypeCache_shape s w <;> rw [h] <;> rfl

theorem execSlti_halt (s : State) (w : Nat) : (execSlti s w).halt = s.halt := by
  unfold execSlti
  simp only []
  split_ifs <;> rfl

theorem execAddi_halt (s : State) (w : Nat) : (execAddi s w).halt = s.halt := by
  unfold execAddi
  simp only []
  split_ifs <;> rfl

theorem execJeq_halt (s : State) (w : Nat) : (execJeq s w).halt = s.halt := by
  unfold execJeq
  simp only []
  split_ifs <;> rfl

theorem execJal_halt (s : State) (w : Nat) : (execJal s w).halt = s.halt := rfl

theorem lwProcessor_halt (s s1 : State) (w : Nat) (h : lwProcessor s w = some s1) :
    s1.halt = s.halt := by
  unfold lwProcessor at h
  simp only [] at h
  split_ifs at h <;> injection h with h <;> subst h <;> rfl

theorem swProcessor_halt (s s1 : State) (w : Nat) (h : swProcessor s w = some s1) :
    s1.halt = s.halt := by
  unfold swProcessor at h
  simp only [] at h
  split_ifs at h <;> injection h with h <;> subst h <;> rfl

/-- The j branch raises the flag exactly on a jump to the current `pc`. -/
theorem execJ_halt (s : State) (w : Nat) (hrun : s.halt = false) :
    (execJ s w).halt = true ↔ w &&& 8191 = s.pc := by
  unfold execJ
  simp only []
  split_ifs with h
  · simp [h]
  · simp only [setPc_halt, hrun]
    constructor
    · intro h1; exact absurd h1 (by simp)
    · intro h1; exact absurd h1.symm h

/-- A halted state is where the loop stops. -/
theorem runProcessor_halted (s : State) (h : s.halt = true) (n : Nat) :
    runProcessor n s = some s := by
  cases n with
  | zero => rfl
  | succ n => simp [runProcessor, h]

/-- C4: in the no-cache engine one step raises the halt flag if and only if
the fetched word has opcode 010 (j) and its 13-bit target equals the current
`pc`; in that case `pc`, the registers and the memory are unchanged by the
step, and the loop executes no further step. -/
theorem halt_detection (s : State) (w : Nat) (hrun : s.halt = false) :
    (∀ s1, execProcessor s w = some s1 →
      (s1.halt = true ↔ (w >>> 13 = 2 ∧ w &&& 8191 = s.pc))) ∧
    (w >>> 13 = 2 → w &&& 8191 = s.pc →
      ∃ s1, execProcessor s w = some s1 ∧ s1.halt = true ∧ s1.pc = s.pc ∧
        s1.registers = s.registers ∧ s1.memory = s.memory ∧
        ∀ n, runProcessor n s1 = some s1) := by
  constructor
  · intro s1 h
    obtain ⟨b, rfl, hb⟩ := execProcessor_inv s s1 w h
    simp only [setPc_halt]
    rcases hb with ⟨ho, hb⟩ | ⟨ho, hb⟩ | ⟨ho, hb⟩ | ⟨ho, hb⟩ | ⟨ho, hb⟩ | ⟨ho, hb⟩ | ⟨ho, hb⟩ |
      ⟨ho, hb⟩ | ⟨ho, hb⟩
    · rw [hb, rtypeProcessor_halt, hrun]; simp [ho]
    · rw [hb, execSlti_halt, hrun]; simp [ho]
    · rw [lwProcessor_halt s b w hb, hrun]; simp [ho]
    · rw [swProcessor_halt s b w hb, hrun]; simp [ho]
    · rw [hb, execJeq_halt, hrun]; simp [ho]
    · rw [hb, execAddi_halt, hrun]; simp [ho]
    · rw [hb, execJ_halt s w hrun]; simp [ho]
    · rw [hb, execJal_halt, hrun]; simp [ho]
    · rw [hb, hrun]
      constructor
      · intro h1; exact absurd h1 (by simp)
      · intro h1; omega
  · intro h2 hpc
    have hlt : s.pc < 8192 := by
      rw [← hpc]
      exact Nat.lt_of_le_of_lt Nat.and_le_right (by decide)
    have hexec : execProcessor s w = some (setPc (execJ s w) ((execJ s w).pc % 8192)) := by
      unfold execProcessor
      simp [h2]
    have hJ : execJ s w = { s with halt := true } := by
      unfold execJ
      simp [hpc]
    refine ⟨_, hexec, ?_, ?_, ?_, ?_, ?_⟩
    · rw [hJ]; rfl
    · rw [hJ]; exact Nat.mod_eq_of_lt hlt
    · rw [hJ]; rfl
    · rw [hJ]; rfl
    · intro n
      apply runProcessor_halted
      rw [hJ]; rfl

/-- Witness of C4: `j 0` (word `0x4000`) fetched at `pc = 0`. -/
theorem halt_detection_witness :
    (initState fun _ => 0).halt = false ∧
    ((∀ s1, execProcessor (initState fun _ => 0) 0x4000 = some s1 →
      (s1.halt = true ↔ (0x4000 >>> 13 = 2 ∧ 0x4000 &&& 8191 = (initState fun _ => 0).pc))) ∧
    (0x4000 >>> 13 = 2 → 0x4000 &&& 8191 = (initState fun _ => 0).pc →
      ∃ s1, execProcessor (initState fun _ => 0) 0x4000 = some s1 ∧ s1.halt = true ∧
        s1.pc = (initState fun _ => 0).pc ∧
        s1.registers = (initState fun _ => 0).registers ∧
        s1.memory = (initState fun _ => 0).memory ∧
        ∀ n, runProcessor n s1 = some s1)) :=
  ⟨rfl, halt_detection (initState fun _ => 0) 0x4000 rfl⟩

/-! ## Cache rows: what the loops compute -/

/-- Shifting from a later start leaves the front slot alone. -/
theorem shiftLoop_cons (n j : Nat) (a : Int) (row : List Int) (hj : 1 ≤ j) :
    shiftLoop n (j + 1) (a :: row) = a :: shiftLoop n j row := by
  induction n generalizing j row with
  | zero => rfl
  | succ n ih =>
    obtain ⟨k, rfl⟩ : ∃ k, j = k + 1 := ⟨j - 1, by omega⟩
    simp only [shiftLoop, Nat.add_sub_cancel, List.set_cons_succ, List.getD_cons_succ]
    exact ih (k + 1 + 1) _ (by omega)

/-- The shift of a whole row followed by the write of the last slot drops the
front entry and appends the tag. -/
theorem shiftInsert_one (tag b : Int) (row : List Int) :
    shiftInsert 1 tag (b :: row) = row ++ [tag] := by
  unfold shiftInsert
  simp only [List.length_cons, Nat.add_sub_cancel]
  induction row generalizing b with
  | nil => rfl
  | cons c rest ih =>
    simp only [List.length_cons, shiftLoop, Nat.sub_self, List.set_cons_zero,
      List.getD_cons_succ, List.getD_cons_zero]
    rw [shiftLoop_cons _ 1 c (c :: rest) (Nat.le_refl 1)]
    simp only [List.set_cons_succ, List.cons_append, List.cons.injEq, true_and]
    exact ih c

/-- With a later start the front slot is kept. -/
theorem shiftInsert_cons (tag a : Int) (row : List Int) (j : Nat) (hj : 1 ≤ j)
    (hne : row ≠ []) : shiftInsert (j + 1) tag (a :: row) = a :: shiftInsert j tag row := by
  unfold shiftInsert
  have hlen : 0 < row.length := List.length_pos.mpr hne
  have h1 : (a :: row).length - (j + 1) = row.length - j := by simp
  have h2 : (a :: row).length - 1 = (row.length - 1) + 1 := by simp; omega
  rw [h1, h2, shiftLoop_cons _ j a row hj, List.set_cons_succ]

/-- Promotion of the slot after `pre`: the slot is taken out and the tag put at
the back. -/
theorem shiftInsert_split (tag x : Int) (pre suf : List Int) :
    shiftInsert (pre.length + 1) tag (pre ++ x :: suf) = pre ++ suf ++ [tag] := by
  induction pre with
  | nil => exact shiftInsert_one tag x suf
  | cons a pre ih =>
    simp only [List.length_cons, List.cons_append]
    rw [shiftInsert_cons tag a _ (pre.length + 1) (by omega) (by simp), ih]

/-- Slots that hold neither the tag nor `-1` are passed over by the scan. -/
theorem scanLoop_skip (tag : Int) (row : List Int) (n m : Nat)
    (h : ∀ j, n ≤ j → j < n + m → row.getD j 0 ≠ tag ∧ row.getD j 0 ≠ -1) :
    scanLoop tag row (n + m) = scanLoop tag row n := by
  induction m with
  | zero => rfl
  | succ m ih =>
    have hm := h (n + m) (by omega) (by omega)
    rw [← Nat.add_assoc, scanLoop, if_neg hm.1, if_neg hm.2]
    exact ih (fun j h1 h2 => h j h1 (by omega))

/-- A slot behind the split point belongs to the suffix. -/
theorem getD_mem_suffix (pre suf : List Int) (x : Int) (j : Nat) (h1 : pre.length + 1 ≤ j)
    (h2 : j < pre.length + 1 + suf.length) : (pre ++ x :: suf).getD j 0 ∈ suf := by
  have e : pre ++ x :: suf = (pre ++ [x]) ++ suf := by simp
  rw [e, List.getD_append_right _ _ _ _ (by simp; omega)]
  rw [List.getD_eq_getElem _ _ (by simp; omega)]
  exact List.getElem_mem _

theorem getD_split (pre suf : List Int) (x : Int) : (pre ++ x :: suf).getD pre.length 0 = x := by
  rw [List.getD_append_right _ _ _ _ (Nat.le_refl _)]
  simp

/-- The scan started at the back stops at the last slot that holds the tag or
`-1`. -/
theorem scanLoop_stop (tag x : Int) (pre suf : List Int)
    (hsuf : ∀ y ∈ suf, y ≠ tag ∧ y ≠ -1) :
    scanLoop tag (pre ++ x :: suf) (pre ++ x :: suf).length
      = scanLoop tag (pre ++ x :: suf) (pre.length + 1) := by
  have hl : (pre ++ x :: suf).length = (pre.length + 1) + suf.length := by simp; omega
  rw [hl]
  apply scanLoop_skip
  intro j h1 h2
  exact hsuf _ (getD_mem_suffix pre suf x j h1 h2)

/-- Scan, hit: the slot is promoted. -/
theorem scanLoop_hit (tag : Int) (pre suf : List Int)
    (hsuf : ∀ y ∈ suf, y ≠ tag ∧ y ≠ -1) :
    scanLoop tag (pre ++ tag :: suf) (pre ++ tag :: suf).length
      = { row := pre ++ suf ++ [tag], tagFound := true, evictLRU := true } := by
  rw [scanLoop_stop tag tag pre suf hsuf, scanLoop, if_pos (getD_split pre suf tag),
    shiftInsert_split]

/-- Scan, unused slot met first: the whole row is shifted. -/
theorem scanLoop_free (tag : Int) (pre suf : List Int) (htag : tag ≠ -1)
    (hsuf : ∀ y ∈ suf, y ≠ tag ∧ y ≠ -1) :
    scanLoop tag (pre ++ (-1) :: suf) (pre ++ (-1) :: suf).length
      = { row := (pre ++ (-1) :: suf).tail ++ [tag], tagFound := false, evictLRU := false } := by
  rw [scanLoop_stop tag (-1) pre suf hsuf, scanLoop, getD_split,
    if_neg (fun h => htag h.symm), if_pos rfl]
  cases pre with
  | nil => rw [List.nil_append, shiftInsert_one]; rfl
  | cons a pre => rw [List.cons_append, shiftInsert_one]; rfl

/-- Scan, neither the tag nor an unused slot: the row is left as it is. -/
theorem scanLoop_full (tag : Int) (row : List Int) (h : ∀ y ∈ row, y ≠ tag ∧ y ≠ -1) :
    scanLoop tag row row.length = { row := row, tagFound := false, evictLRU := true } := by
  have := scanLoop_skip tag row 0 row.length (fun j _ h2 => by
    rw [Nat.zero_add] at h2
    rw [List.getD_eq_getElem _ _ h2]
    exact h _ (List.getElem_mem _))
  rw [Nat.zero_add] at this
  rw [this]
  rfl

/-- An ordered row is a run of unused slots followed by valid tags. -/
theorem ordered_split {row : List Int} (h : Ordered row) :
    ∃ k tags, row = List.replicate k (-1) ++ tags ∧ ∀ t ∈ tags, t ≠ -1 := by
  induction row with
  | nil => exact ⟨0, [], rfl, by simp⟩
  | cons a rest ih =>
    unfold Ordered at h
    rw [List.pairwise_cons] at h
    obtain ⟨k, tags, hrow, htags⟩ := ih h.2
    by_cases ha : a = -1
    · refine ⟨k + 1, tags, ?_, htags⟩
      rw [ha, hrow, List.replicate_succ, List.cons_append]
    · refine ⟨0, a :: rest, rfl, ?_⟩
      intro t ht
      rcases List.mem_cons.mp ht with rfl | ht
      · exact ha
      · exact fun ht1 => ha (h.1 t ht ht1)

/-- A run of unused slots followed by valid tags is an ordered row. -/
theorem ordered_of_split (k : Nat) (tags : List Int) (h : ∀ t ∈ tags, t ≠ -1) :
    Ordered (List.replicate k (-1) ++ tags) := by
  unfold Ordered
  rw [List.pairwise_append]
  refine ⟨?_, ?_, ?_⟩
  · rw [List.pairwise_replicate]
    exact Or.inr (fun _ => rfl)
  · have p : List.Pairwise (fun (_ _ : Int) => True) tags :=
      List.pairwise_of_forall (fun _ _ => trivial)
    exact p.imp_of_mem (fun _ hb _ hb1 => absurd hb1 (h _ hb))
  · intro a ha b _ _
    exact (List.mem_replicate.mp ha).2

/-- The last occurrence of a member. -/
theorem exists_last_occurrence (a : Int) (l : List Int) (h : a ∈ l) :
    ∃ pre suf, l = pre ++ a :: suf ∧ a ∉ suf := by
  obtain ⟨as, bs, hl, has⟩ := List.eq_append_cons_of_mem (List.mem_reverse.mpr h)
  refine ⟨bs.reverse, as.reverse, ?_, fun hm => has (List.mem_reverse.mp hm)⟩
  have := congrArg List.reverse hl
  simpa using this

/-- What the scan finds on an ordered row, for a tag other than `-1`: the tag
(its last occurrence), or else an unused slot, or else neither. -/
theorem scan_cases (tag : Int) (row : List Int) (hord : Ordered row) (htag : tag ≠ -1) :
    (tag ∈ row ∧ ∃ pre suf, row = pre ++ tag :: suf ∧ tag ∉ suf ∧ (-1 : Int) ∉ suf ∧
      scanLoop tag row row.length
        = { row := pre ++ suf ++ [tag], tagFound := true, evictLRU := true }) ∨
    (tag ∉ row ∧ (-1 : Int) ∈ row ∧
      scanLoop tag row row.length
        = { row := row.tail ++ [tag], tagFound := false, evictLRU := false }) ∨
    (tag ∉ row ∧ (-1 : Int) ∉ row ∧
      scanLoop tag row row.length = { row := row, tagFound := false, evictLRU := true }) := by
  obtain ⟨k, tags, hrow, htags⟩ := ordered_split hord
  by_cases hmem : tag ∈ row
  · left
    refine ⟨hmem, ?_⟩
    have hmt : tag ∈ tags := by
      rw [hrow, List.mem_append] at hmem
      rcases hmem with hm | hm
      · exact absurd (List.mem_replicate.mp hm).2 htag
      · exact hm
    obtain ⟨p, suf, hp, hsuf⟩ := exists_last_occurrence tag tags hmt
    have hs1 : (-1 : Int) ∉ suf := fun hm =>
      htags (-1) (by rw [hp]; exact List.mem_append_right _ (List.mem_cons_of_mem _ hm)) rfl
    have hrow2 : row = (List.replicate k (-1) ++ p) ++ tag :: suf := by
      rw [hrow, hp, List.append_assoc]
    refine ⟨List.replicate k (-1) ++ p, suf, hrow2, hsuf, hs1, ?_⟩
    rw [hrow2]
    exact scanLoop_hit tag _ suf
      (fun y hy => ⟨fun e => hsuf (e ▸ hy), fun e => hs1 (e ▸ hy)⟩)
  · right
    have hnt : ∀ y ∈ tags, y ≠ tag ∧ y ≠ -1 := fun y hy =>
      ⟨fun e => hmem (by rw [hrow, ← e]; exact List.mem_append_right _ hy), htags y hy⟩
    cases k with
    | zero =>
      right
      have hrow2 : row = tags := by rw [hrow]; rfl
      refine ⟨hmem, fun hm => htags (-1) (hrow2 ▸ hm) rfl, ?_⟩
      exact scanLoop_full tag row (fun y hy => hnt y (hrow2 ▸ hy))
    | succ k =>
      left
      have hrow2 : row = List.replicate k (-1) ++ (-1) :: tags := by
        rw [hrow, List.replicate_succ', List.append_assoc]; rfl
      refine ⟨hmem, by rw [hrow2]; simp, ?_⟩
      rw [hrow2]
      exact scanLoop_free tag _ tags htag hnt

/-- The flag returned by the single-cache load is the flag of the scan. -/
theorem lwOneRow_snd (tag : Int) (row : List Int) :
    (lwOneRow tag row).2 = (scanLoop tag row row.length).tagFound := by
  unfold lwOneRow
  simp only []
  split <;> rfl

/-- On an ordered row the scan finds a tag other than `-1` exactly when the
row holds it. -/
theorem scan_tagFound_iff (tag : Int) (row : List Int) (hord : Ordered row) (htag : tag ≠ -1) :
    (scanLoop tag row row.length).tagFound = true ↔ tag ∈ row := by
  rcases scan_cases tag row hord htag with ⟨hm, _, _, _, _, _, hs⟩ | ⟨hm, _, hs⟩ | ⟨hm, _, hs⟩
  · rw [hs]; exact ⟨fun _ => hm, fun _ => rfl⟩
  · rw [hs]; exact ⟨fun h => absurd h (by simp), fun h => absurd h hm⟩
  · rw [hs]; exact ⟨fun h => absurd h (by simp), fun h => absurd h hm⟩

/-- The single-cache load on an ordered, non-empty row: promotion on a hit,
drop of the front entry otherwise. -/
theorem lwOneRow_cases (tag : Int) (row : List Int) (hne : row ≠ []) (hord : Ordered row)
    (htag : tag ≠ -1) :
    (tag ∈ row ∧ ∃ pre suf, row = pre ++ tag :: suf ∧ tag ∉ suf ∧ (-1 : Int) ∉ suf ∧
      lwOneRow tag row = (pre ++ suf ++ [tag], true)) ∨
    (tag ∉ row ∧ lwOneRow tag row = (row.tail ++ [tag], false)) := by
  rcases scan_cases tag row hord htag with ⟨hm, pre, suf, h1, h2, h3, hs⟩ | ⟨hm, _, hs⟩ |
    ⟨hm, _, hs⟩
  · left
    refine ⟨hm, pre, suf, h1, h2, h3, ?_⟩
    unfold lwOneRow
    rw [hs]
    rfl
  · right
    refine ⟨hm, ?_⟩
    unfold lwOneRow
    rw [hs]
    rfl
  · right
    refine ⟨hm, ?_⟩
    unfold lwOneRow
    rw [hs]
    obtain ⟨b, rest, rfl⟩ := List.exists_cons_of_ne_nil hne
    simp only [Bool.not_false, Bool.and_self, if_true]
    rw [shiftInsert_one]
    rfl


/-! ## Single-cache load: classification and LRU update -/

/-- The row code run on a row that is there and has a slot. -/
theorem onRow_some (cache : List (List Int)) (index : Int) (f : List Int → List Int × Bool)
    (row : List Int) (hi : 0 ≤ index) (hrow : cache.get? index.toNat = some row)
    (hne : row ≠ []) :
    onRow cache index f = some (cache.set index.toNat (f row).1, (f row).2) := by
  unfold onRow
  rw [if_neg (not_lt.mpr hi)]
  simp only [hrow]
  rw [if_neg (fun h => hne (List.length_eq_zero.mp h))]

/-- C5: on a set that satisfies the ordering invariant, a single-cache load of
a tag `>= 0` finds the tag (and is logged as HIT) if and only if the tag is in
the set before the access; it is logged as MISS otherwise. -/
theorem lwOne_hit_iff_mem (row : List Int) (curr_tag : Int) (hord : Ordered row)
    (ht : 0 ≤ curr_tag) :
    ((lwOneRow curr_tag row).2 = true ↔ curr_tag ∈ row) ∧
    (∀ (c : OneCache) (pc address : Nat) (index : Int),
      decompose address c.c1L1blocksize c.c1L1rows = some (index, curr_tag) →
      0 ≤ index → c.cache.get? index.toNat = some row → row ≠ [] →
      ∃ c1 status, lwOne c pc address
          = some (c1, [print_log_entry CacheName.L1 status pc address index]) ∧
        (status = Status.HIT ↔ curr_tag ∈ row) ∧ (status = Status.MISS ↔ curr_tag ∉ row)) := by
  have htag : curr_tag ≠ -1 := by omega
  have hiff : (lwOneRow curr_tag row).2 = true ↔ curr_tag ∈ row := by
    rw [lwOneRow_snd]
    exact scan_tagFound_iff curr_tag row hord htag
  refine ⟨hiff, ?_⟩
  intro c pc address index hd hi hrow hne
  refine ⟨{ c with cache := c.cache.set index.toNat (lwOneRow curr_tag row).1 },
    if (lwOneRow curr_tag row).2 then Status.HIT else Status.MISS, ?_, ?_, ?_⟩
  · unfold lwOne
    simp only [hd, onRow_some c.cache index _ row hi hrow hne]
  · rw [← hiff]
    cases (lwOneRow curr_tag row).2 <;> simp
  · rw [← hiff]
    cases (lwOneRow curr_tag row).2 <;> simp

/-- Witness of C5: the set `[-1, 3, 5]` and the tag 3, in a one-row cache with
block size 1 at address 3. -/
theorem lwOne_hit_iff_mem_witness :
    ((lwOneRow 3 [-1, 3, 5]).2 = true ↔ (3 : Int) ∈ [-1, 3, 5]) ∧
    (∀ (c : OneCache) (pc address : Nat) (index : Int),
      decompose address c.c1L1blocksize c.c1L1rows = some (index, 3) →
      0 ≤ index → c.cache.get? index.toNat = some [-1, 3, 5] → [-1, 3, 5] ≠ [] →
      ∃ c1 status, lwOne c pc address
          = some (c1, [print_log_entry CacheName.L1 status pc address index]) ∧
        (status = Status.HIT ↔ (3 : Int) ∈ [-1, 3, 5]) ∧
        (status = Status.MISS ↔ (3 : Int) ∉ [-1, 3, 5])) :=
  lwOne_hit_iff_mem [-1, 3, 5] 3 (by decide) (by decide)

/-- A valid tag that occurs in a row without duplicate tags does not occur
before its own position. -/
theorem not_mem_prefix_of_noDupTags (t : Int) (pre suf : List Int) (ht : t ≠ -1)
    (h : NoDupTags (pre ++ t :: suf)) : t ∉ pre := by
  unfold NoDupTags at h
  rw [List.filter_append, List.filter_cons_of_pos (by simpa using ht)] at h
  intro hm
  have h1 := (List.nodup_cons.mp (List.nodup_middle.mp h)).1
  exact h1 (List.mem_append_left _ (List.mem_filter.mpr ⟨hm, by simpa using ht⟩))

/-- C6: on a set of length `A >= 1` that satisfies the ordering invariant and
has no duplicate valid tag, the single-cache load of a tag `t >= 0` is the
reference LRU update: the row with `t` removed followed by `t` when `t` is in
the row, the row without its first element followed by `t` when it is not. -/
theorem lwOneRow_eq_lruReference (row : List Int) (t : Int) (hlen : 1 ≤ row.length)
    (hord : Ordered row) (hnd : NoDupTags row) (ht : 0 ≤ t) :
    (lwOneRow t row).1 = lruReference t row ∧
    (t ∈ row → (lwOneRow t row).1 = row.filter (fun x => decide (x ≠ t)) ++ [t]) ∧
    (t ∉ row → (lwOneRow t row).1 = row.tail ++ [t]) := by
  have htag : t ≠ -1 := by omega
  have hne : row ≠ [] := fun h => by rw [h] at hlen; exact absurd hlen (by decide)
  have hmem : t ∈ row → (lwOneRow t row).1 = row.filter (fun x => decide (x ≠ t)) ++ [t] := by
    intro hm
    rcases lwOneRow_cases t row hne hord htag with ⟨_, pre, suf, h1, h2, _, hs⟩ | ⟨hn, _⟩
    · have hpre : t ∉ pre := not_mem_prefix_of_noDupTags t pre suf htag (h1 ▸ hnd)
      have fpre : pre.filter (fun x => decide (x ≠ t)) = pre := by
        rw [List.filter_eq_self]
        intro a ha
        simpa using (fun (e : a = t) => hpre (e ▸ ha))
      have fsuf : suf.filter (fun x => decide (x ≠ t)) = suf := by
        rw [List.filter_eq_self]
        intro a ha
        simpa using (fun (e : a = t) => h2 (e ▸ ha))
      rw [hs, h1, List.filter_append, List.filter_cons_of_neg (by simp), fpre, fsuf]
    · exact absurd hm hn
  have hnot : t ∉ row → (lwOneRow t row).1 = row.tail ++ [t] := by
    intro hn
    rcases lwOneRow_cases t row hne hord htag with ⟨hm, _⟩ | ⟨_, hs⟩
    · exact absurd hm hn
    · rw [hs]
  refine ⟨?_, hmem, hnot⟩
  unfold lruReference
  split
  · rename_i hm; exact hmem hm
  · rename_i hn; exact hnot hn

/-- Witness of C6: the set `[-1, 3, 5]` and the tag 3. -/
theorem lwOneRow_eq_lruReference_witness :
    (lwOneRow 3 [-1, 3, 5]).1 = lruReference 3 [-1, 3, 5] ∧
    ((3 : Int) ∈ [-1, 3, 5] →
      (lwOneRow 3 [-1, 3, 5]).1 = [-1, 3, 5].filter (fun x => decide (x ≠ 3)) ++ [3]) ∧
    ((3 : Int) ∉ [-1, 3, 5] → (lwOneRow 3 [-1, 3, 5]).1 = [-1, 3, 5].tail ++ [3]) :=
  lwOneRow_eq_lruReference [-1, 3, 5] 3 (by decide) (by decide) (by decide) (by decide)


/-! ## Stores and the L1 load of the two-level configuration -/

/-- C7, at the failing input: on the set `[3, 5]` a single-cache store that
hits tag 5 promotes it and then still runs the eviction, leaving `[5, 5]`; the
single-cache load leaves `[3, 5]`.  The set `[3, 5]` arises from the empty
2-way set by the stores to tags 3 and 5, and after the third store a load of
tag 3 is a miss. -/
theorem swOneRow_hit_evicts :
    Ordered [3, 5] ∧
    swOneRow 5 [3, 5] = ([5, 5], true) ∧ lwOneRow 5 [3, 5] = ([3, 5], true) ∧
    (swOneRow 5 (swOneRow 3 [-1, -1]).1).1 = [3, 5] ∧
    lwOneRow 3 (swOneRow 5 [3, 5]).1 = ([5, 3], false) ∧
    swOne ⟨1, 1, [[3, 5]]⟩ 0 5
      = some (⟨1, 1, [[5, 5]]⟩, [print_log_entry CacheName.L1 Status.SW 0 5 0]) ∧
    lwOne ⟨1, 1, [[3, 5]]⟩ 0 5
      = some (⟨1, 1, [[3, 5]]⟩, [print_log_entry CacheName.L1 Status.HIT 0 5 0]) := by
  refine ⟨by decide, by decide, by decide, by decide, by decide, rfl, rfl⟩

/-- C8, at the failing input: on the L1 set `[3, 5]` the two-level load that
hits tag 5 promotes it and then still runs the eviction, leaving `[5, 5]`, so
tag 3 is lost on a hit; the single-cache load leaves `[3, 5]`.  The set
`[3, 5]` arises from the empty 2-way set by the loads of tags 3 and 5. -/
theorem lwL1Row_hit_evicts :
    Ordered [3, 5] ∧
    lwL1Row 5 [3, 5] = ([5, 5], true) ∧ lwOneRow 5 [3, 5] = ([3, 5], true) ∧
    (3 : Int) ∈ [3, 5] ∧ (3 : Int) ∉ (lwL1Row 5 [3, 5]).1 ∧
    (lwL1Row 5 (lwL1Row 3 [-1, -1]).1).1 = [3, 5] ∧
    lwTwo ⟨1, 1, 1, 1, [[3, 5]], [[3, 5]]⟩ 0 5
      = some (⟨1, 1, 1, 1, [[5, 5]], [[3, 5]]⟩,
          [print_log_entry CacheName.L1 Status.HIT 0 5 0]) := by
  refine ⟨by decide, by decide, by decide, by decide, by decide, by decide, rfl⟩

/-! ## Two-level load -/

/-- If the row code ran, the row was there and had a slot. -/
theorem onRow_inv (cache cache1 : List (List Int)) (index : Int)
    (f : List Int → List Int × Bool) (b : Bool) (h : onRow cache index f = some (cache1, b)) :
    0 ≤ index ∧ ∃ row, cache.get? index.toNat = some row ∧ row ≠ [] ∧
      cache1 = cache.set index.toNat (f row).1 ∧ b = (f row).2 := by
  unfold onRow at h
  split_ifs at h with hi
  cases hrow : cache.get? index.toNat with
  | none => rw [hrow] at h; exact absurd h (by simp)
  | some row =>
    rw [hrow] at h
    simp only at h
    split_ifs at h with hl
    simp only [Option.some.injEq, Prod.mk.injEq] at h
    exact ⟨not_lt.mp hi, row, rfl, fun e => hl (by rw [e]; rfl), h.1.symm, h.2.symm⟩

/-- With a positive block size and row count the decomposition is defined, the
index selects one of the rows and the tag is not negative. -/
theorem decompose_wf (address : Nat) (blocksize rows : Int) (hb : 0 < blocksize)
    (hr : 0 < rows) :
    ∃ index tag, decompose address blocksize rows = some (index, tag) ∧
      0 ≤ index ∧ index < rows ∧ 0 ≤ tag := by
  have hblock : 0 ≤ Int.tdiv (address : Int) blocksize :=
    Int.tdiv_nonneg (Int.ofNat_nonneg _) (le_of_lt hb)
  refine ⟨_, _, ?_, Int.tmod_nonneg _ hblock, Int.tmod_lt_of_pos _ hr,
    Int.tdiv_nonneg hblock (le_of_lt hr)⟩
  unfold decompose
  rw [if_neg (ne_of_gt hb), if_neg (ne_of_gt hr)]

/-- In a well-formed cache every index below the row count selects a row with
a slot. -/
theorem row_of_wf (blocksize rows index : Int) (cache : List (List Int))
    (hwf : WFCache blocksize rows cache) (h0 : 0 ≤ index) (h1 : index < rows) :
    ∃ row, cache.get? index.toNat = some row ∧ row ≠ [] := by
  obtain ⟨_, _, hlen, hrows⟩ := hwf
  have hlt : index.toNat < cache.length := by
    rw [hlen]; omega
  exact ⟨cache.get ⟨index.toNat, hlt⟩, List.get?_eq_get hlt, hrows _ (List.get_mem _ _ _)⟩

/-- C10: a load in the two-level configuration that hits in L1 writes exactly
one log record, L1 HIT, and leaves every L2 set unchanged; one that misses in
L1 writes exactly two records, L1 MISS followed by one L2 record that is HIT
or MISS.  On an ordered L1 set the hit is the presence of the tag in the set,
and on a well-formed configuration the load is defined for every address. -/
theorem read_short_circuit (c : TwoCaches) (pc address : Nat) :
    (∀ c1 log, lwTwo c pc address = some (c1, log) →
      ∃ L1index L1curr_tag L2index L2curr_tag row,
        decompose address c.c2L1blocksize c.c2L1rows = some (L1index, L1curr_tag) ∧
        decompose address c.c2L2blocksize c.c2L2rows = some (L2index, L2curr_tag) ∧
        c.L1cache.get? L1index.toNat = some row ∧
        (Ordered row → L1curr_tag ≠ -1 →
          ((lwL1Row L1curr_tag row).2 = true ↔ L1curr_tag ∈ row)) ∧
        (((lwL1Row L1curr_tag row).2 = true ∧
            log = [print_log_entry CacheName.L1 Status.HIT pc address L1index] ∧
            c1.L2cache = c.L2cache) ∨
         ((lwL1Row L1curr_tag row).2 = false ∧
            ∃ status, (status = Status.HIT ∨ status = Status.MISS) ∧
              log = [print_log_entry CacheName.L1 Status.MISS pc address L1index,
                     print_log_entry CacheName.L2 status pc address L2index]))) ∧
    (WFTwo c → ∃ c1 log, lwTwo c pc address = some (c1, log)) := by
  constructor
  · intro c1 log h
    unfold lwTwo at h
    cases hd1 : decompose address c.c2L1blocksize c.c2L1rows with
    | none => rw [hd1] at h; exact absurd h (by simp)
    | some p1 =>
      obtain ⟨L1index, L1curr_tag⟩ := p1
      rw [hd1] at h
      simp only at h
      cases hd2 : decompose address c.c2L2blocksize c.c2L2rows with
      | none => rw [hd2] at h; exact absurd h (by simp)
      | some p2 =>
        obtain ⟨L2index, L2curr_tag⟩ := p2
        rw [hd2] at h
        simp only at h
        cases ho1 : onRow c.L1cache L1index (lwL1Row L1curr_tag) with
        | none => rw [ho1] at h; exact absurd h (by simp)
        | some q1 =>
          obtain ⟨l1, L1tagFound⟩ := q1
          rw [ho1] at h
          simp only at h
          obtain ⟨_, row, hrow, _, _, hfound⟩ := onRow_inv _ _ _ _ _ ho1
          refine ⟨L1index, L1curr_tag, L2index, L2curr_tag, row, rfl, rfl, hrow, ?_, ?_⟩
          · intro hord htag
            have : (lwL1Row L1curr_tag row).2 = (scanLoop L1curr_tag row row.length).tagFound := by
              unfold lwL1Row
              simp only []
              split <;> rfl
            rw [this]
            exact scan_tagFound_iff L1curr_tag row hord htag
          · cases L1tagFound with
            | true =>
              simp only [if_true, Option.some.injEq, Prod.mk.injEq] at h
              left
              refine ⟨hfound.symm, h.2.symm, ?_⟩
              rw [← h.1]
            | false =>
              simp only [Bool.false_eq_true, if_false] at h
              cases ho2 : onRow c.L2cache L2index (lwL2Row L2curr_tag) with
              | none => rw [ho2] at h; exact absurd h (by simp)
              | some q2 =>
                obtain ⟨l2, L2tagFound⟩ := q2
                rw [ho2] at h
                simp only [Option.some.injEq, Prod.mk.injEq] at h
                right
                refine ⟨hfound.symm, if L2tagFound then Status.HIT else Status.MISS, ?_,
                  h.2.symm⟩
                cases L2tagFound
                · exact Or.inr rfl
                · exact Or.inl rfl
  · intro hwf
    obtain ⟨hwf1, hwf2⟩ := hwf
    obtain ⟨i1, t1, hd1, h10, h11, _⟩ :=
      decompose_wf address c.c2L1blocksize c.c2L1rows hwf1.1 hwf1.2.1
    obtain ⟨i2, t2, hd2, h20, h21, _⟩ :=
      decompose_wf address c.c2L2blocksize c.c2L2rows hwf2.1 hwf2.2.1
    obtain ⟨r1, hr1, hne1⟩ := row_of_wf _ _ i1 _ hwf1 h10 h11
    obtain ⟨r2, hr2, hne2⟩ := row_of_wf _ _ i2 _ hwf2 h20 h21
    unfold lwTwo
    simp only [hd1, hd2, onRow_some _ i1 _ r1 h10 hr1 hne1, onRow_some _ i2 _ r2 h20 hr2 hne2]
    split
    · exact ⟨_, _, rfl⟩
    · exact ⟨_, _, rfl⟩

/-- Witness of C10: a two-level configuration with one 2-way row per level,
L1 holding tags 3 and 5, L2 empty; the load of address 5 hits in L1 and the
load of address 7 misses in both levels. -/
theorem read_short_circuit_witness :
    WFTwo ⟨1, 1, 1, 1, [[3, 5]], [[-1, -1]]⟩ ∧
    (∃ c1 log, lwTwo ⟨1, 1, 1, 1, [[3, 5]], [[-1, -1]]⟩ 0 5 = some (c1, log)) ∧
    lwTwo ⟨1, 1, 1, 1, [[3, 5]], [[-1, -1]]⟩ 0 7
      = some (⟨1, 1, 1, 1, [[5, 7]], [[-1, 7]]⟩,
          [print_log_entry CacheName.L1 Status.MISS 0 7 0,
           print_log_entry CacheName.L2 Status.MISS 0 7 0]) ∧
    (∃ L1index L1curr_tag L2index L2curr_tag row,
        decompose 7 1 1 = some (L1index, L1curr_tag) ∧
        decompose 7 1 1 = some (L2index, L2curr_tag) ∧
        [[(3 : Int), 5]].get? L1index.toNat = some row ∧
        (Ordered row → L1curr_tag ≠ -1 →
          ((lwL1Row L1curr_tag row).2 = true ↔ L1curr_tag ∈ row)) ∧
        (((lwL1Row L1curr_tag row).2 = true ∧
            [print_log_entry CacheName.L1 Status.MISS 0 7 0,
             print_log_entry CacheName.L2 Status.MISS 0 7 0]
              = [print_log_entry CacheName.L1 Status.HIT 0 7 L1index] ∧
            [[(-1 : Int), 7]] = [[-1, -1]]) ∨
         ((lwL1Row L1curr_tag row).2 = false ∧
            ∃ status, (status = Status.HIT ∨ status = Status.MISS) ∧
              [print_log_entry CacheName.L1 Status.MISS 0 7 0,
               print_log_entry CacheName.L2 Status.MISS 0 7 0]
                = [print_log_entry CacheName.L1 Status.MISS 0 7 L1index,
                   print_log_entry CacheName.L2 status 0 7 L2index]))) :=
  ⟨by decide,
    (read_short_circuit ⟨1, 1, 1, 1, [[3, 5]], [[-1, -1]]⟩ 0 5).2 (by decide),
    rfl,
    (read_short_circuit ⟨1, 1, 1, 1, [[3, 5]], [[-1, -1]]⟩ 0 7).1
      ⟨1, 1, 1, 1, [[5, 7]], [[-1, 7]]⟩
      [print_log_entry CacheName.L1 Status.MISS 0 7 0,
       print_log_entry CacheName.L2 Status.MISS 0 7 0] rfl⟩

/-! ## Shape of the rows the accesses leave -/

theorem shiftLoop_length (n j : Nat) (row : List Int) :
    (shiftLoop n j row).length = row.length := by
  induction n generalizing j row with
  | zero => rfl
  | succ n ih => rw [shiftLoop, ih, List.length_set]

theorem shiftInsert_length (k : Nat) (tag : Int) (row : List Int) :
    (shiftInsert k tag row).length = row.length := by
  unfold shiftInsert
  rw [List.length_set, shiftLoop_length]

/-- Writing the last slot makes it the last element. -/
theorem getLast?_set_last (l : List Int) (x : Int) (hne : l ≠ []) :
    (l.set (l.length - 1) x).getLast? = some x := by
  induction l with
  | nil => exact absurd rfl hne
  | cons a rest ih =>
    cases rest with
    | nil => rfl
    | cons b rest =>
      have e : (a :: b :: rest).length - 1 = ((b :: rest).length - 1) + 1 := by simp
      rw [e, List.set_cons_succ]
      have hne2 : (b :: rest).set ((b :: rest).length - 1) x ≠ [] := by
        intro h
        have := congrArg List.length h
        simp at this
      obtain ⟨c, tl, hc⟩ := List.exists_cons_of_ne_nil hne2
      rw [hc, List.getLast?_cons_cons, ← hc]
      exact ih (by simp)

/-- Every shift-and-insert of a row with a slot ends with the tag. -/
theorem shiftInsert_getLast? (k : Nat) (tag : Int) (row : List Int) (hne : row ≠ []) :
    (shiftInsert k tag row).getLast? = some tag := by
  unfold shiftInsert
  have hl := shiftLoop_length (row.length - k) k row
  have hne1 : shiftLoop (row.length - k) k row ≠ [] := by
    intro h
    rw [h] at hl
    exact hne (List.length_eq_zero.mp hl.symm)
  have h := getLast?_set_last _ tag hne1
  rw [hl] at h
  exact h

theorem shiftInsert_one_nil (tag : Int) : shiftInsert 1 tag [] = [] := rfl

/-- What the scan can leave, on any row. -/
theorem scan_shape (tag : Int) (row : List Int) (n : Nat) :
    scanLoop tag row n = { row := row, tagFound := false, evictLRU := true } ∨
    (∃ k, scanLoop tag row n
        = { row := shiftInsert k tag row, tagFound := true, evictLRU := true }) ∨
    scanLoop tag row n
        = { row := shiftInsert 1 tag row, tagFound := false, evictLRU := false } := by
  induction n with
  | zero => exact Or.inl rfl
  | succ i ih =>
    rw [scanLoop]
    split
    · exact Or.inr (Or.inl ⟨i + 1, rfl⟩)
    · split
      · exact Or.inr (Or.inr rfl)
      · exact ih

theorem lwL2Row_eq : lwL2Row = lwOneRow := rfl

theorem swL1Row_eq : swL1Row = lwOneRow := rfl

theorem swL2Row_eq : swL2Row = lwOneRow := rfl

theorem lwL1Row_eq : lwL1Row = swOneRow := rfl

/-- The row left by the paths that evict under `evictLRU && !tagFound` is a
shift-and-insert of the row. -/
theorem lwOneRow_shape (tag : Int) (row : List Int) :
    ∃ k, (lwOneRow tag row).1 = shiftInsert k tag row := by
  unfold lwOneRow
  rcases scan_shape tag row row.length with h | ⟨k, h⟩ | h
  · rw [h]; exact ⟨1, rfl⟩
  · rw [h]; exact ⟨k, rfl⟩
  · rw [h]; exact ⟨1, rfl⟩

/-- The row left by the paths that evict under `evictLRU` alone is a
shift-and-insert of the row, or of such a row. -/
theorem swOneRow_shape (tag : Int) (row : List Int) :
    ∃ k r, r.length = row.length ∧ (swOneRow tag row).1 = shiftInsert k tag r := by
  unfold swOneRow
  rcases scan_shape tag row row.length with h | ⟨k, h⟩ | h
  · rw [h]; exact ⟨1, row, rfl, rfl⟩
  · rw [h]; exact ⟨1, shiftInsert k tag row, shiftInsert_length _ _ _, rfl⟩
  · rw [h]; exact ⟨1, row, rfl, rfl⟩

/-- Both kinds of path keep the number of slots and, on a row with a slot,
put the tag at the back. -/
theorem lwOneRow_length_last (tag : Int) (row : List Int) :
    (lwOneRow tag row).1.length = row.length ∧
    (row ≠ [] → (lwOneRow tag row).1.getLast? = some tag) := by
  obtain ⟨k, h⟩ := lwOneRow_shape tag row
  rw [h]
  exact ⟨shiftInsert_length _ _ _, shiftInsert_getLast? _ _ _⟩

theorem swOneRow_length_last (tag : Int) (row : List Int) :
    (swOneRow tag row).1.length = row.length ∧
    (row ≠ [] → (swOneRow tag row).1.getLast? = some tag) := by
  obtain ⟨k, r, hr, h⟩ := swOneRow_shape tag row
  rw [h]
  refine ⟨by rw [shiftInsert_length, hr], fun hne => shiftInsert_getLast? _ _ _ ?_⟩
  intro e
  rw [e] at hr
  exact hne (List.length_eq_zero.mp hr.symm)

/-! ## The ordering invariant is kept -/

theorem ordered_append_tag (l : List Int) (tag : Int) (h : Ordered l) (htag : tag ≠ -1) :
    Ordered (l ++ [tag]) := by
  unfold Ordered at h ⊢
  rw [List.pairwise_append]
  refine ⟨h, List.pairwise_singleton _ _, ?_⟩
  intro a _ b hb hb1
  rw [List.mem_singleton] at hb
  exact absurd (hb ▸ hb1) htag

theorem ordered_sublist (l l1 : List Int) (h : Ordered l) (hs : l1.Sublist l) : Ordered l1 :=
  List.Pairwise.sublist hs h

theorem ordered_shiftInsert_one (row : List Int) (tag : Int) (h : Ordered row)
    (htag : tag ≠ -1) : Ordered (shiftInsert 1 tag row) := by
  cases row with
  | nil => exact h
  | cons b rest =>
    rw [shiftInsert_one]
    exact ordered_append_tag _ _ (ordered_sublist _ _ h (List.sublist_cons_self b rest)) htag

/-- The guarded paths keep the ordering invariant. -/
theorem lwOneRow_ordered (tag : Int) (row : List Int) (hord : Ordered row) (htag : tag ≠ -1) :
    Ordered (lwOneRow tag row).1 := by
  unfold lwOneRow
  rcases scan_cases tag row hord htag with ⟨_, pre, suf, h1, _, _, hs⟩ | ⟨_, _, hs⟩ | ⟨_, _, hs⟩
  · rw [hs]
    refine ordered_append_tag _ _ (ordered_sublist _ _ hord ?_) htag
    rw [h1]
    exact List.Sublist.append (List.Sublist.refl pre) (List.sublist_cons_self tag suf)
  · rw [hs]
    exact ordered_append_tag _ _ (ordered_sublist _ _ hord (List.tail_sublist row)) htag
  · rw [hs]
    exact ordered_shiftInsert_one row tag hord htag

/-- The paths that also evict after a hit keep the ordering invariant. -/
theorem swOneRow_ordered (tag : Int) (row : List Int) (hord : Ordered row) (htag : tag ≠ -1) :
    Ordered (swOneRow tag row).1 := by
  unfold swOneRow
  rcases scan_cases tag row hord htag with ⟨_, pre, suf, h1, _, _, hs⟩ | ⟨_, _, hs⟩ | ⟨_, _, hs⟩
  · rw [hs]
    refine ordered_shiftInsert_one _ tag ?_ htag
    refine ordered_append_tag _ _ (ordered_sublist _ _ hord ?_) htag
    rw [h1]
    exact List.Sublist.append (List.Sublist.refl pre) (List.sublist_cons_self tag suf)
  · rw [hs]
    exact ordered_append_tag _ _ (ordered_sublist _ _ hord (List.tail_sublist row)) htag
  · rw [hs]
    exact ordered_shiftInsert_one row tag hord htag

/-! ## The invariant at the level of the cache -/

/-- With a positive block size and a row count that is not negative, a
decomposition that is defined gives an index and a tag that are not negative. -/
theorem decompose_nonneg (address : Nat) (blocksize rows index tag : Int)
    (hb : 0 < blocksize) (hr : 0 ≤ rows)
    (h : decompose address blocksize rows = some (index, tag)) : 0 ≤ index ∧ 0 ≤ tag := by
  have hr0 : rows ≠ 0 := by
    intro e
    unfold decompose at h
    rw [if_neg (ne_of_gt hb), if_pos e] at h
    exact absurd h (by simp)
  have hr1 : 0 < rows := lt_of_le_of_ne hr (Ne.symm hr0)
  obtain ⟨i, t, hd, hi, _, ht⟩ := decompose_wf address blocksize rows hb hr1
  rw [hd] at h
  simp only [Option.some.injEq, Prod.mk.injEq] at h
  rw [← h.1, ← h.2]
  exact ⟨hi, ht⟩

/-- Row code that keeps length and ordering keeps the invariant of the cache. -/
theorem onRow_cacheInv (A : Nat) (cache cache1 : List (List Int)) (index : Int)
    (f : List Int → List Int × Bool) (b : Bool) (hinv : CacheInv A cache)
    (hf : ∀ row, Ordered row → (f row).1.length = row.length ∧ Ordered (f row).1)
    (h : onRow cache index f = some (cache1, b)) : CacheInv A cache1 := by
  obtain ⟨_, row, hrow, _, hc, _⟩ := onRow_inv _ _ _ _ _ h
  have hmem : row ∈ cache := List.get?_mem hrow
  intro r hr
  rw [hc] at hr
  rcases List.mem_or_eq_of_mem_set hr with hr | hr
  · exact hinv r hr
  · rw [hr]
    obtain ⟨hl, ho⟩ := hinv row hmem
    exact ⟨by rw [(hf row ho).1, hl], (hf row ho).2⟩

theorem lwOneRow_keeps (tag : Int) (ht : 0 ≤ tag) (row : List Int) (ho : Ordered row) :
    (lwOneRow tag row).1.length = row.length ∧ Ordered (lwOneRow tag row).1 :=
  ⟨(lwOneRow_length_last tag row).1, lwOneRow_ordered tag row ho (by omega)⟩

theorem swOneRow_keeps (tag : Int) (ht : 0 ≤ tag) (row : List Int) (ho : Ordered row) :
    (swOneRow tag row).1.length = row.length ∧ Ordered (swOneRow tag row).1 :=
  ⟨(swOneRow_length_last tag row).1, swOneRow_ordered tag row ho (by omega)⟩

/-- A cache access keeps the invariant, the geometry and the number of levels. -/
theorem lwCache_simInv (A1 A2 : Nat) (sim sim1 : CacheSim) (pc address : Nat)
    (log : List LogEntry) (hinv : SimInv A1 A2 sim)
    (h : lwCache sim pc address = some (sim1, log)) :
    SimInv A1 A2 sim1 ∧ ((∃ c, sim = CacheSim.one c) ↔ (∃ c, sim1 = CacheSim.one c)) := by
  cases sim with
  | one c =>
    obtain ⟨hb, hr, hc⟩ := hinv
    unfold lwCache lwOne at h
    simp only at h
    cases hd : decompose address c.c1L1blocksize c.c1L1rows with
    | none => rw [hd] at h; exact absurd h (by simp)
    | some p =>
      obtain ⟨index, tag⟩ := p
      rw [hd] at h
      simp only at h
      cases ho : onRow c.cache index (lwOneRow tag) with
      | none => rw [ho] at h; exact absurd h (by simp)
      | some q =>
        obtain ⟨cache1, b⟩ := q
        rw [ho] at h
        simp only [Option.some.injEq, Prod.mk.injEq] at h
        rw [← h.1]
        have ht := (decompose_nonneg _ _ _ _ _ hb hr hd).2
        exact ⟨⟨hb, hr, onRow_cacheInv A1 _ _ _ _ _ hc (lwOneRow_keeps tag ht) ho⟩,
          ⟨fun _ => ⟨_, rfl⟩, fun _ => ⟨_, rfl⟩⟩⟩
  | two c =>
    obtain ⟨⟨hb1, hr1, hc1⟩, ⟨hb2, hr2, hc2⟩⟩ := hinv
    unfold lwCache lwTwo at h
    simp only at h
    cases hd1 : decompose address c.c2L1blocksize c.c2L1rows with
    | none => rw [hd1] at h; exact absurd h (by simp)
    | some p1 =>
      obtain ⟨i1, t1⟩ := p1
      rw [hd1] at h
      simp only at h
      cases hd2 : decompose address c.c2L2blocksize c.c2L2rows with
      | none => rw [hd2] at h; exact absurd h (by simp)
      | some p2 =>
        obtain ⟨i2, t2⟩ := p2
        rw [hd2] at h
        simp only at h
        have ht1 := (decompose_nonneg _ _ _ _ _ hb1 hr1 hd1).2
        have ht2 := (decompose_nonneg _ _ _ _ _ hb2 hr2 hd2).2
        cases ho1 : onRow c.L1cache i1 (lwL1Row t1) with
        | none => rw [ho1] at h; exact absurd h (by simp)
        | some q1 =>
          obtain ⟨l1, b1⟩ := q1
          rw [ho1] at h
          simp only at h
          have hl1 : CacheInv A1 l1 :=
            onRow_cacheInv A1 _ _ _ _ _ hc1 (swOneRow_keeps t1 ht1) ho1
          cases b1 with
          | true =>
            simp only [if_true, Option.some.injEq, Prod.mk.injEq] at h
            rw [← h.1]
            exact ⟨⟨⟨hb1, hr1, hl1⟩, ⟨hb2, hr2, hc2⟩⟩,
              ⟨fun ⟨_, e⟩ => absurd e (by simp), fun ⟨_, e⟩ => absurd e (by simp)⟩⟩
          | false =>
            simp only [Bool.false_eq_true, if_false] at h
            cases ho2 : onRow c.L2cache i2 (lwL2Row t2) with
            | none => rw [ho2] at h; exact absurd h (by simp)
            | some q2 =>
              obtain ⟨l2, b2⟩ := q2
              rw [ho2] at h
              simp only [Option.some.injEq, Prod.mk.injEq] at h
              rw [← h.1]
              exact ⟨⟨⟨hb1, hr1, hl1⟩,
                  ⟨hb2, hr2, onRow_cacheInv A2 _ _ _ _ _ hc2 (lwOneRow_keeps t2 ht2) ho2⟩⟩,
                ⟨fun ⟨_, e⟩ => absurd e (by simp), fun ⟨_, e⟩ => absurd e (by simp)⟩⟩

theorem swCache_simInv (A1 A2 : Nat) (sim sim1 : CacheSim) (pc address : Nat)
    (log : List LogEntry) (hinv : SimInv A1 A2 sim)
    (h : swCache sim pc address = some (sim1, log)) :
    SimInv A1 A2 sim1 ∧ ((∃ c, sim = CacheSim.one c) ↔ (∃ c, sim1 = CacheSim.one c)) := by
  cases sim with
  | one c =>
    obtain ⟨hb, hr, hc⟩ := hinv
    unfold swCache swOne at h
    simp only at h
    cases hd : decompose address c.c1L1blocksize c.c1L1rows with
    | none => rw [hd] at h; exact absurd h (by simp)
    | some p =>
      obtain ⟨index, tag⟩ := p
      rw [hd] at h
      simp only at h
      cases ho : onRow c.cache index (swOneRow tag) with
      | none => rw [ho] at h; exact absurd h (by simp)
      | some q =>
        obtain ⟨cache1, b⟩ := q
        rw [ho] at h
        simp only [Option.some.injEq, Prod.mk.injEq] at h
        rw [← h.1]
        have ht := (decompose_nonneg _ _ _ _ _ hb hr hd).2
        exact ⟨⟨hb, hr, onRow_cacheInv A1 _ _ _ _ _ hc (swOneRow_keeps tag ht) ho⟩,
          ⟨fun _ => ⟨_, rfl⟩, fun _ => ⟨_, rfl⟩⟩⟩
  | two c =>
    obtain ⟨⟨hb1, hr1, hc1⟩, ⟨hb2, hr2, hc2⟩⟩ := hinv
    unfold swCache swTwo at h
    simp only at h
    cases hd1 : decompose address c.c2L1blocksize c.c2L1rows with
    | none => rw [hd1] at h; exact absurd h (by simp)
    | some p1 =>
      obtain ⟨i1, t1⟩ := p1
      rw [hd1] at h
      simp only at h
      cases hd2 : decompose address c.c2L2blocksize c.c2L2rows with
      | none => rw [hd2] at h; exact absurd h (by simp)
      | some p2 =>
        obtain ⟨i2, t2⟩ := p2
        rw [hd2] at h
        simp only at h
        have ht1 := (decompose_nonneg _ _ _ _ _ hb1 hr1 hd1).2
        have ht2 := (decompose_nonneg _ _ _ _ _ hb2 hr2 hd2).2
        cases ho1 : onRow c.L1cache i1 (swL1Row t1) with
        | none => rw [ho1] at h; exact absurd h (by simp)
        | some q1 =>
          obtain ⟨l1, b1⟩ := q1
          rw [ho1] at h
          simp only at h
          cases ho2 : onRow c.L2cache i2 (swL2Row t2) with
          | none => rw [ho2] at h; exact absurd h (by simp)
          | some q2 =>
            obtain ⟨l2, b2⟩ := q2
            rw [ho2] at h
            simp only [Option.some.injEq, Prod.mk.injEq] at h
            rw [← h.1]
            exact ⟨⟨⟨hb1, hr1, onRow_cacheInv A1 _ _ _ _ _ hc1 (lwOneRow_keeps t1 ht1) ho1⟩,
                ⟨hb2, hr2, onRow_cacheInv A2 _ _ _ _ _ hc2 (lwOneRow_keeps t2 ht2) ho2⟩⟩,
              ⟨fun ⟨_, e⟩ => absurd e (by simp), fun ⟨_, e⟩ => absurd e (by simp)⟩⟩

/-- The lw branch hands the cache to `lwCache`. -/
theorem lwCached_cache (sim sim1 : CacheSim) (s s1 : State) (w : Nat) (log : List LogEntry)
    (h : lwCached sim s w = some (s1, sim1, log)) :
    ∃ pc address, lwCache sim pc address = some (sim1, log) := by
  unfold lwCached at h
  simp only [] at h
  split at h
  · exact absurd h (by simp)
  · split at h
    · exact absurd h (by simp)
    · rename_i sim2 log2 hc
      simp only [Option.some.injEq, Prod.mk.injEq] at h
      exact ⟨_, _, by rw [hc, h.2.1, h.2.2]⟩

/-- The sw branch hands the cache to `swCache`. -/
theorem swCached_cache (sim sim1 : CacheSim) (s s1 : State) (w : Nat) (log : List LogEntry)
    (h : swCached sim s w = some (s1, sim1, log)) :
    ∃ pc address, swCache sim pc address = some (sim1, log) := by
  unfold swCached at h
  simp only [] at h
  split_ifs at h with h1
  split at h
  · exact absurd h (by simp)
  · rename_i sim2 log2 hc
    simp only [Option.some.injEq, Prod.mk.injEq] at h
    exact ⟨_, _, by rw [hc, h.2.1, h.2.2]⟩

/-- One step of the cache-enabled engine keeps the invariant of the cache. -/
theorem execCache_simInv (A1 A2 : Nat) (sim sim1 : CacheSim) (s s1 : State) (w : Nat)
    (log : List LogEntry) (hinv : SimInv A1 A2 sim)
    (h : execCache sim s w = some (s1, sim1, log)) :
    SimInv A1 A2 sim1 ∧ ((∃ c, sim = CacheSim.one c) ↔ (∃ c, sim1 = CacheSim.one c)) := by
  rcases execCache_inv sim sim1 s s1 w log h with ⟨-, -, hb, -⟩ | ⟨-, -, hb, -⟩ | ⟨-, hb⟩ |
    ⟨-, hb⟩ | ⟨-, -, hb, -⟩ | ⟨-, -, hb, -⟩ | ⟨-, -, hb, -⟩ | ⟨-, -, hb, -⟩ | ⟨-, -, hb, -⟩
  · rw [hb]; exact ⟨hinv, Iff.rfl⟩
  · rw [hb]; exact ⟨hinv, Iff.rfl⟩
  · obtain ⟨pc, address, hc⟩ := lwCached_cache sim sim1 s s1 w log hb
    exact lwCache_simInv A1 A2 sim sim1 pc address log hinv hc
  · obtain ⟨pc, address, hc⟩ := swCached_cache sim sim1 s s1 w log hb
    exact swCache_simInv A1 A2 sim sim1 pc address log hinv hc
  · rw [hb]; exact ⟨hinv, Iff.rfl⟩
  · rw [hb]; exact ⟨hinv, Iff.rfl⟩
  · rw [hb]; exact ⟨hinv, Iff.rfl⟩
  · rw [hb]; exact ⟨hinv, Iff.rfl⟩
  · rw [hb]; exact ⟨hinv, Iff.rfl⟩

/-- The cache built by the configuration code satisfies the invariant. -/
theorem buildCache_cacheInv (rows assoc : Int) (cache : List (List Int))
    (h : buildCache rows assoc = some cache) :
    0 ≤ rows ∧ 0 ≤ assoc ∧ cache.length = rows.toNat ∧ CacheInv assoc.toNat cache ∧
      ∀ row ∈ cache, ∀ x ∈ row, x = -1 := by
  unfold buildCache at h
  split_ifs at h with hneg
  injection h with h
  subst h
  refine ⟨by omega, by omega, List.length_replicate _ _, ?_, ?_⟩
  · intro row hrow
    rw [(List.mem_replicate.mp hrow).2]
    refine ⟨List.length_replicate _ _, ?_⟩
    have := ordered_of_split assoc.toNat [] (by simp)
    simpa using this
  · intro row hrow x hx
    rw [(List.mem_replicate.mp hrow).2] at hx
    exact (List.mem_replicate.mp hx).2

/-- The invariant and the number of levels hold along every run of the
cache-enabled engine. -/
theorem reachable_simInv (A1 A2 : Nat) (mem : Nat → Nat) (sim0 sim : CacheSim) (s : State)
    (h0 : SimInv A1 A2 sim0) (hr : ReachableCache mem sim0 s sim) :
    SimInv A1 A2 sim ∧ ((∃ c, sim0 = CacheSim.one c) ↔ (∃ c, sim = CacheSim.one c)) := by
  induction hr with
  | init => exact ⟨h0, Iff.rfl⟩
  | step s s1 sim sim1 log _ _ _ hstep ih =>
    have := execCache_simInv A1 A2 sim sim1 s s1 _ log ih.1 hstep
    exact ⟨this.1, ih.2.trans this.2⟩

theorem initOne_simInv (size assoc blocksize : Int) (c0 : OneCache) (A2 : Nat)
    (h : initOne size assoc blocksize = some c0) (hb : 0 < blocksize) :
    SimInv assoc.toNat A2 (CacheSim.one c0) := by
  unfold initOne at h
  cases hr : rowCount size assoc blocksize with
  | none => rw [hr] at h; exact absurd h (by simp)
  | some rows =>
    rw [hr] at h
    simp only at h
    cases hc : buildCache rows assoc with
    | none => rw [hc] at h; exact absurd h (by simp)
    | some cache =>
      rw [hc] at h
      simp only [Option.some.injEq] at h
      rw [← h]
      obtain ⟨h1, _, _, h4, _⟩ := buildCache_cacheInv rows assoc cache hc
      exact ⟨hb, h1, h4⟩

theorem initTwo_simInv (L1size L1assoc L1blocksize L2size L2assoc L2blocksize : Int)
    (c0 : TwoCaches)
    (h : initTwo L1size L1assoc L1blocksize L2size L2assoc L2blocksize = some c0)
    (hb1 : 0 < L1blocksize) (hb2 : 0 < L2blocksize) :
    SimInv L1assoc.toNat L2assoc.toNat (CacheSim.two c0) := by
  unfold initTwo at h
  cases hr1 : rowCount L1size L1assoc L1blocksize with
  | none => rw [hr1] at h; exact absurd h (by simp)
  | some rows1 =>
    rw [hr1] at h
    simp only at h
    cases hr2 : rowCount L2size L2assoc L2blocksize with
    | none => rw [hr2] at h; exact absurd h (by simp)
    | some rows2 =>
      rw [hr2] at h
      simp only at h
      cases hc1 : buildCache rows1 L1assoc with
      | none => rw [hc1] at h; exact absurd h (by simp)
      | some cache1 =>
        rw [hc1] at h
        simp only at h
        cases hc2 : buildCache rows2 L2assoc with
        | none => rw [hc2] at h; exact absurd h (by simp)
        | some cache2 =>
          rw [hc2] at h
          simp only [Option.some.injEq] at h
          rw [← h]
          obtain ⟨h1, _, _, h4, _⟩ := buildCache_cacheInv rows1 L1assoc cache1 hc1
          obtain ⟨g1, _, _, g4, _⟩ := buildCache_cacheInv rows2 L2assoc cache2 hc2
          exact ⟨⟨hb1, h1, h4⟩, ⟨hb2, g1, g4⟩⟩

/-- C12: every load and every store path keeps the number of slots of the set
and the ordering invariant (row code of the six paths, for a tag `>= 0`); one
step of the cache-enabled engine keeps them in every set of every level; hence
they hold in every cache state reached from the all-sentinel cache that the
configuration code builds, in the single-cache and in the two-level
configuration with positive block sizes. -/
theorem set_ordering_invariant :
    (∀ (row : List Int) (tag : Int), Ordered row → 0 ≤ tag →
      ∀ f ∈ [lwOneRow, swOneRow, lwL1Row, lwL2Row, swL1Row, swL2Row],
        (f tag row).1.length = row.length ∧ Ordered (f tag row).1) ∧
    (∀ (A1 A2 : Nat) (sim sim1 : CacheSim) (s s1 : State) (w : Nat) (log : List LogEntry),
      SimInv A1 A2 sim → execCache sim s w = some (s1, sim1, log) → SimInv A1 A2 sim1) ∧
    (∀ (mem : Nat → Nat) (size assoc blocksize : Int) (c0 : OneCache) (s : State)
      (sim : CacheSim),
      initOne size assoc blocksize = some c0 → 0 < blocksize →
      ReachableCache mem (CacheSim.one c0) s sim →
      (∀ row ∈ c0.cache, ∀ x ∈ row, x = -1) ∧
      ∃ c, sim = CacheSim.one c ∧ CacheInv assoc.toNat c.cache) ∧
    (∀ (mem : Nat → Nat) (L1size L1assoc L1blocksize L2size L2assoc L2blocksize : Int)
      (c0 : TwoCaches) (s : State) (sim : CacheSim),
      initTwo L1size L1assoc L1blocksize L2size L2assoc L2blocksize = some c0 →
      0 < L1blocksize → 0 < L2blocksize →
      ReachableCache mem (CacheSim.two c0) s sim →
      ∃ c, sim = CacheSim.two c ∧ CacheInv L1assoc.toNat c.L1cache ∧
        CacheInv L2assoc.toNat c.L2cache) := by
  refine ⟨?_, ?_, ?_, ?_⟩
  · intro row tag ho ht f hf
    simp only [List.mem_cons, List.mem_singleton, List.not_mem_nil, or_false] at hf
    rcases hf with rfl | rfl | rfl | rfl | rfl | rfl
    · exact lwOneRow_keeps tag ht row ho
    · exact swOneRow_keeps tag ht row ho
    · exact swOneRow_keeps tag ht row ho
    · exact lwOneRow_keeps tag ht row ho
    · exact lwOneRow_keeps tag ht row ho
    · exact lwOneRow_keeps tag ht row ho
  · intro A1 A2 sim sim1 s s1 w log hinv h
    exact (execCache_simInv A1 A2 sim sim1 s s1 w log hinv h).1
  · intro mem size assoc blocksize c0 s sim h0 hb hr
    have hinv := initOne_simInv size assoc blocksize c0 0 h0 hb
    obtain ⟨h1, h2⟩ := reachable_simInv _ _ mem _ sim s hinv hr
    constructor
    · unfold initOne at h0
      cases hrc : rowCount size assoc blocksize with
      | none => rw [hrc] at h0; exact absurd h0 (by simp)
      | some rows =>
        rw [hrc] at h0
        simp only at h0
        cases hc : buildCache rows assoc with
        | none => rw [hc] at h0; exact absurd h0 (by simp)
        | some cache =>
          rw [hc] at h0
          simp only [Option.some.injEq] at h0
          rw [← h0]
          exact (buildCache_cacheInv rows assoc cache hc).2.2.2.2
    · obtain ⟨c, hc⟩ := h2.mp ⟨c0, rfl⟩
      rw [hc] at h1
      exact ⟨c, hc, h1.2.2⟩
  · intro mem L1size L1assoc L1blocksize L2size L2assoc L2blocksize c0 s sim h0 hb1 hb2 hr
    have hinv := initTwo_simInv _ _ _ _ _ _ c0 h0 hb1 hb2
    obtain ⟨h1, h2⟩ := reachable_simInv _ _ mem _ sim s hinv hr
    cases sim with
    | one c => exact absurd (h2.mpr ⟨c, rfl⟩) (fun ⟨_, e⟩ => by simp at e)
    | two c => exact ⟨c, rfl, h1.1.2.2, h1.2.2.2⟩

/-- Witness of C12: the store path that evicts after a hit, on the set
`[-1, 3, 5]` with tag 5, and the configuration `2,2,1` (one 2-way row) at its
initial state. -/
theorem set_ordering_invariant_witness :
    ((swOneRow 5 [-1, 3, 5]).1.length = [(-1 : Int), 3, 5].length ∧
      Ordered (swOneRow 5 [-1, 3, 5]).1) ∧
    initOne 2 2 1 = some ⟨1, 1, [[-1, -1]]⟩ ∧
    ((∀ row ∈ [[(-1 : Int), -1]], ∀ x ∈ row, x = -1) ∧
      ∃ c, CacheSim.one ⟨1, 1, [[-1, -1]]⟩ = CacheSim.one c ∧ CacheInv (2 : Int).toNat c.cache) :=
  ⟨set_ordering_invariant.1 [-1, 3, 5] 5 (by decide) (by decide) swOneRow (by simp),
   rfl,
   set_ordering_invariant.2.2.1 (fun _ => 0) 2 2 1 ⟨1, 1, [[-1, -1]]⟩ (initState fun _ => 0)
     (CacheSim.one ⟨1, 1, [[-1, -1]]⟩) rfl (by decide) ReachableCache.init⟩

/-! ## Two-level store -/

/-- After the row code ran, the selected row of the new cache is the row it
returned. -/
theorem onRow_get (cache cache1 : List (List Int)) (index : Int)
    (f : List Int → List Int × Bool) (b : Bool) (h : onRow cache index f = some (cache1, b)) :
    ∃ row, cache.get? index.toNat = some row ∧ row ≠ [] ∧
      cache1.get? index.toNat = some (f row).1 := by
  obtain ⟨_, row, hrow, hne, hc, _⟩ := onRow_inv _ _ _ _ _ h
  refine ⟨row, hrow, hne, ?_⟩
  have hlt : index.toNat < cache.length := by
    rw [List.get?_eq_some] at hrow
    exact hrow.1
  rw [hc, List.get?_eq_getElem?, List.getElem?_set_self hlt]

/-- C11: in the two-level configuration a store writes exactly two log
records, one SW record for L1 and one SW record for L2, and afterwards the
accessed tag is the last (most-recently-used) entry of the selected set in L1
and in L2, whatever the sets held before; on a well-formed configuration the
store is defined for every address. -/
theorem write_through (c : TwoCaches) (pc address : Nat) :
    (∀ c1 log, swTwo c pc address = some (c1, log) →
      ∃ L1index L1curr_tag L2index L2curr_tag row1 row2,
        decompose address c.c2L1blocksize c.c2L1rows = some (L1index, L1curr_tag) ∧
        decompose address c.c2L2blocksize c.c2L2rows = some (L2index, L2curr_tag) ∧
        log = [print_log_entry CacheName.L1 Status.SW pc address L1index,
               print_log_entry CacheName.L2 Status.SW pc address L2index] ∧
        c1.L1cache.get? L1index.toNat = some row1 ∧ row1.getLast? = some L1curr_tag ∧
        c1.L2cache.get? L2index.toNat = some row2 ∧ row2.getLast? = some L2curr_tag) ∧
    (WFTwo c → ∃ c1 log, swTwo c pc address = some (c1, log)) := by
  constructor
  · intro c1 log h
    unfold swTwo at h
    cases hd1 : decompose address c.c2L1blocksize c.c2L1rows with
    | none => rw [hd1] at h; exact absurd h (by simp)
    | some p1 =>
      obtain ⟨i1, t1⟩ := p1
      rw [hd1] at h
      simp only at h
      cases hd2 : decompose address c.c2L2blocksize c.c2L2rows with
      | none => rw [hd2] at h; exact absurd h (by simp)
      | some p2 =>
        obtain ⟨i2, t2⟩ := p2
        rw [hd2] at h
        simp only at h
        cases ho1 : onRow c.L1cache i1 (swL1Row t1) with
        | none => rw [ho1] at h; exact absurd h (by simp)
        | some q1 =>
          obtain ⟨l1, b1⟩ := q1
          rw [ho1] at h
          simp only at h
          cases ho2 : onRow c.L2cache i2 (swL2Row t2) with
          | none => rw [ho2] at h; exact absurd h (by simp)
          | some q2 =>
            obtain ⟨l2, b2⟩ := q2
            rw [ho2] at h
            simp only [Option.some.injEq, Prod.mk.injEq] at h
            obtain ⟨r1, _, hne1, hg1⟩ := onRow_get _ _ _ _ _ ho1
            obtain ⟨r2, _, hne2, hg2⟩ := onRow_get _ _ _ _ _ ho2
            refine ⟨i1, t1, i2, t2, (swL1Row t1 r1).1, (swL2Row t2 r2).1, rfl, rfl, h.2.symm,
              ?_, ?_, ?_, ?_⟩
            · rw [← h.1]; exact hg1
            · exact (lwOneRow_length_last t1 r1).2 hne1
            · rw [← h.1]; exact hg2
            · exact (lwOneRow_length_last t2 r2).2 hne2
  · intro hwf
    obtain ⟨hwf1, hwf2⟩ := hwf
    obtain ⟨i1, t1, hd1, h10, h11, _⟩ :=
      decompose_wf address c.c2L1blocksize c.c2L1rows hwf1.1 hwf1.2.1
    obtain ⟨i2, t2, hd2, h20, h21, _⟩ :=
      decompose_wf address c.c2L2blocksize c.c2L2rows hwf2.1 hwf2.2.1
    obtain ⟨r1, hr1, hne1⟩ := row_of_wf _ _ i1 _ hwf1 h10 h11
    obtain ⟨r2, hr2, hne2⟩ := row_of_wf _ _ i2 _ hwf2 h20 h21
    unfold swTwo
    simp only [hd1, hd2, onRow_some _ i1 _ r1 h10 hr1 hne1, onRow_some _ i2 _ r2 h20 hr2 hne2]
    exact ⟨_, _, rfl⟩

/-- Witness of C11: one 2-way row per level, L1 holding tags 3 and 5, L2 empty;
the store to address 5. -/
theorem write_through_witness :
    WFTwo ⟨1, 1, 1, 1, [[3, 5]], [[-1, -1]]⟩ ∧
    swTwo ⟨1, 1, 1, 1, [[3, 5]], [[-1, -1]]⟩ 0 5
      = some (⟨1, 1, 1, 1, [[3, 5]], [[-1, 5]]⟩,
          [print_log_entry CacheName.L1 Status.SW 0 5 0,
           print_log_entry CacheName.L2 Status.SW 0 5 0]) ∧
    (∃ c1 log, swTwo ⟨1, 1, 1, 1, [[3, 5]], [[-1, -1]]⟩ 0 5 = some (c1, log)) ∧
    (∃ L1index L1curr_tag L2index L2curr_tag row1 row2,
        decompose 5 1 1 = some (L1index, L1curr_tag) ∧
        decompose 5 1 1 = some (L2index, L2curr_tag) ∧
        [print_log_entry CacheName.L1 Status.SW 0 5 0,
         print_log_entry CacheName.L2 Status.SW 0 5 0]
          = [print_log_entry CacheName.L1 Status.SW 0 5 L1index,
             print_log_entry CacheName.L2 Status.SW 0 5 L2index] ∧
        [[(3 : Int), 5]].get? L1index.toNat = some row1 ∧ row1.getLast? = some L1curr_tag ∧
        [[(-1 : Int), 5]].get? L2index.toNat = some row2 ∧ row2.getLast? = some L2curr_tag) :=
  ⟨by decide, rfl,
    (write_through ⟨1, 1, 1, 1, [[3, 5]], [[-1, -1]]⟩ 0 5).2 (by decide),
    (write_through ⟨1, 1, 1, 1, [[3, 5]], [[-1, -1]]⟩ 0 5).1
      ⟨1, 1, 1, 1, [[3, 5]], [[-1, 5]]⟩
      [print_log_entry CacheName.L1 Status.SW 0 5 0,
       print_log_entry CacheName.L2 Status.SW 0 5 0] rfl⟩

/-! ## The cache as an observer -/

/-- On a well-formed single cache the load is defined. -/
theorem lwOne_defined (c : OneCache) (pc address : Nat)
    (hwf : WFCache c.c1L1blocksize c.c1L1rows c.cache) :
    ∃ c1 log, lwOne c pc address = some (c1, log) := by
  obtain ⟨i, t, hd, h0, h1, _⟩ := decompose_wf address c.c1L1blocksize c.c1L1rows hwf.1 hwf.2.1
  obtain ⟨r, hr, hne⟩ := row_of_wf _ _ i _ hwf h0 h1
  unfold lwOne
  simp only [hd, onRow_some _ i _ r h0 hr hne]
  exact ⟨_, _, rfl⟩

/-- On a well-formed single cache the store is defined. -/
theorem swOne_defined (c : OneCache) (pc address : Nat)
    (hwf : WFCache c.c1L1blocksize c.c1L1rows c.cache) :
    ∃ c1 log, swOne c pc address = some (c1, log) := by
  obtain ⟨i, t, hd, h0, h1, _⟩ := decompose_wf address c.c1L1blocksize c.c1L1rows hwf.1 hwf.2.1
  obtain ⟨r, hr, hne⟩ := row_of_wf _ _ i _ hwf h0 h1
  unfold swOne
  simp only [hd, onRow_some _ i _ r h0 hr hne]
  exact ⟨_, _, rfl⟩

/-- On a well-formed two-level cache the load is defined. -/
theorem lwTwo_defined (c : TwoCaches) (pc address : Nat) (hwf : WFTwo c) :
    ∃ c1 log, lwTwo c pc address = some (c1, log) := by
  obtain ⟨hwf1, hwf2⟩ := hwf
  obtain ⟨i1, t1, hd1, h10, h11, _⟩ :=
    decompose_wf address c.c2L1blocksize c.c2L1rows hwf1.1 hwf1.2.1
  obtain ⟨i2, t2, hd2, h20, h21, _⟩ :=
    decompose_wf address c.c2L2blocksize c.c2L2rows hwf2.1 hwf2.2.1
  obtain ⟨r1, hr1, hne1⟩ := row_of_wf _ _ i1 _ hwf1 h10 h11
  obtain ⟨r2, hr2, hne2⟩ := row_of_wf _ _ i2 _ hwf2 h20 h21
  unfold lwTwo
  simp only [hd1, hd2, onRow_some _ i1 _ r1 h10 hr1 hne1, onRow_some _ i2 _ r2 h20 hr2 hne2]
  split
  · exact ⟨_, _, rfl⟩
  · exact ⟨_, _, rfl⟩

/-- On a well-formed two-level cache the store is defined. -/
theorem swTwo_defined (c : TwoCaches) (pc address : Nat) (hwf : WFTwo c) :
    ∃ c1 log, swTwo c pc address = some (c1, log) := by
  obtain ⟨hwf1, hwf2⟩ := hwf
  obtain ⟨i1, t1, hd1, h10, h11, _⟩ :=
    decompose_wf address c.c2L1blocksize c.c2L1rows hwf1.1 hwf1.2.1
  obtain ⟨i2, t2, hd2, h20, h21, _⟩ :=
    decompose_wf address c.c2L2blocksize c.c2L2rows hwf2.1 hwf2.2.1
  obtain ⟨r1, hr1, hne1⟩ := row_of_wf _ _ i1 _ hwf1 h10 h11
  obtain ⟨r2, hr2, hne2⟩ := row_of_wf _ _ i2 _ hwf2 h20 h21
  unfold swTwo
  simp only [hd1, hd2, onRow_some _ i1 _ r1 h10 hr1 hne1, onRow_some _ i2 _ r2 h20 hr2 hne2]
  exact ⟨_, _, rfl⟩

theorem lwCache_defined (sim : CacheSim) (pc address : Nat) (hwf : WFSim sim) :
    ∃ sim1 log, lwCache sim pc address = some (sim1, log) := by
  cases sim with
  | one c =>
    obtain ⟨c1, log, h⟩ := lwOne_defined c pc address hwf
    exact ⟨CacheSim.one c1, log, by simp only [lwCache, h]⟩
  | two c =>
    obtain ⟨c1, log, h⟩ := lwTwo_defined c pc address hwf
    exact ⟨CacheSim.two c1, log, by simp only [lwCache, h]⟩

theorem swCache_defined (sim : CacheSim) (pc address : Nat) (hwf : WFSim sim) :
    ∃ sim1 log, swCache sim pc address = some (sim1, log) := by
  cases sim with
  | one c =>
    obtain ⟨c1, log, h⟩ := swOne_defined c pc address hwf
    exact ⟨CacheSim.one c1, log, by simp only [swCache, h]⟩
  | two c =>
    obtain ⟨c1, log, h⟩ := swTwo_defined c pc address hwf
    exact ⟨CacheSim.two c1, log, by simp only [swCache, h]⟩

/-- The state after the lw branch does not depend on the cache. -/
theorem lwCached_state (sim sim2 sim1 sim3 : CacheSim) (s s1 s3 : State) (w : Nat)
    (log log3 : List LogEntry) (h : lwCached sim s w = some (s1, sim1, log))
    (h2 : lwCached sim2 s w = some (s3, sim3, log3)) : s1 = s3 := by
  unfold lwCached at h h2
  simp only [] at h h2
  split at h
  · exact absurd h (by simp)
  · rename_i a ha
    rw [ha] at h2
    simp only at h2
    split at h
    · exact absurd h (by simp)
    · split at h2
      · exact absurd h2 (by simp)
      · simp only [Option.some.injEq, Prod.mk.injEq] at h h2
        rw [← h.1, ← h2.1]

/-- The state after the sw branch does not depend on the cache. -/
theorem swCached_state (sim sim2 sim1 sim3 : CacheSim) (s s1 s3 : State) (w : Nat)
    (log log3 : List LogEntry) (h : swCached sim s w = some (s1, sim1, log))
    (h2 : swCached sim2 s w = some (s3, sim3, log3)) : s1 = s3 := by
  unfold swCached at h h2
  simp only [] at h h2
  split_ifs at h h2 with h1
  split at h
  · exact absurd h (by simp)
  · split at h2
    · exact absurd h2 (by simp)
    · simp only [Option.some.injEq, Prod.mk.injEq] at h h2
      rw [← h.1, ← h2.1]

/-- With well-formed caches the lw branch is defined for the same inputs,
whatever the cache. -/
theorem lwCached_isSome (sim sim2 : CacheSim) (s : State) (w : Nat)
    (hwf2 : WFSim sim2) (h : (lwCached sim s w).isSome = true) :
    (lwCached sim2 s w).isSome = true := by
  unfold lwCached at h ⊢
  simp only [] at h ⊢
  split at h
  · exact absurd h (by simp)
  · rename_i a ha
    obtain ⟨sim3, log3, h3⟩ := lwCache_defined sim2 a.pc
      ((s.registers ((w >>> 10) &&& 7) + signExtender7B (w &&& 127) % 65536) % 65536) hwf2
    rw [h3]
    rfl

theorem swCached_isSome (sim sim2 : CacheSim) (s : State) (w : Nat)
    (hwf2 : WFSim sim2) (h : (swCached sim s w).isSome = true) :
    (swCached sim2 s w).isSome = true := by
  unfold swCached at h ⊢
  simp only [] at h ⊢
  split_ifs at h ⊢ with h1
  · obtain ⟨sim3, log3, h3⟩ := swCache_defined sim2
      (setMem s ((s.registers ((w >>> 10) &&& 7) + signExtender7B (w &&& 127) % 65536) % 65536)
        (s.registers ((w >>> 7) &&& 7))).pc
      ((s.registers ((w >>> 10) &&& 7) + signExtender7B (w &&& 127) % 65536) % 65536) hwf2
    rw [h3]
    rfl
  · exact absurd h (by simp)

/-- The state after one step of the cache-enabled engine does not depend on
the cache. -/
theorem execCache_state (sim sim2 sim1 sim3 : CacheSim) (s s1 s3 : State) (w : Nat)
    (log log3 : List LogEntry) (h : execCache sim s w = some (s1, sim1, log))
    (h2 : execCache sim2 s w = some (s3, sim3, log3)) : s1 = s3 := by
  rcases execCache_inv sim sim1 s s1 w log h with ⟨ho, hb, -⟩ | ⟨ho, hb, -⟩ | ⟨ho, hb⟩ |
    ⟨ho, hb⟩ | ⟨ho, hb, -⟩ | ⟨ho, hb, -⟩ | ⟨ho, hb, -⟩ | ⟨ho, hb, -⟩ | ⟨ho, hb, -⟩ <;>
  rcases execCache_inv sim2 sim3 s s3 w log3 h2 with ⟨ho2, hb2, -⟩ | ⟨ho2, hb2, -⟩ |
    ⟨ho2, hb2⟩ | ⟨ho2, hb2⟩ | ⟨ho2, hb2, -⟩ | ⟨ho2, hb2, -⟩ | ⟨ho2, hb2, -⟩ | ⟨ho2, hb2, -⟩ |
    ⟨ho2, hb2, -⟩ <;>
  first
    | omega
    | (rw [hb, hb2])
    | exact lwCached_state sim sim2 sim1 sim3 s s1 s3 w log log3 hb hb2
    | exact swCached_state sim sim2 sim1 sim3 s s1 s3 w log log3 hb hb2

/-- With well-formed caches one step is defined for the same inputs, whatever
the cache. -/
theorem execCache_isSome (sim sim2 : CacheSim) (s : State) (w : Nat)
    (hwf2 : WFSim sim2) (h : (execCache sim s w).isSome = true) :
    (execCache sim2 s w).isSome = true := by
  unfold execCache at h ⊢
  simp only [] at h ⊢
  generalize w >>> 13 = opcode at h ⊢
  split_ifs at h ⊢
  · rfl
  · rfl
  · exact lwCached_isSome sim sim2 s w hwf2 h
  · exact swCached_isSome sim sim2 s w hwf2 h
  · rfl
  · rfl
  · rfl
  · rfl
  · rfl

/-- C13: the cache is a pure observer.  Whatever the two cache configurations
and contents, one step of the cache-enabled engine from the same
architectural state on the same word gives the same registers, memory, `pc`
and halt flag; with well-formed caches (at least one row, slots in every row,
positive block size) the step is defined in the one case exactly when it is
in the other, so the cache decides the log records only. -/
theorem cache_pure_observer (sim sim2 : CacheSim) (s : State) (w : Nat) :
    (∀ (s1 s3 : State) (sim1 sim3 : CacheSim) (log log3 : List LogEntry),
      execCache sim s w = some (s1, sim1, log) → execCache sim2 s w = some (s3, sim3, log3) →
      s1.registers = s3.registers ∧ s1.memory = s3.memory ∧ s1.pc = s3.pc ∧
        s1.halt = s3.halt) ∧
    (WFSim sim → WFSim sim2 →
      (execCache sim s w).map Prod.fst = (execCache sim2 s w).map Prod.fst) := by
  constructor
  · intro s1 s3 sim1 sim3 log log3 h h2
    rw [execCache_state sim sim2 sim1 sim3 s s1 s3 w log log3 h h2]
    exact ⟨rfl, rfl, rfl, rfl⟩
  · intro hwf hwf2
    cases h : execCache sim s w with
    | none =>
      cases h2 : execCache sim2 s w with
      | none => rfl
      | some r2 =>
        have := execCache_isSome sim2 sim s w hwf (by rw [h2]; rfl)
        rw [h] at this
        exact absurd this (by simp)
    | some r =>
      cases h2 : execCache sim2 s w with
      | none =>
        have := execCache_isSome sim sim2 s w hwf2 (by rw [h]; rfl)
        rw [h2] at this
        exact absurd this (by simp)
      | some r2 =>
        obtain ⟨s1, sim1, log⟩ := r
        obtain ⟨s3, sim3, log3⟩ := r2
        simp only [Option.map_some', Option.some.injEq]
        exact execCache_state sim sim2 sim1 sim3 s s1 s3 w log log3 h h2

/-- Witness of C13: `lw $1,0($0)` (word `0x8080`) from the initial state, with
a one-way single cache and with a two-level cache that holds tags. -/
theorem cache_pure_observer_witness :
    WFSim (CacheSim.one ⟨1, 1, [[-1]]⟩) ∧
    WFSim (CacheSim.two ⟨1, 1, 1, 1, [[3, 5]], [[-1, -1]]⟩) ∧
    execCache (CacheSim.one ⟨1, 1, [[-1]]⟩) (initState fun _ => 0) 0x8080
      = some (setPc (setReg (initState fun _ => 0) 1 0) 1, CacheSim.one ⟨1, 1, [[0]]⟩,
          [print_log_entry CacheName.L1 Status.MISS 0 0 0]) ∧
    execCache (CacheSim.two ⟨1, 1, 1, 1, [[3, 5]], [[-1, -1]]⟩) (initState fun _ => 0) 0x8080
      = some (setPc (setReg (initState fun _ => 0) 1 0) 1,
          CacheSim.two ⟨1, 1, 1, 1, [[5, 0]], [[-1, 0]]⟩,
          [print_log_entry CacheName.L1 Status.MISS 0 0 0,
           print_log_entry CacheName.L2 Status.MISS 0 0 0]) ∧
    (execCache (CacheSim.one ⟨1, 1, [[-1]]⟩) (initState fun _ => 0) 0x8080).map Prod.fst
      = (execCache (CacheSim.two ⟨1, 1, 1, 1, [[3, 5]], [[-1, -1]]⟩)
          (initState fun _ => 0) 0x8080).map Prod.fst :=
  ⟨by decide, by decide, rfl, rfl,
    (cache_pure_observer (CacheSim.one ⟨1, 1, [[-1]]⟩)
      (CacheSim.two ⟨1, 1, 1, 1, [[3, 5]], [[-1, -1]]⟩) (initState fun _ => 0) 0x8080).2
      (by decide) (by decide)⟩

/-! ## Instruction semantics: dispatch and immediates -/

set_option maxRecDepth 100000 in
/-- Value of the sign extension as a sum, for all 128 immediates. -/
theorem signExtender7B_value : ∀ i : Fin 128,
    signExtender7B i.val < 65536 ∧ (i.val < 64 → signExtender7B i.val = i.val) ∧
    (64 ≤ i.val → signExtender7B i.val = i.val + 65408) := by
  decide

theorem and_127_lt (w : Nat) : w &&& 127 < 128 :=
  Nat.lt_of_le_of_lt Nat.and_le_right (by decide)

theorem and_8191_lt (w : Nat) : w &&& 8191 < 8192 :=
  Nat.lt_of_le_of_lt Nat.and_le_right (by decide)

/-- The immediate as the engines hold it in `unsigned short imm`. -/
theorem imm_eq (w : Nat) :
    signExtender7B (w &&& 127) % 65536 = signExtender7B (w &&& 127) :=
  Nat.mod_eq_of_lt (signExtender7B_value ⟨w &&& 127, and_127_lt w⟩).1

theorem execProcessor_rtype (s : State) (w : Nat) (h : w >>> 13 = 0) :
    execProcessor s w
      = some (setPc (rtypeProcessor s w) ((rtypeProcessor s w).pc % 8192)) := by
  simp [execProcessor, h]

theorem execProcessor_slti (s : State) (w : Nat) (h : w >>> 13 = 7) :
    execProcessor s w = some (setPc (execSlti s w) ((execSlti s w).pc % 8192)) := by
  simp [execProcessor, h]

theorem execProcessor_lw (s : State) (w : Nat) (h : w >>> 13 = 4) :
    execProcessor s w
      = (lwProcessor s w).map (fun s1 => setPc s1 (s1.pc % 8192)) := by
  simp only [execProcessor, h]
  cases lwProcessor s w <;> simp

theorem execProcessor_sw (s : State) (w : Nat) (h : w >>> 13 = 5) :
    execProcessor s w
      = (swProcessor s w).map (fun s1 => setPc s1 (s1.pc % 8192)) := by
  simp only [execProcessor, h]
  cases swProcessor s w <;> simp

theorem execProcessor_jeq (s : State) (w : Nat) (h : w >>> 13 = 6) :
    execProcessor s w = some (setPc (execJeq s w) ((execJeq s w).pc % 8192)) := by
  simp [execProcessor, h]

theorem execProcessor_addi (s : State) (w : Nat) (h : w >>> 13 = 1) :
    execProcessor s w = some (setPc (execAddi s w) ((execAddi s w).pc % 8192)) := by
  simp [execProcessor, h]

theorem execProcessor_jal (s : State) (w : Nat) (h : w >>> 13 = 3) :
    execProcessor s w = some (setPc (execJal s w) ((execJal s w).pc % 8192)) := by
  simp [execProcessor, h]

theorem execCache_rtype (sim : CacheSim) (s : State) (w : Nat) (h : w >>> 13 = 0) :
    execCache sim s w = some (rtypeCache s w, sim, []) := by
  simp [execCache, h]

theorem execCache_slti (sim : CacheSim) (s : State) (w : Nat) (h : w >>> 13 = 7) :
    execCache sim s w = some (execSlti s w, sim, []) := by
  simp [execCache, h]

theorem execCache_lw (sim : CacheSim) (s : State) (w : Nat) (h : w >>> 13 = 4) :
    execCache sim s w = lwCached sim s w := by
  simp [execCache, h]

theorem execCache_sw (sim : CacheSim) (s : State) (w : Nat) (h : w >>> 13 = 5) :
    execCache sim s w = swCached sim s w := by
  simp [execCache, h]

theorem execCache_jeq (sim : CacheSim) (s : State) (w : Nat) (h : w >>> 13 = 6) :
    execCache sim s w = some (execJeq s w, sim, []) := by
  simp [execCache, h]

theorem execCache_addi (sim : CacheSim) (s : State) (w : Nat) (h : w >>> 13 = 1) :
    execCache sim s w = some (execAddi s w, sim, []) := by
  simp [execCache, h]

theorem execCache_jal (sim : CacheSim) (s : State) (w : Nat) (h : w >>> 13 = 3) :
    execCache sim s w = some (execJal s w, sim, []) := by
  simp [execCache, h]

/-- The R-type branch of the no-cache engine on a word with function code
`func <= 4` and `dst != 0`: the value written and the new `pc`. -/
theorem rtypeProcessor_write (s : State) (w : Nat) (hd : (w >>> 4) &&& 7 ≠ 0)
    (hf : w &&& 15 ≤ 4) :
    rtypeProcessor s w = setPc (setReg s ((w >>> 4) &&& 7)
      (if w &&& 15 = 0 then
        (s.registers ((w >>> 10) &&& 7) + s.registers ((w >>> 7) &&& 7)) % 65536
      else if w &&& 15 = 1 then
        toU16 ((s.registers ((w >>> 10) &&& 7) : Int) - (s.registers ((w >>> 7) &&& 7) : Int))
      else if w &&& 15 = 2 then
        (s.registers ((w >>> 10) &&& 7) ||| s.registers ((w >>> 7) &&& 7)) % 65536
      else if w &&& 15 = 3 then
        (s.registers ((w >>> 10) &&& 7) &&& s.registers ((w >>> 7) &&& 7)) % 65536
      else if s.registers ((w >>> 10) &&& 7) < s.registers ((w >>> 7) &&& 7) then 1 else 0))
      ((s.pc + 1) % 65536) := by
  unfold rtypeProcessor
  simp only []
  generalize (w >>> 4) &&& 7 = dst at hd ⊢
  generalize w &&& 15 = func at hf ⊢
  generalize (w >>> 10) &&& 7 = srcA
  generalize (w >>> 7) &&& 7 = srcB
  have h8 : func ≠ 8 := by omega
  rw [if_pos hd, if_neg h8]
  by_cases h0 : func = 0
  · simp only [h0, if_true]
  · by_cases h1 : func = 1
    · simp only [h1, if_true, if_false, one_ne_zero]
    · by_cases h2 : func = 2
      · simp only [h2, if_true, if_false, OfNat.ofNat_ne_zero, OfNat.ofNat_ne_one]
      · by_cases h3 : func = 3
        · subst h3; simp
        · have h4 : func = 4 := by omega
          subst h4; simp

/-- The R-type branch of the cache-enabled engine on a word with function code
`func <= 4` and `dst != 0`. -/
theorem rtypeCache_write (s : State) (w : Nat) (hd : (w >>> 4) &&& 7 ≠ 0)
    (hf : w &&& 15 ≤ 4) :
    rtypeCache s w = setPc (setReg s ((w >>> 4) &&& 7)
      (if w &&& 15 = 0 then
        (s.registers ((w >>> 10) &&& 7) + s.registers ((w >>> 7) &&& 7)) % 65536
      else if w &&& 15 = 1 then
        toU16 ((s.registers ((w >>> 10) &&& 7) : Int) - (s.registers ((w >>> 7) &&& 7) : Int))
      else if w &&& 15 = 2 then
        (s.registers ((w >>> 10) &&& 7) ||| s.registers ((w >>> 7) &&& 7)) % 65536
      else if w &&& 15 = 3 then
        (s.registers ((w >>> 10) &&& 7) &&& s.registers ((w >>> 7) &&& 7)) % 65536
      else if s.registers ((w >>> 10) &&& 7) < s.registers ((w >>> 7) &&& 7) then 1 else 0))
      ((s.pc + 1) % 65536) := by
  unfold rtypeCache
  simp only []
  generalize (w >>> 4) &&& 7 = dst at hd ⊢
  generalize w &&& 15 = func at hf ⊢
  generalize (w >>> 10) &&& 7 = srcA
  generalize (w >>> 7) &&& 7 = srcB
  have h8 : func ≠ 8 := by omega
  rw [if_pos hd, if_neg h8]
  by_cases h0 : func = 0
  · simp only [h0, if_true]; rfl
  · by_cases h1 : func = 1
    · subst h1; simp
    · by_cases h2 : func = 2
      · subst h2; simp
      · by_cases h3 : func = 3
        · subst h3; simp
        · have h4 : func = 4 := by omega
          subst h4; simp

/-! ## Memory range and the end-to-end scenario -/

/-- C14, at the failing input: after `addi $1,$0,-1` (word `0x20FF`) register 1
holds `0xFFFF`; the effective address of the following `lw $2,0($1)` (word
`0x8500`) is then 65535, which is not below 8192, and the step of either
engine indexes `memory` outside its 8192 words (no result in the model); the
same holds for `sw $2,0($1)` (word `0xA500`). -/
theorem memory_access_out_of_range :
    execProcessor (initState fun _ => 0) 0x20FF
      = some (setPc (setReg (initState fun _ => 0) 1 65535) 1) ∧
    ((setPc (setReg (initState fun _ => 0) 1 65535) 1).registers ((0x8500 >>> 10) &&& 7)
        + signExtender7B (0x8500 &&& 127)) % 65536 = 65535 ∧
    ¬ (65535 < 8192) ∧
    execProcessor (setPc (setReg (initState fun _ => 0) 1 65535) 1) 0x8500 = none ∧
    execProcessor (setPc (setReg (initState fun _ => 0) 1 65535) 1) 0xA500 = none ∧
    execCache (CacheSim.one ⟨1, 1, [[-1]]⟩) (setPc (setReg (initState fun _ => 0) 1 65535) 1)
      0x8500 = none ∧
    execCache (CacheSim.one ⟨1, 1, [[-1]]⟩) (setPc (setReg (initState fun _ => 0) 1 65535) 1)
      0xA500 = none ∧
    runProcessor 2 (initState fun a => if a = 0 then 0x20FF else if a = 1 then 0x8500 else 0)
      = none := by
  refine ⟨rfl, by decide, by decide, rfl, rfl, rfl, rfl, rfl⟩

/-- C15: with `0x2085`, `0x2103`, `0x0530`, `0x4003` at addresses 0 to 3, all
registers 0 and `pc` 0, the no-cache engine and the cache-enabled engine (with
any cache, which the program never touches) halt at the fourth instruction
with register 1 equal to 5, register 2 equal to 3, register 3 equal to 8 and
`pc` equal to 3; after three instructions the machine has not halted, and no
further step is taken after the fourth. -/
theorem end_to_end_scenario (mem : Nat → Nat) (h0 : mem 0 = 0x2085) (h1 : mem 1 = 0x2103)
    (h2 : mem 2 = 0x0530) (h3 : mem 3 = 0x4003) :
    (∃ mid final, runProcessor 3 (initState mem) = some mid ∧ mid.halt = false ∧
      runProcessor 4 (initState mem) = some final ∧
      (∀ n, runProcessor (4 + n) (initState mem) = some final) ∧
      final.halt = true ∧ final.pc = 3 ∧ final.registers 1 = 5 ∧ final.registers 2 = 3 ∧
      final.registers 3 = 8 ∧ final.registers 0 = 0) ∧
    (∀ sim : CacheSim, ∃ mid final, runCache 3 sim (initState mem) = some (mid, sim, []) ∧
      mid.halt = false ∧
      runCache 4 sim (initState mem) = some (final, sim, []) ∧
      (∀ n, runCache (4 + n) sim (initState mem) = some (final, sim, [])) ∧
      final.halt = true ∧ final.pc = 3 ∧ final.registers 1 = 5 ∧ final.registers 2 = 3 ∧
      final.registers 3 = 8 ∧ final.registers 0 = 0) := by
  let s0 : State := initState mem
  let s1 : State := setPc (setReg s0 1 5) 1
  let s2 : State := setPc (setReg s1 2 3) 2
  let s3 : State := setPc (setReg s2 3 8) 3
  let s4 : State := { s3 with halt := true }
  have m0 : s0.memory s0.pc = 0x2085 := h0
  have m1 : s1.memory s1.pc = 0x2103 := h1
  have m2 : s2.memory s2.pc = 0x0530 := h2
  have m3 : s3.memory s3.pc = 0x4003 := h3
  have p0 : s0.pc < 8192 := by show (0 : Nat) < 8192; decide
  have p1 : s1.pc < 8192 := by show (1 : Nat) < 8192; decide
  have p2 : s2.pc < 8192 := by show (2 : Nat) < 8192; decide
  have p3 : s3.pc < 8192 := by show (3 : Nat) < 8192; decide
  have e0 : stepProcessor s0 = some s1 := by
    unfold stepProcessor; rw [if_pos p0, m0]; rfl
  have e1 : stepProcessor s1 = some s2 := by
    unfold stepProcessor; rw [if_pos p1, m1]; rfl
  have e2 : stepProcessor s2 = some s3 := by
    unfold stepProcessor; rw [if_pos p2, m2]; rfl
  have e3 : stepProcessor s3 = some s4 := by
    unfold stepProcessor; rw [if_pos p3, m3]; rfl
  have g0 : s0.halt = false := rfl
  have g1 : s1.halt = false := rfl
  have g2 : s2.halt = false := rfl
  have g3 : s3.halt = false := rfl
  have g4 : s4.halt = true := rfl
  constructor
  · refine ⟨s3, s4, ?_, rfl, ?_, ?_, rfl, rfl, rfl, rfl, rfl, rfl⟩
    · show runProcessor 3 s0 = some s3
      simp only [runProcessor, g0, g1, g2, e0, e1, e2, Bool.false_eq_true, if_false]
    · show runProcessor 4 s0 = some s4
      simp only [runProcessor, g0, g1, g2, g3, e0, e1, e2, e3, Bool.false_eq_true, if_false]
    · intro n
      show runProcessor (4 + n) s0 = some s4
      have e : 4 + n = n + 1 + 1 + 1 + 1 := by omega
      rw [e]
      simp only [runProcessor, g0, g1, g2, g3, e0, e1, e2, e3, Bool.false_eq_true, if_false]
      exact runProcessor_halted s4 g4 n
  · intro sim
    have c0 : stepCache sim s0 = some (s1, sim, []) := by
      unfold stepCache; rw [m0]; rfl
    have c1 : stepCache sim s1 = some (s2, sim, []) := by
      unfold stepCache; rw [m1]; rfl
    have c2 : stepCache sim s2 = some (s3, sim, []) := by
      unfold stepCache; rw [m2]; rfl
    have c3 : stepCache sim s3 = some (s4, sim, []) := by
      unfold stepCache; rw [m3]; rfl
    have stop : ∀ n, runCache n sim s4 = some (s4, sim, []) := by
      intro n
      cases n with
      | zero => rfl
      | succ n => simp [runCache, g4]
    refine ⟨s3, s4, ?_, rfl, ?_, ?_, rfl, rfl, rfl, rfl, rfl, rfl⟩
    · show runCache 3 sim s0 = some (s3, sim, [])
      simp [runCache, g0, g1, g2, p0, p1, p2, c0, c1, c2]
    · show runCache 4 sim s0 = some (s4, sim, [])
      simp [runCache, g0, g1, g2, g3, p0, p1, p2, p3, c0, c1, c2, c3]
    · intro n
      show runCache (4 + n) sim s0 = some (s4, sim, [])
      have e : 4 + n = n + 1 + 1 + 1 + 1 := by omega
      rw [e]
      simp [runCache, g0, g1, g2, g3, p0, p1, p2, p3, c0, c1, c2, c3, stop n]

/-- Witness of C15: the four words followed by zeros, as the loader leaves
them. -/
theorem end_to_end_scenario_witness :
    (∃ mid final,
      runProcessor 3 (initState fun a => if a = 0 then 0x2085 else if a = 1 then 0x2103
        else if a = 2 then 0x0530 else if a = 3 then 0x4003 else 0) = some mid ∧
      mid.halt = false ∧
      runProcessor 4 (initState fun a => if a = 0 then 0x2085 else if a = 1 then 0x2103
        else if a = 2 then 0x0530 else if a = 3 then 0x4003 else 0) = some final ∧
      (∀ n, runProcessor (4 + n) (initState fun a => if a = 0 then 0x2085
        else if a = 1 then 0x2103 else if a = 2 then 0x0530 else if a = 3 then 0x4003
        else 0) = some final) ∧
      final.halt = true ∧ final.pc = 3 ∧ final.registers 1 = 5 ∧ final.registers 2 = 3 ∧
      final.registers 3 = 8 ∧ final.registers 0 = 0) :=
  (end_to_end_scenario (fun a => if a = 0 then 0x2085 else if a = 1 then 0x2103
    else if a = 2 then 0x0530 else if a = 3 then 0x4003 else 0) rfl rfl rfl rfl).1

/-! ## Arithmetic and jumps -/

theorem toU16_cast (x : Int) : ((toU16 x : Nat) : Int) = x % 65536 := by
  unfold toU16
  exact Int.toNat_of_nonneg (Int.emod_nonneg _ (by decide))

/-- C16: with `dst != 0`, add writes `(a + b) mod 2^16`, sub writes
`(a - b) mod 2^16` and addi writes `(a + sext(imm)) mod 2^16` into
`registers[dst]`, in both engines and without a trap (the step is defined);
add of `0xFFFF` and `0x0001` writes `0x0000`. -/
theorem arithmetic_wraparound (sim : CacheSim) (s : State) (w : Nat) :
    (w >>> 13 = 0 → w &&& 15 = 0 → (w >>> 4) &&& 7 ≠ 0 →
      ∃ s1 s2, execProcessor s w = some s1 ∧ execCache sim s w = some (s2, sim, []) ∧
        s1.registers ((w >>> 4) &&& 7)
          = (s.registers ((w >>> 10) &&& 7) + s.registers ((w >>> 7) &&& 7)) % 65536 ∧
        s2.registers ((w >>> 4) &&& 7)
          = (s.registers ((w >>> 10) &&& 7) + s.registers ((w >>> 7) &&& 7)) % 65536 ∧
        (s.registers ((w >>> 10) &&& 7) = 0xFFFF → s.registers ((w >>> 7) &&& 7) = 0x0001 →
          s1.registers ((w >>> 4) &&& 7) = 0x0000 ∧ s2.registers ((w >>> 4) &&& 7) = 0x0000)) ∧
    (w >>> 13 = 0 → w &&& 15 = 1 → (w >>> 4) &&& 7 ≠ 0 →
      ∃ s1 s2, execProcessor s w = some s1 ∧ execCache sim s w = some (s2, sim, []) ∧
        (s1.registers ((w >>> 4) &&& 7) : Int)
          = ((s.registers ((w >>> 10) &&& 7) : Int) - (s.registers ((w >>> 7) &&& 7) : Int))
              % 65536 ∧
        (s2.registers ((w >>> 4) &&& 7) : Int)
          = ((s.registers ((w >>> 10) &&& 7) : Int) - (s.registers ((w >>> 7) &&& 7) : Int))
              % 65536) ∧
    (w >>> 13 = 1 → (w >>> 7) &&& 7 ≠ 0 →
      ∃ s1 s2, execProcessor s w = some s1 ∧ execCache sim s w = some (s2, sim, []) ∧
        s1.registers ((w >>> 7) &&& 7)
          = (s.registers ((w >>> 10) &&& 7) + signExtender7B (w &&& 127)) % 65536 ∧
        s2.registers ((w >>> 7) &&& 7)
          = (s.registers ((w >>> 10) &&& 7) + signExtender7B (w &&& 127)) % 65536) := by
  refine ⟨?_, ?_, ?_⟩
  · intro ho hf hd
    have hp := rtypeProcessor_write s w hd (by omega)
    have hc := rtypeCache_write s w hd (by omega)
    rw [hf] at hp hc
    simp only [if_true] at hp hc
    refine ⟨_, _, execProcessor_rtype s w ho, execCache_rtype sim s w ho, ?_, ?_, ?_⟩
    · rw [hp]; simp
    · rw [hc]; simp
    · intro ha hb
      rw [hp, hc, ha, hb]
      simp
  · intro ho hf hd
    have hp := rtypeProcessor_write s w hd (by omega)
    have hc := rtypeCache_write s w hd (by omega)
    rw [hf] at hp hc
    simp only [if_true, if_false, one_ne_zero] at hp hc
    refine ⟨_, _, execProcessor_rtype s w ho, execCache_rtype sim s w ho, ?_, ?_⟩
    · rw [hp]
      simp only [setPc_registers, setReg_registers, if_true]
      exact toU16_cast _
    · rw [hc]
      simp only [setPc_registers, setReg_registers, if_true]
      exact toU16_cast _
  · intro ho hd
    have hA : execAddi s w = setPc (setReg s ((w >>> 7) &&& 7)
        ((s.registers ((w >>> 10) &&& 7) + signExtender7B (w &&& 127)) % 65536))
        ((s.pc + 1) % 65536) := by
      unfold execAddi
      simp only [imm_eq]
      rw [if_pos hd]
      rfl
    refine ⟨_, _, execProcessor_addi s w ho, execCache_addi sim s w ho, ?_, ?_⟩
    · rw [hA]; simp
    · rw [hA]; simp

/-- Witness of C16: `add $3,$1,$2` (word `0x0530`) with register 1 holding
`0xFFFF` and register 2 holding 1. -/
theorem arithmetic_wraparound_witness :
    ∃ s1 s2,
      execProcessor (setReg (setReg (initState fun _ => 0) 1 0xFFFF) 2 1) 0x0530 = some s1 ∧
      execCache (CacheSim.one ⟨1, 1, [[-1]]⟩)
        (setReg (setReg (initState fun _ => 0) 1 0xFFFF) 2 1) 0x0530
          = some (s2, CacheSim.one ⟨1, 1, [[-1]]⟩, []) ∧
      s1.registers ((0x0530 >>> 4) &&& 7)
        = ((setReg (setReg (initState fun _ => 0) 1 0xFFFF) 2 1).registers ((0x0530 >>> 10) &&& 7)
          + (setReg (setReg (initState fun _ => 0) 1 0xFFFF) 2 1).registers
              ((0x0530 >>> 7) &&& 7)) % 65536 ∧
      s2.registers ((0x0530 >>> 4) &&& 7)
        = ((setReg (setReg (initState fun _ => 0) 1 0xFFFF) 2 1).registers ((0x0530 >>> 10) &&& 7)
          + (setReg (setReg (initState fun _ => 0) 1 0xFFFF) 2 1).registers
              ((0x0530 >>> 7) &&& 7)) % 65536 ∧
      ((setReg (setReg (initState fun _ => 0) 1 0xFFFF) 2 1).registers ((0x0530 >>> 10) &&& 7)
          = 0xFFFF →
        (setReg (setReg (initState fun _ => 0) 1 0xFFFF) 2 1).registers ((0x0530 >>> 7) &&& 7)
          = 0x0001 →
        s1.registers ((0x0530 >>> 4) &&& 7) = 0x0000 ∧
          s2.registers ((0x0530 >>> 4) &&& 7) = 0x0000) :=
  (arithmetic_wraparound (CacheSim.one ⟨1, 1, [[-1]]⟩)
    (setReg (setReg (initState fun _ => 0) 1 0xFFFF) 2 1) 0x0530).1
    (by decide) (by decide) (by decide)

/-- C17: a jal word with 13-bit target `t`, from a state with `pc < 8192`:
after one step of either engine register 7 equals `pc + 1`, `pc` equals `t`,
every other register and all memory words are unchanged, and the halt flag
is unchanged, also when `t` equals the old `pc`. -/
theorem jal_semantics (sim : CacheSim) (s : State) (w : Nat) (ho : w >>> 13 = 3)
    (hpc : s.pc < 8192) :
    ∃ s1 s2, execProcessor s w = some s1 ∧ execCache sim s w = some (s2, sim, []) ∧
      (s1.registers 7 = s.pc + 1 ∧ s1.pc = w &&& 8191 ∧
        (∀ r, r ≠ 7 → s1.registers r = s.registers r) ∧ s1.memory = s.memory ∧
        s1.halt = s.halt) ∧
      (s2.registers 7 = s.pc + 1 ∧ s2.pc = w &&& 8191 ∧
        (∀ r, r ≠ 7 → s2.registers r = s.registers r) ∧ s2.memory = s.memory ∧
        s2.halt = s.halt) := by
  have hlink : (s.pc + 1) % 65536 = s.pc + 1 := Nat.mod_eq_of_lt (by omega)
  refine ⟨_, _, execProcessor_jal s w ho, execCache_jal sim s w ho, ?_, ?_⟩
  · refine ⟨?_, ?_, ?_, rfl, rfl⟩
    · simp [execJal, hlink]
    · simp only [setPc_pc, execJal]
      exact Nat.mod_eq_of_lt (and_8191_lt w)
    · intro r hr
      simp [execJal, hr]
  · refine ⟨?_, rfl, ?_, rfl, rfl⟩
    · simp [execJal, hlink]
    · intro r hr
      simp [execJal, hr]

/-- Witness of C17: `jal 0` (word `0x6000`) fetched at `pc = 0`, a jump to the
current `pc`. -/
theorem jal_semantics_witness :
    ∃ s1 s2, execProcessor (initState fun _ => 0) 0x6000 = some s1 ∧
      execCache (CacheSim.one ⟨1, 1, [[-1]]⟩) (initState fun _ => 0) 0x6000
        = some (s2, CacheSim.one ⟨1, 1, [[-1]]⟩, []) ∧
      (s1.registers 7 = (initState fun _ => 0).pc + 1 ∧ s1.pc = 0x6000 &&& 8191 ∧
        (∀ r, r ≠ 7 → s1.registers r = (initState fun _ => 0).registers r) ∧
        s1.memory = (initState fun _ => 0).memory ∧ s1.halt = (initState fun _ => 0).halt) ∧
      (s2.registers 7 = (initState fun _ => 0).pc + 1 ∧ s2.pc = 0x6000 &&& 8191 ∧
        (∀ r, r ≠ 7 → s2.registers r = (initState fun _ => 0).registers r) ∧
        s2.memory = (initState fun _ => 0).memory ∧ s2.halt = (initState fun _ => 0).halt) :=
  jal_semantics (CacheSim.one ⟨1, 1, [[-1]]⟩) (initState fun _ => 0) 0x6000 (by decide)
    (by decide)

/-! ## Branch and comparison -/

/-- The jeq branch, written out. -/
theorem execJeq_eq (s : State) (w : Nat) :
    execJeq s w = setPc s
      (if s.registers ((w >>> 10) &&& 7) = s.registers ((w >>> 7) &&& 7) then
        ((s.pc + signExtender7B (w &&& 127)) % 65536 + 1) % 65536
       else (s.pc + 1) % 65536) := by
  unfold execJeq
  simp only [imm_eq]
  split <;> rfl

/-- C18: a jeq word leaves registers and memory unchanged in both engines.
If `registers[srcA] == registers[srcB]` the new `pc` is
`(pc + sext(imm) + 1) mod 2^16`, further reduced mod 8192 in the no-cache
engine; otherwise it is `pc + 1` (as a 16-bit value; mod 8192 in the no-cache
engine).  A taken jeq with a negative immediate `imm` (field `i >= 64`,
`|imm| = 128 - i`) moves `pc` back by `|imm| - 1` when that does not pass
below address 0. -/
theorem jeq_semantics (sim : CacheSim) (s : State) (w : Nat) (ho : w >>> 13 = 6) :
    ∃ s1 s2, execProcessor s w = some s1 ∧ execCache sim s w = some (s2, sim, []) ∧
      s1.registers = s.registers ∧ s1.memory = s.memory ∧
      s2.registers = s.registers ∧ s2.memory = s.memory ∧
      (s.registers ((w >>> 10) &&& 7) = s.registers ((w >>> 7) &&& 7) →
        s2.pc = (s.pc + signExtender7B (w &&& 127) + 1) % 65536 ∧
        s1.pc = (s.pc + signExtender7B (w &&& 127) + 1) % 65536 % 8192) ∧
      (s.registers ((w >>> 10) &&& 7) ≠ s.registers ((w >>> 7) &&& 7) →
        s2.pc = (s.pc + 1) % 65536 ∧ (s.pc < 65535 → s2.pc = s.pc + 1) ∧
        s1.pc = (s.pc + 1) % 8192) ∧
      (s.registers ((w >>> 10) &&& 7) = s.registers ((w >>> 7) &&& 7) →
        64 ≤ w &&& 127 → 127 - (w &&& 127) ≤ s.pc → s.pc < 8192 →
        s2.pc + (127 - (w &&& 127)) = s.pc ∧ s1.pc + (127 - (w &&& 127)) = s.pc) := by
  have hJ := execJeq_eq s w
  refine ⟨_, _, execProcessor_jeq s w ho, execCache_jeq sim s w ho, ?_, ?_, ?_, ?_, ?_, ?_, ?_⟩
  · rw [hJ]; rfl
  · rw [hJ]; rfl
  · rw [hJ]; rfl
  · rw [hJ]; rfl
  · intro heq
    rw [hJ]
    simp only [setPc_pc, if_pos heq]
    constructor <;> omega
  · intro hne
    rw [hJ]
    simp only [setPc_pc, if_neg hne]
    refine ⟨?_, ?_, ?_⟩ <;> first | trivial | omega
  · intro heq hi hback hpc
    have hv := (signExtender7B_value ⟨w &&& 127, and_127_lt w⟩).2.2 hi
    have hlt := and_127_lt w
    simp only at hv
    rw [hJ]
    simp only [setPc_pc, if_pos heq, hv]
    constructor <;> omega

/-- Witness of C18: `jeq $0,$0,-3` (word `0xC07D`) fetched at `pc = 5`, a
taken branch that moves `pc` back by 2. -/
theorem jeq_semantics_witness :
    ∃ s1 s2, execProcessor (setPc (initState fun _ => 0) 5) 0xC07D = some s1 ∧
      execCache (CacheSim.one ⟨1, 1, [[-1]]⟩) (setPc (initState fun _ => 0) 5) 0xC07D
        = some (s2, CacheSim.one ⟨1, 1, [[-1]]⟩, []) ∧
      s1.pc = 3 ∧ s2.pc = 3 :=
  let ⟨s1, s2, h1, h2, _, _, _, _, _, _, hb⟩ :=
    jeq_semantics (CacheSim.one ⟨1, 1, [[-1]]⟩) (setPc (initState fun _ => 0) 5) 0xC07D
      (by decide)
  ⟨s1, s2, h1, h2,
    by have := (hb rfl (by decide) (by decide) (by decide)).2
       have e : 127 - (0xC07D &&& 127) = 2 := by decide
       rw [e] at this
       have e5 : (setPc (initState fun _ => 0) 5).pc = 5 := rfl
       rw [e5] at this
       omega,
    by have := (hb rfl (by decide) (by decide) (by decide)).1
       have e : 127 - (0xC07D &&& 127) = 2 := by decide
       rw [e] at this
       have e5 : (setPc (initState fun _ => 0) 5).pc = 5 := rfl
       rw [e5] at this
       omega⟩

/-- The slti branch with `dst != 0`, written out. -/
theorem execSlti_eq (s : State) (w : Nat) (hd : (w >>> 7) &&& 7 ≠ 0) :
    execSlti s w = setPc (setReg s ((w >>> 7) &&& 7)
      (if s.registers ((w >>> 10) &&& 7) < signExtender7B (w &&& 127) then 1 else 0))
      ((s.pc + 1) % 65536) := by
  unfold execSlti
  simp only [imm_eq]
  rw [if_pos hd]
  rfl

/-- C19: with `dst != 0`, slti writes 1 to `registers[dst]` exactly when
`registers[srcA] < sext(imm)` as unsigned 16-bit numbers and 0 otherwise (with
immediate field 127 the comparison is against `0xFFFF`, so the result is 1
for every 16-bit value other than `0xFFFF`); slt writes 1 exactly when
`registers[srcA] < registers[srcB]` unsigned and 0 otherwise; in both
engines. -/
theorem slti_slt_semantics (sim : CacheSim) (s : State) (w : Nat) :
    (w >>> 13 = 7 → (w >>> 7) &&& 7 ≠ 0 →
      ∃ s1 s2, execProcessor s w = some s1 ∧ execCache sim s w = some (s2, sim, []) ∧
        s1.registers ((w >>> 7) &&& 7)
          = (if s.registers ((w >>> 10) &&& 7) < signExtender7B (w &&& 127) then 1 else 0) ∧
        s2.registers ((w >>> 7) &&& 7)
          = (if s.registers ((w >>> 10) &&& 7) < signExtender7B (w &&& 127) then 1 else 0) ∧
        (w &&& 127 = 127 → signExtender7B (w &&& 127) = 0xFFFF ∧
          (s.registers ((w >>> 10) &&& 7) < 65536 → s.registers ((w >>> 10) &&& 7) ≠ 0xFFFF →
            s1.registers ((w >>> 7) &&& 7) = 1 ∧ s2.registers ((w >>> 7) &&& 7) = 1))) ∧
    (w >>> 13 = 0 → w &&& 15 = 4 → (w >>> 4) &&& 7 ≠ 0 →
      ∃ s1 s2, execProcessor s w = some s1 ∧ execCache sim s w = some (s2, sim, []) ∧
        s1.registers ((w >>> 4) &&& 7)
          = (if s.registers ((w >>> 10) &&& 7) < s.registers ((w >>> 7) &&& 7) then 1 else 0) ∧
        s2.registers ((w >>> 4) &&& 7)
          = (if s.registers ((w >>> 10) &&& 7) < s.registers ((w >>> 7) &&& 7) then 1
             else 0)) := by
  constructor
  · intro ho hd
    have hS := execSlti_eq s w hd
    refine ⟨_, _, execProcessor_slti s w ho, execCache_slti sim s w ho, ?_, ?_, ?_⟩
    · rw [hS]; simp
    · rw [hS]; simp
    · intro hi
      have hv : signExtender7B (w &&& 127) = 0xFFFF := by rw [hi]; decide
      refine ⟨hv, ?_⟩
      intro hlt hne
      have hcmp : s.registers ((w >>> 10) &&& 7) < signExtender7B (w &&& 127) := by
        rw [hv]; omega
      rw [hS]
      simp [hcmp]
  · intro ho hf hd
    have hp := rtypeProcessor_write s w hd (by omega)
    have hc := rtypeCache_write s w hd (by omega)
    rw [hf] at hp hc
    simp only [if_false, OfNat.ofNat_ne_zero, OfNat.ofNat_ne_one,
      show (4 : Nat) ≠ 2 by decide, show (4 : Nat) ≠ 3 by decide] at hp hc
    refine ⟨_, _, execProcessor_rtype s w ho, execCache_rtype sim s w ho, ?_, ?_⟩
    · rw [hp]; simp
    · rw [hc]; simp

/-- Witness of C19: `slti $1,$0,-1` (word `0xE0FF`, immediate field 127) from
the initial state, where register 0 holds 0. -/
theorem slti_slt_semantics_witness :
    ∃ s1 s2, execProcessor (initState fun _ => 0) 0xE0FF = some s1 ∧
      execCache (CacheSim.one ⟨1, 1, [[-1]]⟩) (initState fun _ => 0) 0xE0FF
        = some (s2, CacheSim.one ⟨1, 1, [[-1]]⟩, []) ∧
      s1.registers 1 = 1 ∧ s2.registers 1 = 1 :=
  let ⟨s1, s2, h1, h2, _, _, h127⟩ :=
    (slti_slt_semantics (CacheSim.one ⟨1, 1, [[-1]]⟩) (initState fun _ => 0) 0xE0FF).1
      (by decide) (by decide)
  ⟨s1, s2, h1, h2, ((h127 (by decide)).2 (by decide) (by decide)).1,
    ((h127 (by decide)).2 (by decide) (by decide)).2⟩

/-! ## Load and store -/

/-- The sw branch of the no-cache engine with the address in range. -/
theorem swProcessor_eq (s : State) (w : Nat)
    (ha : (s.registers ((w >>> 10) &&& 7) + signExtender7B (w &&& 127)) % 65536 < 8192) :
    swProcessor s w = some (setPc (setMem s
      ((s.registers ((w >>> 10) &&& 7) + signExtender7B (w &&& 127)) % 65536)
      (s.registers ((w >>> 7) &&& 7))) ((s.pc + 1) % 65536)) := by
  unfold swProcessor
  simp only [imm_eq]
  rw [if_pos ha]

/-- The lw branch of the no-cache engine with `dst != 0` and the address in
range. -/
theorem lwProcessor_eq (s : State) (w : Nat) (hd : (w >>> 7) &&& 7 ≠ 0)
    (ha : (s.registers ((w >>> 10) &&& 7) + signExtender7B (w &&& 127)) % 65536 < 8192) :
    lwProcessor s w = some (setPc (setReg s ((w >>> 7) &&& 7)
      (s.memory ((s.registers ((w >>> 10) &&& 7) + signExtender7B (w &&& 127)) % 65536)))
      ((s.pc + 1) % 65536)) := by
  unfold lwProcessor
  simp only [imm_eq]
  rw [if_pos hd, if_pos ha]

/-- The sw branch of the cache-enabled engine with the address in range and a
well-formed cache. -/
theorem swCached_eq (sim : CacheSim) (s : State) (w : Nat) (hwf : WFSim sim)
    (ha : (s.registers ((w >>> 10) &&& 7) + signExtender7B (w &&& 127)) % 65536 < 8192) :
    ∃ sim1 log, swCached sim s w = some (setPc (setMem s
      ((s.registers ((w >>> 10) &&& 7) + signExtender7B (w &&& 127)) % 65536)
      (s.registers ((w >>> 7) &&& 7))) ((s.pc + 1) % 65536), sim1, log) := by
  obtain ⟨sim1, log, hc⟩ := swCache_defined sim s.pc
    ((s.registers ((w >>> 10) &&& 7) + signExtender7B (w &&& 127)) % 65536) hwf
  refine ⟨sim1, log, ?_⟩
  unfold swCached
  simp only [imm_eq, setMem_pc]
  rw [if_pos ha, hc]

/-- The lw branch of the cache-enabled engine with `dst != 0`, the address in
range and a well-formed cache. -/
theorem lwCached_eq (sim : CacheSim) (s : State) (w : Nat) (hwf : WFSim sim)
    (hd : (w >>> 7) &&& 7 ≠ 0)
    (ha : (s.registers ((w >>> 10) &&& 7) + signExtender7B (w &&& 127)) % 65536 < 8192) :
    ∃ sim1 log, lwCached sim s w = some (setPc (setReg s ((w >>> 7) &&& 7)
      (s.memory ((s.registers ((w >>> 10) &&& 7) + signExtender7B (w &&& 127)) % 65536)))
      ((s.pc + 1) % 65536), sim1, log) := by
  obtain ⟨sim1, log, hc⟩ := lwCache_defined sim s.pc
    ((s.registers ((w >>> 10) &&& 7) + signExtender7B (w &&& 127)) % 65536) hwf
  refine ⟨sim1, log, ?_⟩
  unfold lwCached
  simp only [imm_eq]
  rw [if_pos hd, if_pos ha]
  simp only [setReg_pc, hc]

/-- C20: let `a = (registers[srcA] + sext(imm)) mod 2^16` and assume
`a < 8192`.  In both engines (the cache being well formed) a sw sets
`memory[a]` to `registers[srcB]` and leaves every other memory word and every
register unchanged; a lw with `dst != 0` sets `registers[dst]` to `memory[a]`
and leaves memory and every other register unchanged; both advance `pc` by 1
(mod 8192 in the no-cache engine). -/
theorem lw_sw_semantics (sim : CacheSim) (s : State) (w : Nat) (hwf : WFSim sim)
    (ha : (s.registers ((w >>> 10) &&& 7) + signExtender7B (w &&& 127)) % 65536 < 8192) :
    (w >>> 13 = 5 →
      ∃ s1 s2 sim1 log, execProcessor s w = some s1 ∧
        execCache sim s w = some (s2, sim1, log) ∧
        (∀ x, x = s1 ∨ x = s2 →
          x.memory ((s.registers ((w >>> 10) &&& 7) + signExtender7B (w &&& 127)) % 65536)
            = s.registers ((w >>> 7) &&& 7) ∧
          (∀ y, y ≠ (s.registers ((w >>> 10) &&& 7) + signExtender7B (w &&& 127)) % 65536 →
            x.memory y = s.memory y) ∧
          x.registers = s.registers ∧ x.halt = s.halt) ∧
        s1.pc = (s.pc + 1) % 8192 ∧ (s.pc + 1 < 8192 → s1.pc = s.pc + 1) ∧
        (s.pc < 8192 → s2.pc = s.pc + 1)) ∧
    (w >>> 13 = 4 → (w >>> 7) &&& 7 ≠ 0 →
      ∃ s1 s2 sim1 log, execProcessor s w = some s1 ∧
        execCache sim s w = some (s2, sim1, log) ∧
        (∀ x, x = s1 ∨ x = s2 →
          x.registers ((w >>> 7) &&& 7)
            = s.memory ((s.registers ((w >>> 10) &&& 7) + signExtender7B (w &&& 127)) % 65536) ∧
          (∀ r, r ≠ (w >>> 7) &&& 7 → x.registers r = s.registers r) ∧
          x.memory = s.memory ∧ x.halt = s.halt) ∧
        s1.pc = (s.pc + 1) % 8192 ∧ (s.pc + 1 < 8192 → s1.pc = s.pc + 1) ∧
        (s.pc < 8192 → s2.pc = s.pc + 1)) := by
  constructor
  · intro ho
    obtain ⟨sim1, log, hc⟩ := swCached_eq sim s w hwf ha
    have hp : execProcessor s w = some (setPc (setMem s
        ((s.registers ((w >>> 10) &&& 7) + signExtender7B (w &&& 127)) % 65536)
        (s.registers ((w >>> 7) &&& 7))) ((s.pc + 1) % 65536 % 8192)) := by
      rw [execProcessor_sw s w ho, swProcessor_eq s w ha]; rfl
    rw [← execCache_sw sim s w ho] at hc
    refine ⟨_, _, sim1, log, hp, hc, ?_, ?_, ?_, ?_⟩
    · intro x hx
      rcases hx with rfl | rfl
      · refine ⟨by simp, ?_, rfl, rfl⟩
        intro y hy
        simp [hy]
      · refine ⟨by simp, ?_, rfl, rfl⟩
        intro y hy
        simp [hy]
    · simp only [setPc_pc]; omega
    · intro h; simp only [setPc_pc]; omega
    · intro h; simp only [setPc_pc]; omega
  · intro ho hd
    obtain ⟨sim1, log, hc⟩ := lwCached_eq sim s w hwf hd ha
    have hp : execProcessor s w = some (setPc (setReg s ((w >>> 7) &&& 7)
        (s.memory ((s.registers ((w >>> 10) &&& 7) + signExtender7B (w &&& 127)) % 65536)))
        ((s.pc + 1) % 65536 % 8192)) := by
      rw [execProcessor_lw s w ho, lwProcessor_eq s w hd ha]; rfl
    rw [← execCache_lw sim s w ho] at hc
    refine ⟨_, _, sim1, log, hp, hc, ?_, ?_, ?_, ?_⟩
    · intro x hx
      rcases hx with rfl | rfl
      · refine ⟨by simp, ?_, rfl, rfl⟩
        intro r hr
        simp [hr]
      · refine ⟨by simp, ?_, rfl, rfl⟩
        intro r hr
        simp [hr]
    · simp only [setPc_pc]; omega
    · intro h; simp only [setPc_pc]; omega
    · intro h; simp only [setPc_pc]; omega

/-- Witness of C20: `sw $1,3($0)` (word `0xA083`) with register 1 holding 7,
from `pc = 0`, with a one-row, one-way cache. -/
theorem lw_sw_semantics_witness :
    WFSim (CacheSim.one ⟨1, 1, [[-1]]⟩) ∧
    ((setReg (initState fun _ => 0) 1 7).registers ((0xA083 >>> 10) &&& 7)
      + signExtender7B (0xA083 &&& 127)) % 65536 < 8192 ∧
    execProcessor (setReg (initState fun _ => 0) 1 7) 0xA083
      = some (setPc (setMem (setReg (initState fun _ => 0) 1 7) 3 7) 1) ∧
    (∃ s1 s2 sim1 log, execProcessor (setReg (initState fun _ => 0) 1 7) 0xA083 = some s1 ∧
      execCache (CacheSim.one ⟨1, 1, [[-1]]⟩) (setReg (initState fun _ => 0) 1 7) 0xA083
        = some (s2, sim1, log) ∧
      s1.pc = 1 ∧ s2.pc = 1) :=
  ⟨by decide, by decide, rfl,
    let ⟨s1, s2, sim1, log, h1, h2, _, _, hp1, hp2⟩ :=
      (lw_sw_semantics (CacheSim.one ⟨1, 1, [[-1]]⟩) (setReg (initState fun _ => 0) 1 7)
        0xA083 (by decide) (by decide)).1 (by decide)
    ⟨s1, s2, sim1, log, h1, h2, hp1 (by decide), hp2 (by decide)⟩⟩

/-! ## The program counter of the no-cache engine -/

/-- C23: the `pc` after one step of the no-cache engine is below 8192, for
every state and instruction word; so in every state the engine reaches, the
fetch `memory[pc]` is inside the 8192 words of memory. -/
theorem processor_pc_bound :
    (∀ (s s1 : State) (w : Nat), execProcessor s w = some s1 → s1.pc < 8192) ∧
    (∀ (mem : Nat → Nat) (s : State), ReachableProcessor mem s →
      s.pc < 8192 ∧ stepProcessor s = execProcessor s (s.memory s.pc)) := by
  have hstep : ∀ (s s1 : State) (w : Nat), execProcessor s w = some s1 → s1.pc < 8192 := by
    intro s s1 w h
    obtain ⟨b, rfl, -⟩ := execProcessor_inv s s1 w h
    exact Nat.mod_lt _ (by decide)
  refine ⟨hstep, ?_⟩
  intro mem s hr
  have hpc : s.pc < 8192 := by
    induction hr with
    | init => show (0 : Nat) < 8192; decide
    | step s s1 _ _ hs _ =>
      unfold stepProcessor at hs
      split_ifs at hs
      exact hstep s s1 _ hs
  exact ⟨hpc, by unfold stepProcessor; rw [if_pos hpc]⟩

/-- Witness of C23: `jr $1` (word `0x0408`) with register 1 holding `0xFFFF`,
where the new `pc` is `0xFFFF mod 8192 = 8191`. -/
theorem processor_pc_bound_witness :
    execProcessor (setReg (initState fun _ => 0) 1 0xFFFF) 0x0408
      = some (setPc (setReg (initState fun _ => 0) 1 0xFFFF) 8191) ∧
    (setPc (setReg (initState fun _ => 0) 1 0xFFFF) 8191).pc < 8192 ∧
    ((initState fun _ => 0).pc < 8192 ∧
      stepProcessor (initState fun _ => 0)
        = execProcessor (initState fun _ => 0)
            ((initState fun _ => 0).memory (initState fun _ => 0).pc)) :=
  ⟨rfl, processor_pc_bound.1 (setReg (initState fun _ => 0) 1 0xFFFF) _ 0x0408 rfl,
    processor_pc_bound.2 (fun _ => 0) _ ReachableProcessor.init⟩

/-! ## Address decomposition -/

/-- The decomposition for a positive block size and row count, in floor
division and remainder. -/
theorem decompose_eq (address : Nat) (B R : Int) (hB : 0 < B) (hR : 0 < R) :
    decompose address B R = some (((address : Int) / B) % R, ((address : Int) / B) / R) := by
  have hb : Int.tdiv (address : Int) B = (address : Int) / B :=
    Int.tdiv_eq_ediv (Int.ofNat_nonneg _) (le_of_lt hB)
  have hnn : 0 ≤ (address : Int) / B := Int.ediv_nonneg (Int.ofNat_nonneg _) (le_of_lt hB)
  unfold decompose
  rw [if_neg (ne_of_gt hB), if_neg (ne_of_gt hR)]
  simp only [hb, Int.tmod_eq_emod hnn (le_of_lt hR), Int.tdiv_eq_ediv hnn (le_of_lt hR)]

/-- C25: for block size `B >= 1` and row count `R >= 1`, the pairs
`(index, tag)` computed for two addresses are equal if and only if the
addresses lie in the same block (`x / B = y / B`); moreover
`blockId = tag * R + index`, `0 <= index < R` and `tag >= 0`, so a tag is never
the unused sentinel `-1`. -/
theorem decompose_identifies_blocks (B R : Int) (x y : Nat) (hB : 1 ≤ B) (hR : 1 ≤ R) :
    ∃ ix tx iy ty, decompose x B R = some (ix, tx) ∧ decompose y B R = some (iy, ty) ∧
      (((ix, tx) = (iy, ty)) ↔ (x : Int) / B = (y : Int) / B) ∧
      Int.tdiv (x : Int) B = (x : Int) / B ∧
      (x : Int) / B = tx * R + ix ∧ 0 ≤ ix ∧ ix < R ∧ 0 ≤ tx ∧ tx ≠ -1 := by
  have hB0 : 0 < B := by omega
  have hR0 : 0 < R := by omega
  have hnx : 0 ≤ (x : Int) / B := Int.ediv_nonneg (Int.ofNat_nonneg _) (le_of_lt hB0)
  have htx : 0 ≤ (x : Int) / B / R := Int.ediv_nonneg hnx (le_of_lt hR0)
  refine ⟨_, _, _, _, decompose_eq x B R hB0 hR0, decompose_eq y B R hB0 hR0, ?_,
    Int.tdiv_eq_ediv (Int.ofNat_nonneg _) (le_of_lt hB0), ?_,
    Int.emod_nonneg _ (ne_of_gt hR0), Int.emod_lt_of_pos _ hR0, htx, by omega⟩
  · constructor
    · intro h
      simp only [Prod.mk.injEq] at h
      have ex := Int.emod_add_ediv ((x : Int) / B) R
      have ey := Int.emod_add_ediv ((y : Int) / B) R
      rw [h.1, h.2] at ex
      exact ex.symm.trans ey
    · intro h
      rw [h]
  · have ex := Int.emod_add_ediv ((x : Int) / B) R
    rw [mul_comm] at ex
    omega

/-- Witness of C25: block size 4, 8 rows, the addresses 100 and 103 of the
same block. -/
theorem decompose_identifies_blocks_witness :
    ∃ ix tx iy ty, decompose 100 4 8 = some (ix, tx) ∧ decompose 103 4 8 = some (iy, ty) ∧
      (((ix, tx) = (iy, ty)) ↔ ((100 : Nat) : Int) / 4 = ((103 : Nat) : Int) / 4) ∧
      Int.tdiv ((100 : Nat) : Int) 4 = ((100 : Nat) : Int) / 4 ∧
      ((100 : Nat) : Int) / 4 = tx * 8 + ix ∧ 0 ≤ ix ∧ ix < 8 ∧ 0 ≤ tx ∧ tx ≠ -1 :=
  decompose_identifies_blocks 4 8 100 103 (by decide) (by decide)

/-! ## Miss with free capacity -/

/-- An ordered row that holds an unused slot starts with unused slots: it is
`k + 1` of them followed by valid tags. -/
theorem ordered_free_split (row : List Int) (hord : Ordered row) (hfree : (-1 : Int) ∈ row) :
    ∃ k tags, row = List.replicate k (-1) ++ (-1) :: tags ∧ ∀ x ∈ tags, x ≠ -1 := by
  obtain ⟨k, tags, hrow, htags⟩ := ordered_split hord
  cases k with
  | zero =>
    rw [hrow] at hfree
    exact absurd rfl (htags (-1) (by simpa using hfree))
  | succ k =>
    refine ⟨k, tags, ?_, htags⟩
    rw [hrow, List.replicate_succ', List.append_assoc]
    rfl

/-- In such a row the scan from the back finds the last unused slot, which is
slot `k`. -/
theorem found_slot_eq (k : Nat) (tags : List Int) (htags : ∀ x ∈ tags, x ≠ -1) (i : Nat)
    (hi : i < (List.replicate k (-1) ++ (-1) :: tags).length)
    (hslot : (List.replicate k (-1) ++ (-1) :: tags).getD i 0 = -1)
    (hlast : ∀ j, j < (List.replicate k (-1) ++ (-1) :: tags).length → i < j →
      (List.replicate k (-1) ++ (-1) :: tags).getD j 0 ≠ -1) : i = k := by
  have hlen : (List.replicate k (-1 : Int)).length = k := List.length_replicate _ _
  have h1 : i ≤ k := by
    by_contra hgt
    have hm := getD_mem_suffix (List.replicate k (-1)) tags (-1) i (by rw [hlen]; omega)
      (by rw [hlen]; simp at hi; omega)
    rw [hslot] at hm
    exact htags (-1) hm rfl
  have h2 : k ≤ i := by
    by_contra hlt
    have hk := getD_split (List.replicate k (-1)) tags (-1)
    rw [hlen] at hk
    exact hlast k (by simp) (by omega) hk
  omega

/-- C21: on a set that satisfies the ordering invariant, holds at least one
unused slot and does not hold the tag `t`, the single-cache load of `t` is a
miss that leaves the same valid tags in the same order followed by `t`, with
exactly one unused slot fewer: the shift of the whole row drops the front
entry, which is an unused slot, and the result is the one obtained by moving
forward only the entries between the found empty slot and the end. -/
theorem miss_with_free_capacity (row : List Int) (t : Int) (hord : Ordered row)
    (hfree : (-1 : Int) ∈ row) (hnot : t ∉ row) :
    (lwOneRow t row).2 = false ∧
    (lwOneRow t row).1 = row.tail ++ [t] ∧
    row.head? = some (-1) ∧
    (lwOneRow t row).1.filter (fun x => decide (x ≠ -1))
      = row.filter (fun x => decide (x ≠ -1)) ++ [t] ∧
    (lwOneRow t row).1.count (-1) + 1 = row.count (-1) ∧
    (lwOneRow t row).1.length = row.length ∧
    (∀ i, i < row.length → row.getD i 0 = -1 →
      (∀ j, j < row.length → i < j → row.getD j 0 ≠ -1) →
      (lwOneRow t row).1 = specFreeInsert row i t) := by
  have htag : t ≠ -1 := fun e => hnot (e ▸ hfree)
  have hne : row ≠ [] := List.ne_nil_of_mem hfree
  have hrun : lwOneRow t row = (row.tail ++ [t], false) := by
    rcases lwOneRow_cases t row hne hord htag with ⟨hm, _⟩ | ⟨_, hs⟩
    · exact absurd hm hnot
    · exact hs
  obtain ⟨k, tags, hrow, htags⟩ := ordered_free_split row hord hfree
  have hhead : row.head? = some (-1) := by
    rw [hrow]
    cases k <;> rfl
  obtain ⟨rest, hrest⟩ : ∃ rest, row = (-1) :: rest := by
    cases row with
    | nil => exact absurd rfl hne
    | cons a rest =>
      simp only [List.head?_cons, Option.some.injEq] at hhead
      exact ⟨rest, by rw [hhead]⟩
  refine ⟨by rw [hrun], by rw [hrun], hhead, ?_, ?_, ?_, ?_⟩
  · rw [hrun, hrest]
    simp [htag]
  · rw [hrun, hrest]
    simp [List.count_singleton, htag]
  · rw [hrun, hrest]
    simp
  · intro i hi hslot hlast
    rw [hrow] at hi hslot hlast
    have hik := found_slot_eq k tags htags i hi hslot hlast
    subst hik
    rw [hrun]
    unfold specFreeInsert
    have hlen : (List.replicate i (-1 : Int)).length = i := List.length_replicate _ _
    have e2 : List.replicate i (-1) ++ (-1 : Int) :: tags
        = (List.replicate i (-1) ++ [-1]) ++ tags := by simp
    have htake : row.take i = List.replicate i (-1) := by
      rw [hrow]; exact List.take_left' hlen
    have hdrop : row.drop (i + 1) = tags := by
      rw [hrow, e2]; exact List.drop_left' (by simp)
    have htail : row.tail = List.replicate i (-1) ++ tags := by
      rw [hrow]
      cases i with
      | zero => rfl
      | succ j =>
        rw [List.replicate_succ, List.cons_append, List.tail_cons,
          ← List.replicate_succ, List.replicate_succ', List.append_assoc]
        rfl
    rw [htake, hdrop, htail]

/-- Witness of C21: the set `[-1, -1, 3, 5]` and the tag 7. -/
theorem miss_with_free_capacity_witness :
    (lwOneRow 7 [-1, -1, 3, 5]).2 = false ∧
    (lwOneRow 7 [-1, -1, 3, 5]).1 = [(-1 : Int), -1, 3, 5].tail ++ [7] ∧
    [(-1 : Int), -1, 3, 5].head? = some (-1) ∧
    (lwOneRow 7 [-1, -1, 3, 5]).1.filter (fun x => decide (x ≠ -1))
      = [(-1 : Int), -1, 3, 5].filter (fun x => decide (x ≠ -1)) ++ [7] ∧
    (lwOneRow 7 [-1, -1, 3, 5]).1.count (-1) + 1 = [(-1 : Int), -1, 3, 5].count (-1) ∧
    (lwOneRow 7 [-1, -1, 3, 5]).1.length = [(-1 : Int), -1, 3, 5].length ∧
    (∀ i, i < [(-1 : Int), -1, 3, 5].length → [(-1 : Int), -1, 3, 5].getD i 0 = -1 →
      (∀ j, j < [(-1 : Int), -1, 3, 5].length → i < j → [(-1 : Int), -1, 3, 5].getD j 0 ≠ -1) →
      (lwOneRow 7 [-1, -1, 3, 5]).1 = specFreeInsert [-1, -1, 3, 5] i 7) :=
  miss_with_free_capacity [-1, -1, 3, 5] 7 (by decide) (by decide) (by decide)

/-! ## The program counter of the cache-enabled engine -/

/-- The register jump of the no-cache engine. -/
theorem rtypeProcessor_jr (s : State) (w : Nat) (hf : w &&& 15 = 8) :
    rtypeProcessor s w = setPc s (s.registers ((w >>> 10) &&& 7)) := by
  simp [rtypeProcessor, hf]

/-- The register jump of the cache-enabled engine. -/
theorem rtypeCache_jr (s : State) (w : Nat) (hf : w &&& 15 = 8) :
    rtypeCache s w = setPc s (s.registers ((w >>> 10) &&& 7)) := by
  simp [rtypeCache, hf]
  rfl

/-- Every R-type word other than jr advances `pc` in the cache-enabled
engine. -/
theorem rtypeCache_pc (s : State) (w : Nat) (hf : w &&& 15 ≠ 8) :
    (rtypeCache s w).pc = (s.pc + 1) % 65536 := by
  unfold rtypeCache
  lift_lets
  extract_lets srcA srcB dst s1 s2
  have hs1 : s1.pc = s.pc := by
    simp only [s1]
    generalize w &&& 15 = func
    clear_value dst srcA srcB
    clear s2 s1
    repeat' split
    all_goals rfl
  rw [if_neg hf]
  simp only [s2, setPc_pc, hs1]

theorem execSlti_pc (s : State) (w : Nat) : (execSlti s w).pc = (s.pc + 1) % 65536 := by
  unfold execSlti
  simp only []
  split <;> rfl

theorem execAddi_pc (s : State) (w : Nat) : (execAddi s w).pc = (s.pc + 1) % 65536 := by
  unfold execAddi
  simp only []
  split <;> rfl

theorem lwCached_pc (sim sim1 : CacheSim) (s s1 : State) (w : Nat) (log : List LogEntry)
    (h : lwCached sim s w = some (s1, sim1, log)) : s1.pc = (s.pc + 1) % 65536 := by
  unfold lwCached at h
  simp only [] at h
  split at h
  · exact absurd h (by simp)
  · rename_i s2 hs2
    split at h
    · exact absurd h (by simp)
    · simp only [Option.some.injEq, Prod.mk.injEq] at h
      rw [← h.1]
      split_ifs at hs2 <;> injection hs2 with hs2 <;> subst hs2 <;> rfl

theorem swCached_pc (sim sim1 : CacheSim) (s s1 : State) (w : Nat) (log : List LogEntry)
    (h : swCached sim s w = some (s1, sim1, log)) : s1.pc = (s.pc + 1) % 65536 := by
  unfold swCached at h
  simp only [] at h
  split_ifs at h with h1
  split at h
  · exact absurd h (by simp)
  · simp only [Option.some.injEq, Prod.mk.injEq] at h
    rw [← h.1]
    rfl

/-- The loop of the cache-enabled engine takes no step from a `pc` outside
memory. -/
theorem runCache_out_of_range (n : Nat) (sim : CacheSim) (s : State) (h : 8192 ≤ s.pc) :
    runCache n sim s = some (s, sim, []) := by
  cases n with
  | zero => rfl
  | succ n =>
    unfold runCache
    rw [if_neg (fun hc => absurd hc.2 (by omega))]

/-- C22, as amended: from a state with `pc < 8192`, one step of the
cache-enabled engine sets `pc` to a 13-bit value on j and jal, to
`registers[srcA]` unreduced on jr, to `(pc + sext(imm) + 1) mod 2^16` on a
taken jeq, and to `pc + 1` on every other instruction, which is below 8192
unless `pc = 8191`; and from a `pc` of 8192 or more the loop takes no further
step, for every state and cache. -/
theorem cache_pc_after_step (sim sim1 : CacheSim) (s s1 : State) (w : Nat)
    (log : List LogEntry) (hpc : s.pc < 8192)
    (h : execCache sim s w = some (s1, sim1, log)) :
    (w >>> 13 = 2 ∨ w >>> 13 = 3 → s1.pc < 8192) ∧
    (w >>> 13 = 0 → w &&& 15 = 8 → s1.pc = s.registers ((w >>> 10) &&& 7)) ∧
    (w >>> 13 = 6 → s.registers ((w >>> 10) &&& 7) = s.registers ((w >>> 7) &&& 7) →
      s1.pc = (s.pc + signExtender7B (w &&& 127) + 1) % 65536) ∧
    ((w >>> 13 = 0 ∧ w &&& 15 ≠ 8) ∨ w >>> 13 = 1 ∨ w >>> 13 = 4 ∨ w >>> 13 = 5 ∨
        w >>> 13 = 7 ∨
        (w >>> 13 = 6 ∧ s.registers ((w >>> 10) &&& 7) ≠ s.registers ((w >>> 7) &&& 7)) →
      s1.pc = s.pc + 1 ∧ (s.pc < 8191 → s1.pc < 8192)) ∧
    (∀ (n : Nat) (sim2 : CacheSim) (s2 : State), 8192 ≤ s2.pc →
      runCache n sim2 s2 = some (s2, sim2, [])) := by
  have hadv : (s.pc + 1) % 65536 = s.pc + 1 := Nat.mod_eq_of_lt (by omega)
  refine ⟨?_, ?_, ?_, ?_, fun n sim2 s2 h2 => runCache_out_of_range n sim2 s2 h2⟩
  · intro ho
    rcases ho with ho | ho
    · rw [show execCache sim s w = some (execJ s w, sim, []) by simp [execCache, ho]] at h
      simp only [Option.some.injEq, Prod.mk.injEq] at h
      rw [← h.1]
      unfold execJ
      simp only []
      split
      · exact hpc
      · exact and_8191_lt w
    · rw [execCache_jal sim s w ho] at h
      simp only [Option.some.injEq, Prod.mk.injEq] at h
      rw [← h.1]
      exact and_8191_lt w
  · intro ho hf
    rw [execCache_rtype sim s w ho] at h
    simp only [Option.some.injEq, Prod.mk.injEq] at h
    rw [← h.1, rtypeCache_jr s w hf]
    rfl
  · intro ho heq
    rw [execCache_jeq sim s w ho] at h
    simp only [Option.some.injEq, Prod.mk.injEq] at h
    rw [← h.1, execJeq_eq, setPc_pc, if_pos heq]
    omega
  · intro ho
    have key : s1.pc = (s.pc + 1) % 65536 := by
      rcases ho with ⟨ho, hf⟩ | ho | ho | ho | ho | ⟨ho, hne⟩
      · rw [execCache_rtype sim s w ho] at h
        simp only [Option.some.injEq, Prod.mk.injEq] at h
        rw [← h.1]
        exact rtypeCache_pc s w hf
      · rw [execCache_addi sim s w ho] at h
        simp only [Option.some.injEq, Prod.mk.injEq] at h
        rw [← h.1]
        exact execAddi_pc s w
      · rw [execCache_lw sim s w ho] at h
        exact lwCached_pc sim sim1 s s1 w log h
      · rw [execCache_sw sim s w ho] at h
        exact swCached_pc sim sim1 s s1 w log h
      · rw [execCache_slti sim s w ho] at h
        simp only [Option.some.injEq, Prod.mk.injEq] at h
        rw [← h.1]
        exact execSlti_pc s w
      · rw [execCache_jeq sim s w ho] at h
        simp only [Option.some.injEq, Prod.mk.injEq] at h
        rw [← h.1, execJeq_eq, setPc_pc, if_neg hne]
    rw [key, hadv]
    exact ⟨rfl, fun h1 => by omega⟩

/-- Witness of C22 as amended: `jal 5` (word `0x6005`) fetched at `pc = 0`. -/
theorem cache_pc_after_step_witness :
    (initState fun _ => 0).pc < 8192 ∧
    execCache (CacheSim.one ⟨1, 1, [[-1]]⟩) (initState fun _ => 0) 0x6005
      = some (setPc (setReg (initState fun _ => 0) 7 1) 5, CacheSim.one ⟨1, 1, [[-1]]⟩, []) ∧
    (0x6005 >>> 13 = 2 ∨ 0x6005 >>> 13 = 3 →
      (setPc (setReg (initState fun _ => 0) 7 1) 5).pc < 8192) :=
  ⟨by decide, rfl,
    (cache_pc_after_step (CacheSim.one ⟨1, 1, [[-1]]⟩) (CacheSim.one ⟨1, 1, [[-1]]⟩)
      (initState fun _ => 0) (setPc (setReg (initState fun _ => 0) 7 1) 5) 0x6005 []
      (by decide) rfl).1⟩

/-- C22, as stated, fails: at `pc = 8191` the word `0x2085` (`addi $1,$0,5`)
leaves `pc = 8192`; with register 1 holding `0xFFFF` the word `0x0408`
(`jr $1`) leaves `pc = 65535`; and the program `addi $1,$0,-1; jr $1` run from
the initial state stops the loop at `pc = 65535` with the halt flag clear. -/
theorem cache_pc_leaves_memory_counterexample :
    (setPc (initState fun _ => 0) 8191).pc < 8192 ∧
    execCache (CacheSim.one ⟨1, 1, [[-1]]⟩) (setPc (initState fun _ => 0) 8191) 0x2085
      = some (setPc (setReg (initState fun _ => 0) 1 5) 8192,
          CacheSim.one ⟨1, 1, [[-1]]⟩, []) ∧
    ¬ ((setPc (setReg (initState fun _ => 0) 1 5) 8192).pc < 8192) ∧
    (setReg (initState fun _ => 0) 1 0xFFFF).pc < 8192 ∧
    execCache (CacheSim.one ⟨1, 1, [[-1]]⟩) (setReg (initState fun _ => 0) 1 0xFFFF) 0x0408
      = some (setPc (setReg (initState fun _ => 0) 1 0xFFFF) 65535,
          CacheSim.one ⟨1, 1, [[-1]]⟩, []) ∧
    ¬ ((setPc (setReg (initState fun _ => 0) 1 0xFFFF) 65535).pc < 8192) ∧
    runCache 3 (CacheSim.one ⟨1, 1, [[-1]]⟩)
        (initState fun a => if a = 0 then 0x20FF else if a = 1 then 0x0408 else 0)
      = some (setPc (setReg
            (initState fun a => if a = 0 then 0x20FF else if a = 1 then 0x0408 else 0)
            1 65535) 65535,
          CacheSim.one ⟨1, 1, [[-1]]⟩, []) ∧
    (setPc (setReg (initState fun a => if a = 0 then 0x20FF else if a = 1 then 0x0408 else 0)
      1 65535) 65535).halt = false := by
  refine ⟨by decide, rfl, by decide, by decide, rfl, by decide, rfl, rfl⟩

/-! ## Cache geometry -/

/-- C24, as stated, fails: the configuration `1,2,1` has positive size,
associativity and block size, its row count is `1 / (2 * 1) = 0`, the cache
is built with no row, and the lookup of any address then takes a remainder
modulo 0: the decomposition is undefined, and so are the load and the
store. -/
theorem geometry_zero_rows_counterexample :
    (0 : Int) < 1 ∧ (0 : Int) < 2 ∧
    rowCount 1 2 1 = some 0 ∧
    initOne 1 2 1 = some ⟨1, 0, []⟩ ∧
    decompose 5 1 0 = none ∧
    lwOne ⟨1, 0, []⟩ 0 5 = none ∧
    swOne ⟨1, 0, []⟩ 0 5 = none ∧
    execCache (CacheSim.one ⟨1, 0, []⟩) (initState fun _ => 0) 0x8085 = none ∧
    ¬ (∃ index : Int, 0 ≤ index ∧ index < 0) := by
  refine ⟨by decide, by decide, rfl, rfl, rfl, rfl, rfl, rfl, ?_⟩
  rintro ⟨index, h0, h1⟩
  omega

/-- The row count of a configuration whose one set fits into the cache. -/
theorem rowCount_of_fit (size assoc blocksize : Int) (hA : 0 < assoc) (hB : 0 < blocksize)
    (hfit : assoc * blocksize ≤ size) (hmax : size ≤ 2147483647) :
    rowCount size assoc blocksize = some (size / (assoc * blocksize)) ∧
      1 ≤ size / (assoc * blocksize) := by
  have hAB : 0 < assoc * blocksize := Int.mul_pos hA hB
  have hsize : 0 ≤ size := le_trans (le_of_lt hAB) hfit
  constructor
  · unfold rowCount
    rw [if_neg (by omega), if_neg (by omega), if_neg (by omega),
      Int.tdiv_eq_ediv hsize (le_of_lt hAB)]
  · exact Int.le_ediv_of_mul_le hAB (by rw [one_mul]; exact hfit)

/-- C24, as amended: for every configuration with positive associativity `A`
and block size `B` and a size of at least `A * B` within the range of `int`
(whether or not it is divisible by `A * B`), the row count is `R = floor(size / (A * B)) >= 1`, with
`R * A * B = size` when divisible, the cache is built with `R` rows of `A`
unused slots and is well formed, and for every address the lookup is defined and selects the
row `index = (addr / B) mod R` with `0 <= index < R`. -/
theorem geometry_usable (size assoc blocksize : Int) (hA : 0 < assoc) (hB : 0 < blocksize)
    (hfit : assoc * blocksize ≤ size) (hmax : size ≤ 2147483647) :
    ∃ c0, initOne size assoc blocksize = some c0 ∧
      c0.c1L1blocksize = blocksize ∧
      c0.c1L1rows = size / (assoc * blocksize) ∧ 1 ≤ c0.c1L1rows ∧
      (assoc * blocksize ∣ size → c0.c1L1rows * assoc * blocksize = size) ∧
      c0.cache = List.replicate c0.c1L1rows.toNat (List.replicate assoc.toNat (-1)) ∧
      WFCache c0.c1L1blocksize c0.c1L1rows c0.cache ∧
      ∀ (c : OneCache), c.c1L1blocksize = blocksize → c.c1L1rows = c0.c1L1rows →
        WFCache c.c1L1blocksize c.c1L1rows c.cache →
        ∀ (pc address : Nat), ∃ index tag c1 c2,
          decompose address blocksize c0.c1L1rows = some (index, tag) ∧
          index = ((address : Int) / blocksize) % c0.c1L1rows ∧
          0 ≤ index ∧ index < c0.c1L1rows ∧
          lwOne c pc address = some (c1,
            [print_log_entry CacheName.L1
              (if (lwOneRow tag (c.cache.getD index.toNat [])).2 then Status.HIT
               else Status.MISS) pc address index]) ∧
          swOne c pc address = some (c2,
            [print_log_entry CacheName.L1 Status.SW pc address index]) := by
  obtain ⟨hrc, hrows⟩ := rowCount_of_fit size assoc blocksize hA hB hfit hmax
  have hbuild : buildCache (size / (assoc * blocksize)) assoc
      = some (List.replicate (size / (assoc * blocksize)).toNat
          (List.replicate assoc.toNat (-1))) := by
    unfold buildCache
    rw [if_neg (by omega)]
  refine ⟨⟨blocksize, size / (assoc * blocksize),
    List.replicate (size / (assoc * blocksize)).toNat (List.replicate assoc.toNat (-1))⟩,
    ?_, rfl, rfl, hrows, ?_, rfl, ?_, ?_⟩
  · unfold initOne
    simp only [hrc, hbuild]
  · intro hdvd
    show size / (assoc * blocksize) * assoc * blocksize = size
    rw [mul_assoc]
    exact Int.ediv_mul_cancel hdvd
  · refine ⟨hB, lt_of_lt_of_le Int.zero_lt_one hrows, List.length_replicate _ _, ?_⟩
    intro row hrow
    rw [List.eq_of_mem_replicate hrow]
    intro hnil
    have hlen := congrArg List.length hnil
    rw [List.length_replicate, List.length_nil] at hlen
    omega
  · intro c hcb hcr hwf pc address
    show ∃ index tag c1 c2,
      decompose address blocksize (size / (assoc * blocksize)) = some (index, tag) ∧
      index = ((address : Int) / blocksize) % (size / (assoc * blocksize)) ∧
      0 ≤ index ∧ index < size / (assoc * blocksize) ∧ _ ∧ _
    have hR : 0 < size / (assoc * blocksize) := by omega
    have hd := decompose_eq address blocksize (size / (assoc * blocksize)) hB hR
    have hi0 : 0 ≤ ((address : Int) / blocksize) % (size / (assoc * blocksize)) :=
      Int.emod_nonneg _ (ne_of_gt hR)
    have hi1 : ((address : Int) / blocksize) % (size / (assoc * blocksize))
        < size / (assoc * blocksize) := Int.emod_lt_of_pos _ hR
    have hcr2 : c.c1L1rows = size / (assoc * blocksize) := hcr
    obtain ⟨row, hrow, hne⟩ := row_of_wf _ _
      (((address : Int) / blocksize) % (size / (assoc * blocksize))) _ hwf hi0
      (by rw [hcr2]; exact hi1)
    have hgetD : c.cache.getD
        (((address : Int) / blocksize) % (size / (assoc * blocksize))).toNat [] = row := by
      rw [List.getD_eq_getElem?_getD, ← List.get?_eq_getElem?, hrow]
      rfl
    have hl : lwOne c pc address = some
        (⟨c.c1L1blocksize, c.c1L1rows, c.cache.set
            (((address : Int) / blocksize) % (size / (assoc * blocksize))).toNat
            (lwOneRow (((address : Int) / blocksize) / (size / (assoc * blocksize))) row).1⟩,
          [print_log_entry CacheName.L1
            (if (lwOneRow (((address : Int) / blocksize) / (size / (assoc * blocksize)))
                (c.cache.getD
                  (((address : Int) / blocksize) % (size / (assoc * blocksize))).toNat [])).2
              then Status.HIT else Status.MISS) pc address
            (((address : Int) / blocksize) % (size / (assoc * blocksize)))]) := by
      unfold lwOne
      rw [hcb, hcr2, hd]
      simp only [onRow_some _ _ _ row hi0 hrow hne, hgetD]
    have hs : swOne c pc address = some
        (⟨c.c1L1blocksize, c.c1L1rows, c.cache.set
            (((address : Int) / blocksize) % (size / (assoc * blocksize))).toNat
            (swOneRow (((address : Int) / blocksize) / (size / (assoc * blocksize))) row).1⟩,
          [print_log_entry CacheName.L1 Status.SW pc address
            (((address : Int) / blocksize) % (size / (assoc * blocksize)))]) := by
      unfold swOne
      rw [hcb, hcr2, hd]
      simp only [onRow_some _ _ _ row hi0 hrow hne]
    exact ⟨_, _, _, _, hd, rfl, hi0, hi1, hl, hs⟩

/-- Witness of C24 as amended: size 10, associativity 2, block size 2, which
is not divisible; 2 rows. -/
theorem geometry_usable_witness :
    initOne 10 2 2 = some ⟨2, 2, [[-1, -1], [-1, -1]]⟩ ∧
    ∃ c0, initOne 10 2 2 = some c0 ∧
      c0.c1L1blocksize = 2 ∧
      c0.c1L1rows = 10 / (2 * 2) ∧ 1 ≤ c0.c1L1rows ∧
      ((2 : Int) * 2 ∣ 10 → c0.c1L1rows * 2 * 2 = 10) ∧
      c0.cache = List.replicate c0.c1L1rows.toNat (List.replicate (2 : Int).toNat (-1)) ∧
      WFCache c0.c1L1blocksize c0.c1L1rows c0.cache ∧
      ∀ (c : OneCache), c.c1L1blocksize = 2 → c.c1L1rows = c0.c1L1rows →
        WFCache c.c1L1blocksize c.c1L1rows c.cache →
        ∀ (pc address : Nat), ∃ index tag c1 c2,
          decompose address 2 c0.c1L1rows = some (index, tag) ∧
          index = ((address : Int) / 2) % c0.c1L1rows ∧
          0 ≤ index ∧ index < c0.c1L1rows ∧
          lwOne c pc address = some (c1,
            [print_log_entry CacheName.L1
              (if (lwOneRow tag (c.cache.getD index.toNat [])).2 then Status.HIT
               else Status.MISS) pc address index]) ∧
          swOne c pc address = some (c2,
            [print_log_entry CacheName.L1 Status.SW pc address index]) :=
  ⟨rfl, geometry_usable 10 2 2 (by decide) (by decide) (by decide) (by decide)⟩

/-! ## Agreement of the two engines -/

theorem execProcessor_j (s : State) (w : Nat) (h : w >>> 13 = 2) :
    execProcessor s w = some (setPc (execJ s w) ((execJ s w).pc % 8192)) := by
  simp [execProcessor, h]

theorem execCache_j (sim : CacheSim) (s : State) (w : Nat) (h : w >>> 13 = 2) :
    execCache sim s w = some (execJ s w, sim, []) := by
  simp [execCache, h]

theorem execProcessor_other (s : State) (w : Nat) (h : 8 ≤ w >>> 13) :
    execProcessor s w = some (setPc s (s.pc % 8192)) := by
  have hne : ∀ k, k < 8 → ¬ (w >>> 13 = k) := fun k hk e => by omega
  simp only [execProcessor, hne 0 (by decide), hne 1 (by decide), hne 2 (by decide),
    hne 3 (by decide), hne 4 (by decide), hne 5 (by decide), hne 6 (by decide),
    hne 7 (by decide), if_false]

theorem execCache_other (sim : CacheSim) (s : State) (w : Nat) (h : 8 ≤ w >>> 13) :
    execCache sim s w = some (s, sim, []) := by
  have hne : ∀ k, k < 8 → ¬ (w >>> 13 = k) := fun k hk e => by omega
  simp only [execCache, hne 0 (by decide), hne 1 (by decide), hne 2 (by decide),
    hne 3 (by decide), hne 4 (by decide), hne 5 (by decide), hne 6 (by decide),
    hne 7 (by decide), if_false]

/-- The two R-type branches give the same state on a jump through a register
and on a write to a register other than `$0`. -/
theorem rtype_agree (s : State) (w : Nat)
    (h : w &&& 15 = 8 ∨ ((w >>> 4) &&& 7 ≠ 0 ∧ w &&& 15 ≤ 4)) :
    rtypeProcessor s w = rtypeCache s w := by
  rcases h with hf | ⟨hd, hf⟩
  · rw [rtypeProcessor_jr s w hf, rtypeCache_jr s w hf]
  · rw [rtypeProcessor_write s w hd hf, rtypeCache_write s w hd hf]

/-- A load whose address is inside memory, on a well-formed cache: both
engines are defined and give the same state before `pc %= 8192`. -/
theorem lw_agree (sim : CacheSim) (s : State) (w : Nat) (hwf : WFSim sim)
    (ha : (s.registers ((w >>> 10) &&& 7) + signExtender7B (w &&& 127)) % 65536 < 8192) :
    ∃ x sim1 log, lwProcessor s w = some x ∧ lwCached sim s w = some (x, sim1, log) := by
  by_cases hd : (w >>> 7) &&& 7 = 0
  · obtain ⟨sim1, log, hl⟩ := lwCache_defined sim s.pc
      ((s.registers ((w >>> 10) &&& 7) + signExtender7B (w &&& 127)) % 65536) hwf
    refine ⟨setPc s ((s.pc + 1) % 65536), sim1, log, ?_, ?_⟩
    · unfold lwProcessor
      simp only [hd, ne_eq, not_true_eq_false, if_false]
    · unfold lwCached
      simp only [hd, ne_eq, not_true_eq_false, if_false, imm_eq, hl]
  · obtain ⟨sim1, log, hl⟩ := lwCached_eq sim s w hwf hd ha
    exact ⟨_, sim1, log, lwProcessor_eq s w hd ha, hl⟩

/-- A store whose address is inside memory, on a well-formed cache. -/
theorem sw_agree (sim : CacheSim) (s : State) (w : Nat) (hwf : WFSim sim)
    (ha : (s.registers ((w >>> 10) &&& 7) + signExtender7B (w &&& 127)) % 65536 < 8192) :
    ∃ x sim1 log, swProcessor s w = some x ∧ swCached sim s w = some (x, sim1, log) := by
  obtain ⟨sim1, log, hl⟩ := swCached_eq sim s w hwf ha
  exact ⟨_, sim1, log, swProcessor_eq s w ha, hl⟩

/-- One step of both engines on a word on which both are defined, the cache
being well formed: the no-cache result is the cache-enabled result with `pc`
reduced modulo 8192. -/
theorem both_steps_wf (sim : CacheSim) (s : State) (w : Nat) (hwf : WFSim sim)
    (hex : ¬ (w >>> 13 = 0 ∧ w &&& 15 ≠ 8 ∧ ((w >>> 4) &&& 7 = 0 ∨ 4 < w &&& 15)))
    (haddr : (w >>> 13 = 4 ∨ w >>> 13 = 5) →
      (s.registers ((w >>> 10) &&& 7) + signExtender7B (w &&& 127)) % 65536 < 8192) :
    ∃ s2 sim1 log, execCache sim s w = some (s2, sim1, log) ∧
      execProcessor s w = some (setPc s2 (s2.pc % 8192)) := by
  by_cases h0 : w >>> 13 = 0
  · have hr : rtypeProcessor s w = rtypeCache s w := by
      apply rtype_agree
      by_cases hf : w &&& 15 = 8
      · exact Or.inl hf
      · right
        constructor
        · intro hd
          exact hex ⟨h0, hf, Or.inl hd⟩
        · by_contra hgt
          exact hex ⟨h0, hf, Or.inr (by omega)⟩
    exact ⟨_, _, _, execCache_rtype sim s w h0, by rw [execProcessor_rtype s w h0, hr]⟩
  by_cases h1 : w >>> 13 = 1
  · exact ⟨_, _, _, execCache_addi sim s w h1, execProcessor_addi s w h1⟩
  by_cases h2 : w >>> 13 = 2
  · exact ⟨_, _, _, execCache_j sim s w h2, execProcessor_j s w h2⟩
  by_cases h3 : w >>> 13 = 3
  · exact ⟨_, _, _, execCache_jal sim s w h3, execProcessor_jal s w h3⟩
  by_cases h4 : w >>> 13 = 4
  · obtain ⟨x, sim1, log, hp, hc⟩ := lw_agree sim s w hwf (haddr (Or.inl h4))
    refine ⟨x, sim1, log, by rw [execCache_lw sim s w h4, hc], ?_⟩
    rw [execProcessor_lw s w h4, hp]
    rfl
  by_cases h5 : w >>> 13 = 5
  · obtain ⟨x, sim1, log, hp, hc⟩ := sw_agree sim s w hwf (haddr (Or.inr h5))
    refine ⟨x, sim1, log, by rw [execCache_sw sim s w h5, hc], ?_⟩
    rw [execProcessor_sw s w h5, hp]
    rfl
  by_cases h6 : w >>> 13 = 6
  · exact ⟨_, _, _, execCache_jeq sim s w h6, execProcessor_jeq s w h6⟩
  by_cases h7 : w >>> 13 = 7
  · exact ⟨_, _, _, execCache_slti sim s w h7, execProcessor_slti s w h7⟩
  have h8 : 8 ≤ w >>> 13 := by omega
  exact ⟨_, _, _, execCache_other sim s w h8, execProcessor_other s w h8⟩

/-- Outside lw and sw the cache-enabled step does not consult the cache, so
it is defined on any cache. -/
theorem execCache_defined_of_not_access (sim : CacheSim) (s : State) (w : Nat)
    (h4 : w >>> 13 ≠ 4) (h5 : w >>> 13 ≠ 5) :
    ∃ s2 sim1 log, execCache sim s w = some (s2, sim1, log) := by
  by_cases h0 : w >>> 13 = 0
  · exact ⟨_, _, _, execCache_rtype sim s w h0⟩
  by_cases h1 : w >>> 13 = 1
  · exact ⟨_, _, _, execCache_addi sim s w h1⟩
  by_cases h2 : w >>> 13 = 2
  · exact ⟨_, _, _, execCache_j sim s w h2⟩
  by_cases h3 : w >>> 13 = 3
  · exact ⟨_, _, _, execCache_jal sim s w h3⟩
  by_cases h6 : w >>> 13 = 6
  · exact ⟨_, _, _, execCache_jeq sim s w h6⟩
  by_cases h7 : w >>> 13 = 7
  · exact ⟨_, _, _, execCache_slti sim s w h7⟩
  exact ⟨_, _, _, execCache_other sim s w (by omega)⟩

/-- C26: the two engines agree on defined instructions.  For every state with
`pc < 8192` and every fetched word other than an R-type word with
`func != 1000` and either `dst = 0` or `func` outside `0000..0100`, and with
any lw/sw effective address below 8192, the step of the no-cache engine is
defined; every result of the step of the cache-enabled engine has the same
registers, the same memory and the same halt flag, and the no-cache `pc` is
the cache-enabled `pc` modulo 8192; and the cache-enabled step is defined on
every cache when the word is not lw or sw, and on every well-formed cache
when it is. -/
theorem engines_agree (sim : CacheSim) (s : State) (w : Nat) (hpc : s.pc < 8192)
    (hw : s.memory s.pc = w)
    (hex : ¬ (w >>> 13 = 0 ∧ w &&& 15 ≠ 8 ∧ ((w >>> 4) &&& 7 = 0 ∨ 4 < w &&& 15)))
    (haddr : (w >>> 13 = 4 ∨ w >>> 13 = 5) →
      (s.registers ((w >>> 10) &&& 7) + signExtender7B (w &&& 127)) % 65536 < 8192) :
    ∃ s1, stepProcessor s = some s1 ∧
      (∀ s2 sim1 log, stepCache sim s = some (s2, sim1, log) →
        s1.registers = s2.registers ∧ s1.memory = s2.memory ∧ s1.halt = s2.halt ∧
          s1.pc = s2.pc % 8192) ∧
      (((w >>> 13 = 4 ∨ w >>> 13 = 5) → WFSim sim) →
        ∃ s2 sim1 log, stepCache sim s = some (s2, sim1, log)) := by
  have hstep : stepProcessor s = execProcessor s w := by
    unfold stepProcessor
    rw [if_pos hpc, hw]
  have hstepc : stepCache sim s = execCache sim s w := by
    unfold stepCache
    rw [hw]
  rw [hstep, hstepc]
  obtain ⟨s0, sim0, log0, hc0, hp0⟩ := both_steps_wf
    (CacheSim.one ⟨1, 1, [[-1]]⟩) s w (by decide) hex haddr
  refine ⟨_, hp0, ?_, ?_⟩
  · intro s2 sim1 log hc
    have hs : s0 = s2 := execCache_state _ _ _ _ _ _ _ _ _ _ hc0 hc
    subst hs
    exact ⟨rfl, rfl, rfl, rfl⟩
  · intro hwf
    by_cases ha : w >>> 13 = 4 ∨ w >>> 13 = 5
    · obtain ⟨s2, sim1, log, hc, _⟩ := both_steps_wf sim s w (hwf ha) hex haddr
      exact ⟨s2, sim1, log, hc⟩
    · exact execCache_defined_of_not_access sim s w (fun h => ha (Or.inl h))
        (fun h => ha (Or.inr h))

/-- Witness of C26: `lw $1, 5($0)` at `pc = 0`, on a cache of one row with one
slot; both engines load `memory[5]` into `$1` and move to `pc = 1`. -/
theorem engines_agree_witness :
    stepProcessor (initState fun a => if a = 0 then 0x8085 else 77)
      = some (setPc (setReg (initState fun a => if a = 0 then 0x8085 else 77) 1 77) 1) ∧
    (∃ sim1 log, stepCache (CacheSim.one ⟨1, 1, [[-1]]⟩)
        (initState fun a => if a = 0 then 0x8085 else 77)
      = some (setPc (setReg (initState fun a => if a = 0 then 0x8085 else 77) 1 77) 1,
          sim1, log)) ∧
    ∃ s1, stepProcessor (initState fun a => if a = 0 then 0x8085 else 77) = some s1 ∧
      (∀ s2 sim1 log, stepCache (CacheSim.one ⟨1, 1, [[-1]]⟩)
          (initState fun a => if a = 0 then 0x8085 else 77) = some (s2, sim1, log) →
        s1.registers = s2.registers ∧ s1.memory = s2.memory ∧ s1.halt = s2.halt ∧
          s1.pc = s2.pc % 8192) ∧
      (((0x8085 >>> 13 = 4 ∨ 0x8085 >>> 13 = 5) → WFSim (CacheSim.one ⟨1, 1, [[-1]]⟩)) →
        ∃ s2 sim1 log, stepCache (CacheSim.one ⟨1, 1, [[-1]]⟩)
          (initState fun a => if a = 0 then 0x8085 else 77) = some (s2, sim1, log)) :=
  ⟨rfl, ⟨_, _, rfl⟩,
    engines_agree (CacheSim.one ⟨1, 1, [[-1]]⟩)
      (initState fun a => if a = 0 then 0x8085 else 77) 0x8085 (by decide) rfl (by decide)
      (fun _ => by decide)⟩

/-! ## No duplicate tags under loads -/

theorem lwOneRow_nil (t : Int) : lwOneRow t [] = ([], false) := rfl

/-- The first entry of an ordered row with an unused slot is unused. -/
theorem ordered_head_free (a : Int) (l : List Int) (hord : Ordered (a :: l))
    (hfree : (-1 : Int) ∈ a :: l) : a = -1 := by
  rcases List.mem_cons.mp hfree with h | h
  · exact h.symm
  · exact (List.pairwise_cons.mp hord).1 (-1) h rfl

/-- The valid tags of a row after a single-cache load of a valid tag: on a hit
a permutation of those before, on a miss with an unused slot those before
followed by the tag, on a miss in a full row the row without its first entry
followed by the tag. -/
theorem lwOneRow_valid_tags (t : Int) (row : List Int) (hne : row ≠ []) (hord : Ordered row)
    (ht : t ≠ -1) :
    (t ∈ row ∧ ((lwOneRow t row).1.filter (fun x => decide (x ≠ -1))).Perm
        (row.filter (fun x => decide (x ≠ -1)))) ∨
    (t ∉ row ∧ (-1 : Int) ∈ row ∧
      (lwOneRow t row).1.filter (fun x => decide (x ≠ -1))
        = row.filter (fun x => decide (x ≠ -1)) ++ [t]) ∨
    (t ∉ row ∧ (-1 : Int) ∉ row ∧
      (lwOneRow t row).1.filter (fun x => decide (x ≠ -1)) = row.tail ++ [t] ∧
      row.filter (fun x => decide (x ≠ -1)) = row) := by
  rcases lwOneRow_cases t row hne hord ht with ⟨hm, pre, suf, hrow, _, _, hl⟩ | ⟨hm, hl⟩
  · left
    refine ⟨hm, ?_⟩
    rw [hl]
    conv_rhs => rw [hrow]
    simp only [List.filter_append, List.filter_cons, ht, ne_eq, not_false_eq_true,
      decide_True, if_true, List.filter_nil, List.append_assoc]
    exact (List.perm_append_left_iff _).mpr (List.perm_append_singleton t _)
  · right
    rw [hl]
    by_cases hfree : (-1 : Int) ∈ row
    · left
      refine ⟨hm, hfree, ?_⟩
      cases row with
      | nil => exact absurd rfl hne
      | cons a l =>
        have ha : a = -1 := ordered_head_free a l hord hfree
        subst ha
        simp [List.filter_append, List.filter_cons, ht]
    · right
      have hall : ∀ a ∈ row, decide (a ≠ -1) = true := fun a ha =>
        decide_eq_true (fun e => hfree (e ▸ ha))
      refine ⟨hm, hfree, ?_, List.filter_eq_self.mpr hall⟩
      apply List.filter_eq_self.mpr
      intro a ha
      rcases List.mem_append.mp ha with h | h
      · exact hall a (List.mem_of_mem_tail h)
      · rw [List.mem_singleton.mp h]
        exact decide_eq_true ht

/-- A single-cache load of the unused marker itself: the valid tags of the row
stay a sublist of those before. -/
theorem lwOneRow_marker_sublist (row : List Int) (hord : Ordered row) :
    ((lwOneRow (-1) row).1.filter (fun x => decide (x ≠ -1))).Sublist
      (row.filter (fun x => decide (x ≠ -1))) := by
  obtain ⟨k, tags, hrow, htags⟩ := ordered_split hord
  cases k with
  | zero =>
    have hrow2 : row = tags := by rw [hrow]; rfl
    have hsc := scanLoop_full (-1) row (fun y hy => ⟨htags y (hrow2 ▸ hy), htags y (hrow2 ▸ hy)⟩)
    have hl : lwOneRow (-1) row = (shiftInsert 1 (-1) row, false) := by
      unfold lwOneRow
      simp only [hsc]
      rfl
    rw [hl]
    cases row with
    | nil => exact List.Sublist.refl _
    | cons a l =>
      rw [shiftInsert_one]
      have h1 : (l ++ [(-1 : Int)]).filter (fun x => decide (x ≠ -1))
          = l.filter (fun x => decide (x ≠ -1)) := by
        simp [List.filter_append]
      rw [h1]
      exact List.Sublist.filter _ (List.sublist_cons_self a l)
  | succ k =>
    have hrow2 : row = List.replicate k (-1) ++ (-1) :: tags := by
      rw [hrow, List.replicate_succ', List.append_assoc]; rfl
    have hsc := scanLoop_hit (-1) (List.replicate k (-1)) tags
      (fun y hy => ⟨htags y hy, htags y hy⟩)
    rw [← hrow2] at hsc
    have hl : lwOneRow (-1) row = (List.replicate k (-1) ++ tags ++ [-1], true) := by
      unfold lwOneRow
      simp only [hsc]
      rfl
    rw [hl]
    conv_rhs => rw [hrow2]
    simp [List.filter_append, List.filter_cons]

/-- A single-cache load of any tag keeps an ordered row free of duplicate
valid tags. -/
theorem lwOneRow_noDupTags (t : Int) (row : List Int) (hord : Ordered row)
    (hnd : NoDupTags row) : NoDupTags (lwOneRow t row).1 := by
  unfold NoDupTags at hnd ⊢
  by_cases hne : row = []
  · subst hne
    rw [lwOneRow_nil]
    exact List.nodup_nil
  by_cases ht : t = -1
  · subst ht
    exact List.Nodup.sublist (lwOneRow_marker_sublist row hord) hnd
  have hnotin : t ∉ row → t ∉ row.filter (fun x => decide (x ≠ -1)) :=
    fun h hm => h (List.mem_filter.mp hm).1
  rcases lwOneRow_valid_tags t row hne hord ht with ⟨_, hp⟩ | ⟨hm, _, he⟩ | ⟨hm, _, he, hself⟩
  · exact hp.nodup_iff.mpr hnd
  · rw [he]
    exact List.Nodup.append hnd (List.nodup_singleton t)
      (fun x hx hx1 => hnotin hm (List.mem_singleton.mp hx1 ▸ hx))
  · rw [he]
    rw [hself] at hnd
    exact List.Nodup.append (List.Nodup.sublist (List.tail_sublist row) hnd)
      (List.nodup_singleton t)
      (fun x hx hx1 => hm (List.mem_singleton.mp hx1 ▸ List.mem_of_mem_tail hx))

/-- One single-cache load of a valid tag keeps the invariant of a set of
associativity `A` whose loads so far were of the tags in `S`: the row is
ordered, free of duplicate valid tags, of length `A`, its valid tags are among
those seen, and there are `min A (card S)` of them. -/
theorem lwOneRow_count (A : Nat) (t : Int) (ht : t ≠ -1) (row : List Int) (S : Finset Int)
    (hord : Ordered row) (hnd : NoDupTags row) (hlen : row.length = A)
    (hsub : ∀ x ∈ row, x ≠ -1 → x ∈ S)
    (hcard : (row.filter (fun x => decide (x ≠ -1))).length = min A S.card) :
    Ordered (lwOneRow t row).1 ∧ NoDupTags (lwOneRow t row).1 ∧
    (lwOneRow t row).1.length = A ∧
    (∀ x ∈ (lwOneRow t row).1, x ≠ -1 → x ∈ insert t S) ∧
    ((lwOneRow t row).1.filter (fun x => decide (x ≠ -1))).length
      = min A (insert t S).card := by
  refine ⟨lwOneRow_ordered t row hord ht, lwOneRow_noDupTags t row hord hnd,
    by rw [(lwOneRow_length_last t row).1, hlen], ?_⟩
  by_cases hne : row = []
  · subst hne
    rw [lwOneRow_nil]
    have hA : A = 0 := by rw [← hlen]; rfl
    subst hA
    exact ⟨fun x hx => absurd hx (List.not_mem_nil x), by simp⟩
  have hmemf : ∀ (l : List Int) (x : Int), x ∈ l → x ≠ -1 →
      x ∈ l.filter (fun x => decide (x ≠ -1)) :=
    fun l x hx hx1 => List.mem_filter.mpr ⟨hx, decide_eq_true hx1⟩
  have hSle : S.card ≤ (insert t S).card := Finset.card_le_card (Finset.subset_insert t S)
  rcases lwOneRow_valid_tags t row hne hord ht with ⟨hm, hp⟩ | ⟨hm, hfree, he⟩ | ⟨hm, hfree, he, hself⟩
  · have hS : insert t S = S := Finset.insert_eq_of_mem (hsub t hm ht)
    rw [hS, hp.length_eq]
    refine ⟨?_, hcard⟩
    intro x hx hx1
    have h2 := (hp.mem_iff).mp (hmemf _ x hx hx1)
    exact hsub x (List.mem_filter.mp h2).1 hx1
  · have hlt : (row.filter (fun x => decide (x ≠ -1))).length < row.length :=
      List.length_filter_lt_length_iff_exists.mpr ⟨-1, hfree, by simp⟩
    have hVS : (row.filter (fun x => decide (x ≠ -1))).length = S.card := by
      rw [hlen] at hlt
      omega
    have hsubF : (row.filter (fun x => decide (x ≠ -1))).toFinset ⊆ S := by
      intro x hx
      have hx2 := List.mem_filter.mp (List.mem_toFinset.mp hx)
      exact hsub x hx2.1 (of_decide_eq_true hx2.2)
    have hEq : (row.filter (fun x => decide (x ≠ -1))).toFinset = S :=
      Finset.eq_of_subset_of_card_le hsubF
        (by rw [List.toFinset_card_of_nodup hnd, hVS])
    have htS : t ∉ S := by
      intro h
      rw [← hEq] at h
      exact hm (List.mem_filter.mp (List.mem_toFinset.mp h)).1
    rw [he, List.length_append, List.length_singleton, Finset.card_insert_of_not_mem htS]
    refine ⟨?_, ?_⟩
    · intro x hx hx1
      have h2 := hmemf _ x hx hx1
      rw [he] at h2
      rcases List.mem_append.mp h2 with h3 | h3
      · exact Finset.mem_insert_of_mem (hsub x (List.mem_filter.mp h3).1 hx1)
      · rw [List.mem_singleton.mp h3]
        exact Finset.mem_insert_self t S
    · rw [hlen] at hlt
      omega
  · rw [hself, hlen] at hcard
    have hrl : (row.tail ++ [t]).length = A := by
      rw [List.length_append, List.length_tail, List.length_singleton, hlen]
      have : 0 < row.length := List.length_pos.mpr hne
      omega
    rw [he, hrl]
    refine ⟨?_, ?_⟩
    · intro x hx hx1
      have h2 := hmemf _ x hx hx1
      rw [he] at h2
      rcases List.mem_append.mp h2 with h3 | h3
      · exact Finset.mem_insert_of_mem (hsub x (List.mem_of_mem_tail h3) hx1)
      · rw [List.mem_singleton.mp h3]
        exact Finset.mem_insert_self t S
    · omega

/-- The invariant along a sequence of single-cache loads of valid tags to one
set. -/
theorem accessSeq_count (A : Nat) (ts : List Int) :
    ∀ (row : List Int) (S : Finset Int), (∀ t ∈ ts, t ≠ -1) →
      Ordered row → NoDupTags row → row.length = A →
      (∀ x ∈ row, x ≠ -1 → x ∈ S) →
      (row.filter (fun x => decide (x ≠ -1))).length = min A S.card →
      Ordered (accessSeq lwOneRow row ts).1 ∧ NoDupTags (accessSeq lwOneRow row ts).1 ∧
      (accessSeq lwOneRow row ts).1.length = A ∧
      (∀ x ∈ (accessSeq lwOneRow row ts).1, x ≠ -1 → x ∈ S ∪ ts.toFinset) ∧
      ((accessSeq lwOneRow row ts).1.filter (fun x => decide (x ≠ -1))).length
        = min A (S ∪ ts.toFinset).card := by
  induction ts with
  | nil =>
    intro row S _ hord hnd hlen hsub hcard
    simp only [accessSeq, List.toFinset_nil, Finset.union_empty]
    exact ⟨hord, hnd, hlen, hsub, hcard⟩
  | cons t ts ih =>
    intro row S hts hord hnd hlen hsub hcard
    obtain ⟨h1, h2, h3, h4, h5⟩ := lwOneRow_count A t (hts t (List.mem_cons_self t ts)) row S
      hord hnd hlen hsub hcard
    have hU : S ∪ (t :: ts).toFinset = insert t S ∪ ts.toFinset := by
      rw [List.toFinset_cons, Finset.union_insert, Finset.insert_union]
    rw [hU]
    exact ih (lwOneRow t row).1 (insert t S)
      (fun x hx => hts x (List.mem_cons_of_mem t hx)) h1 h2 h3 h4 h5

/-- C27: no duplicate tags under loads in the single-cache configuration.  For
every set row that satisfies the ordering invariant and in which each valid
tag occurs at most once, the row after a single-cache load of any tag again
contains each valid tag at most once; and after any sequence of loads of valid
tags starting from the empty set of associativity `A`, the set still has `A`
slots, its valid tags are pairwise distinct, each of them was loaded, and
there are `min A d` of them, `d` being the number of distinct tags loaded. -/
theorem no_duplicate_tags_under_loads :
    (∀ (row : List Int) (t : Int), Ordered row → NoDupTags row →
      NoDupTags (lwOneRow t row).1) ∧
    (∀ (A : Nat) (ts : List Int), (∀ t ∈ ts, t ≠ -1) →
      NoDupTags (accessSeq lwOneRow (List.replicate A (-1)) ts).1 ∧
      (accessSeq lwOneRow (List.replicate A (-1)) ts).1.length = A ∧
      (∀ x ∈ (accessSeq lwOneRow (List.replicate A (-1)) ts).1, x ≠ -1 → x ∈ ts) ∧
      ((accessSeq lwOneRow (List.replicate A (-1)) ts).1.filter
        (fun x => decide (x ≠ -1))).length = min A ts.dedup.length ∧
      ((accessSeq lwOneRow (List.replicate A (-1)) ts).1.filter
        (fun x => decide (x ≠ -1))).dedup.length = min A ts.dedup.length) := by
  refine ⟨fun row t hord hnd => lwOneRow_noDupTags t row hord hnd, ?_⟩
  intro A ts hts
  have hfil : (List.replicate A (-1 : Int)).filter (fun x => decide (x ≠ -1)) = [] := by
    apply List.filter_eq_nil_iff.mpr
    intro a ha
    rw [(List.mem_replicate.mp ha).2]
    simp
  have hord : Ordered (List.replicate A (-1 : Int)) := by
    have h := ordered_of_split A [] (fun t ht => absurd ht (List.not_mem_nil t))
    rw [List.append_nil] at h
    exact h
  have hnd0 : NoDupTags (List.replicate A (-1 : Int)) := by
    unfold NoDupTags
    rw [hfil]
    exact List.nodup_nil
  obtain ⟨_, h2, h3, h4, h5⟩ := accessSeq_count A ts (List.replicate A (-1)) ∅ hts hord hnd0
    (List.length_replicate A (-1))
    (fun x hx hx1 => absurd (List.mem_replicate.mp hx).2 hx1)
    (by rw [hfil]; simp)
  rw [Finset.empty_union, List.card_toFinset] at h5
  refine ⟨h2, h3, ?_, h5, ?_⟩
  · intro x hx hx1
    have := h4 x hx hx1
    rw [Finset.empty_union] at this
    exact List.mem_toFinset.mp this
  · have hnd : ((accessSeq lwOneRow (List.replicate A (-1)) ts).1.filter
        (fun x => decide (x ≠ -1))).Nodup := h2
    rw [List.Nodup.dedup hnd]
    exact h5

/-- Witness of C27: the ordered row `[-1, 3, 5]` after a load of tag 3, and a
set of associativity 2 after loads of the tags 3, 5, 3, 7 (three distinct
tags): it holds the two tags 3 and 7. -/
theorem no_duplicate_tags_under_loads_witness :
    (lwOneRow 3 [-1, 3, 5]).1 = [-1, 5, 3] ∧ NoDupTags (lwOneRow 3 [-1, 3, 5]).1 ∧
    (accessSeq lwOneRow (List.replicate 2 (-1)) [3, 5, 3, 7]).1 = [3, 7] ∧
    ([3, 5, 3, 7] : List Int).dedup.length = 3 ∧
    NoDupTags (accessSeq lwOneRow (List.replicate 2 (-1)) [3, 5, 3, 7]).1 ∧
    ((accessSeq lwOneRow (List.replicate 2 (-1)) [3, 5, 3, 7]).1.filter
      (fun x => decide (x ≠ -1))).length = min 2 ([3, 5, 3, 7] : List Int).dedup.length :=
  ⟨by decide, no_duplicate_tags_under_loads.1 [-1, 3, 5] 3 (by decide) (by decide),
    by decide, by decide,
    (no_duplicate_tags_under_loads.2 2 [3, 5, 3, 7] (by decide)).1,
    (no_duplicate_tags_under_loads.2 2 [3, 5, 3, 7] (by decide)).2.2.2.1⟩

/-! ## Cache LRU property -/

/-- The selected row of a cache after it was replaced. -/
theorem get?_set_same (cache : List (List Int)) (i : Nat) (row r : List Int)
    (h : cache.get? i = some row) : (cache.set i r).get? i = some r := by
  have hlt : i < cache.length := by
    rw [List.get?_eq_some] at h
    exact h.1
  rw [List.get?_eq_getElem?, List.getElem?_set_self hlt]

/-- The single-cache load on an address whose set is known: the set is
replaced by what the row code leaves, and one record is logged with the status
the row code found. -/
theorem lwOne_step (c : OneCache) (pc address : Nat) (index tag : Int) (row : List Int)
    (hd : decompose address c.c1L1blocksize c.c1L1rows = some (index, tag)) (hi : 0 ≤ index)
    (hrow : c.cache.get? index.toNat = some row) (hne : row ≠ []) :
    lwOne c pc address
      = some (⟨c.c1L1blocksize, c.c1L1rows, c.cache.set index.toNat (lwOneRow tag row).1⟩,
          [print_log_entry CacheName.L1
            (if (lwOneRow tag row).2 then Status.HIT else Status.MISS) pc address index]) := by
  unfold lwOne
  rw [hd]
  simp only [onRow_some _ _ _ row hi hrow hne]

/-- Running row code that keeps the number of slots keeps a cache well
formed. -/
theorem onRow_wf (blocksize rows : Int) (cache cache1 : List (List Int)) (index : Int)
    (f : List Int → List Int × Bool) (b : Bool) (hwf : WFCache blocksize rows cache)
    (hlen : ∀ row, (f row).1.length = row.length)
    (h : onRow cache index f = some (cache1, b)) : WFCache blocksize rows cache1 := by
  obtain ⟨_, row, _, hne, hc, _⟩ := onRow_inv _ _ _ _ _ h
  obtain ⟨hb, hr, hl, hrows⟩ := hwf
  refine ⟨hb, hr, by rw [hc, List.length_set]; exact hl, ?_⟩
  intro r hr1
  rw [hc] at hr1
  rcases List.mem_or_eq_of_mem_set hr1 with hm | he
  · exact hrows r hm
  · intro hnil
    have h1 := hlen row
    rw [← he, hnil] at h1
    exact hne (List.length_eq_zero.mp h1.symm)

/-- The two-level load on an address whose L1 set is known and holds the tag
for the L1 row code: the L1 set is replaced, L2 is left alone and the one
record logged is L1 HIT. -/
theorem lwTwo_step_hit (c : TwoCaches) (pc address : Nat) (index tag : Int) (row : List Int)
    (hd : decompose address c.c2L1blocksize c.c2L1rows = some (index, tag)) (hi : 0 ≤ index)
    (hrow : c.L1cache.get? index.toNat = some row) (hne : row ≠ [])
    (hwf : WFCache c.c2L2blocksize c.c2L2rows c.L2cache)
    (hfound : (lwL1Row tag row).2 = true) :
    lwTwo c pc address
      = some (⟨c.c2L1blocksize, c.c2L1rows, c.c2L2blocksize, c.c2L2rows,
            c.L1cache.set index.toNat (lwL1Row tag row).1, c.L2cache⟩,
          [print_log_entry CacheName.L1 Status.HIT pc address index]) := by
  obtain ⟨i2, t2, hd2, _, _, _⟩ := decompose_wf address _ _ hwf.1 hwf.2.1
  unfold lwTwo
  rw [hd, hd2]
  simp only [onRow_some _ _ _ row hi hrow hne, hfound, if_true]

/-- The two-level load on an address whose L1 set is known and does not hold
the tag for the L1 row code: the L1 set is replaced, the L2 row code runs, and
the two records logged are L1 MISS and one L2 record. -/
theorem lwTwo_step_miss (c : TwoCaches) (pc address : Nat) (index tag : Int) (row : List Int)
    (hd : decompose address c.c2L1blocksize c.c2L1rows = some (index, tag)) (hi : 0 ≤ index)
    (hrow : c.L1cache.get? index.toNat = some row) (hne : row ≠ [])
    (hwf : WFCache c.c2L2blocksize c.c2L2rows c.L2cache)
    (hfound : (lwL1Row tag row).2 = false) :
    ∃ l2 status L2index, WFCache c.c2L2blocksize c.c2L2rows l2 ∧
      lwTwo c pc address
        = some (⟨c.c2L1blocksize, c.c2L1rows, c.c2L2blocksize, c.c2L2rows,
              c.L1cache.set index.toNat (lwL1Row tag row).1, l2⟩,
            [print_log_entry CacheName.L1 Status.MISS pc address index,
             print_log_entry CacheName.L2 status pc address L2index]) := by
  obtain ⟨i2, t2, hd2, h0, h1, _⟩ := decompose_wf address _ _ hwf.1 hwf.2.1
  obtain ⟨r2, hr2, hne2⟩ := row_of_wf _ _ i2 _ hwf h0 h1
  have hon := onRow_some c.L2cache i2 (lwL2Row t2) r2 h0 hr2 hne2
  refine ⟨c.L2cache.set i2.toNat (lwL2Row t2 r2).1,
    (if (lwL2Row t2 r2).2 then Status.HIT else Status.MISS), i2,
    onRow_wf _ _ _ _ _ _ _ hwf ?_ hon, ?_⟩
  · intro r
    rw [lwL2Row_eq]
    exact (lwOneRow_length_last t2 r).1
  · unfold lwTwo
    rw [hd, hd2]
    simp only [onRow_some _ _ _ row hi hrow hne, hfound, hon]
    rfl

/-- What the single-cache row code does on the four loads `A, B, A, C` from the
empty 2-way set. -/
theorem lwOneRow_abac (A B C : Int) (hA : 0 ≤ A) (hB : 0 ≤ B) (hAB : A ≠ B) (hAC : A ≠ C)
    (hBC : B ≠ C) :
    lwOneRow A [-1, -1] = ([-1, A], false) ∧ lwOneRow B [-1, A] = ([A, B], false) ∧
    lwOneRow A [A, B] = ([B, A], true) ∧ lwOneRow C [B, A] = ([A, C], false) := by
  have a1 : (-1 : Int) ≠ A := by omega
  have b1 : (-1 : Int) ≠ B := by omega
  have hBA : B ≠ A := Ne.symm hAB
  refine ⟨?_, ?_, ?_, ?_⟩
  · simp [lwOneRow, scanLoop, shiftInsert, shiftLoop, a1]
  · simp [lwOneRow, scanLoop, shiftInsert, shiftLoop, b1, hAB, Ne.symm a1]
  · simp [lwOneRow, scanLoop, shiftInsert, shiftLoop, hBA, Ne.symm b1]
  · simp [lwOneRow, scanLoop, shiftInsert, shiftLoop, hAC, hBC, Ne.symm a1, Ne.symm b1]

/-- What the L1 row code of the two-level configuration does on the four loads
`A, B, A, C` from the empty 2-way set: after the hit the eviction still runs,
so the third load leaves `[A, A]`. -/
theorem lwL1Row_abac (A B C : Int) (hA : 0 ≤ A) (hB : 0 ≤ B) (hAB : A ≠ B) (hAC : A ≠ C) :
    lwL1Row A [-1, -1] = ([-1, A], false) ∧ lwL1Row B [-1, A] = ([A, B], false) ∧
    lwL1Row A [A, B] = ([A, A], true) ∧ lwL1Row C [A, A] = ([A, C], false) := by
  have a1 : (-1 : Int) ≠ A := by omega
  have b1 : (-1 : Int) ≠ B := by omega
  have hBA : B ≠ A := Ne.symm hAB
  refine ⟨?_, ?_, ?_, ?_⟩
  · simp [lwL1Row, scanLoop, shiftInsert, shiftLoop, a1]
  · simp [lwL1Row, scanLoop, shiftInsert, shiftLoop, b1, hAB, Ne.symm a1]
  · simp [lwL1Row, scanLoop, shiftInsert, shiftLoop, hBA, Ne.symm b1]
  · simp [lwL1Row, scanLoop, shiftInsert, shiftLoop, hAC, Ne.symm a1]

/-- C9: for pairwise distinct tags `A, B, C >= 0` and a cache whose selected
2-way set is empty, `[-1, -1]`, four loads whose addresses select that set with
the tags `A, B, A, C` are defined and log MISS, MISS, HIT, MISS for L1, and
leave the set `[A, C]`, which holds exactly the tags `A` and `C` and not `B`,
every other set of that cache being as before: in the single-cache load and
in the two-level load, whose L1 misses are followed by one L2 record. -/
theorem lru_property (A B C : Int) (hA : 0 ≤ A) (hB : 0 ≤ B) (_hC : 0 ≤ C) (hAB : A ≠ B)
    (hAC : A ≠ C) (hBC : B ≠ C) :
    (∀ (c : OneCache) (index : Int) (pc1 pc2 pc3 pc4 x1 x2 x3 x4 : Nat),
      0 ≤ index → c.cache.get? index.toNat = some [-1, -1] →
      decompose x1 c.c1L1blocksize c.c1L1rows = some (index, A) →
      decompose x2 c.c1L1blocksize c.c1L1rows = some (index, B) →
      decompose x3 c.c1L1blocksize c.c1L1rows = some (index, A) →
      decompose x4 c.c1L1blocksize c.c1L1rows = some (index, C) →
      ∃ c1 c2 c3 c4,
        lwOne c pc1 x1
          = some (c1, [print_log_entry CacheName.L1 Status.MISS pc1 x1 index]) ∧
        lwOne c1 pc2 x2
          = some (c2, [print_log_entry CacheName.L1 Status.MISS pc2 x2 index]) ∧
        lwOne c2 pc3 x3
          = some (c3, [print_log_entry CacheName.L1 Status.HIT pc3 x3 index]) ∧
        lwOne c3 pc4 x4
          = some (c4, [print_log_entry CacheName.L1 Status.MISS pc4 x4 index]) ∧
        c4.cache = c.cache.set index.toNat [A, C] ∧
        c4.cache.get? index.toNat = some [A, C]) ∧
    (∀ (c : TwoCaches) (index : Int) (pc1 pc2 pc3 pc4 x1 x2 x3 x4 : Nat),
      0 ≤ index → c.L1cache.get? index.toNat = some [-1, -1] →
      WFCache c.c2L2blocksize c.c2L2rows c.L2cache →
      decompose x1 c.c2L1blocksize c.c2L1rows = some (index, A) →
      decompose x2 c.c2L1blocksize c.c2L1rows = some (index, B) →
      decompose x3 c.c2L1blocksize c.c2L1rows = some (index, A) →
      decompose x4 c.c2L1blocksize c.c2L1rows = some (index, C) →
      ∃ c1 c2 c3 c4 st1 st2 st4 i1 i2 i4,
        lwTwo c pc1 x1
          = some (c1, [print_log_entry CacheName.L1 Status.MISS pc1 x1 index,
                       print_log_entry CacheName.L2 st1 pc1 x1 i1]) ∧
        lwTwo c1 pc2 x2
          = some (c2, [print_log_entry CacheName.L1 Status.MISS pc2 x2 index,
                       print_log_entry CacheName.L2 st2 pc2 x2 i2]) ∧
        lwTwo c2 pc3 x3
          = some (c3, [print_log_entry CacheName.L1 Status.HIT pc3 x3 index]) ∧
        lwTwo c3 pc4 x4
          = some (c4, [print_log_entry CacheName.L1 Status.MISS pc4 x4 index,
                       print_log_entry CacheName.L2 st4 pc4 x4 i4]) ∧
        c4.L1cache = c.L1cache.set index.toNat [A, C] ∧
        c4.L1cache.get? index.toNat = some [A, C]) ∧
    (∀ x, x ∈ [A, C] ↔ x = A ∨ x = C) ∧ B ∉ [A, C] := by
  obtain ⟨e1, e2, e3, e4⟩ := lwOneRow_abac A B C hA hB hAB hAC hBC
  obtain ⟨f1, f2, f3, f4⟩ := lwL1Row_abac A B C hA hB hAB hAC
  refine ⟨?_, ?_, ?_, ?_⟩
  · intro c index pc1 pc2 pc3 pc4 x1 x2 x3 x4 hi hrow hd1 hd2 hd3 hd4
    have s1 := lwOne_step c pc1 x1 index A [-1, -1] hd1 hi hrow (by simp)
    rw [e1] at s1
    have g1 := get?_set_same c.cache index.toNat [-1, -1] [-1, A] hrow
    have s2 := lwOne_step ⟨c.c1L1blocksize, c.c1L1rows, c.cache.set index.toNat [-1, A]⟩
      pc2 x2 index B [-1, A] hd2 hi g1 (by simp)
    rw [e2] at s2
    have g2 := get?_set_same _ index.toNat [-1, A] [A, B] g1
    have s3 := lwOne_step ⟨c.c1L1blocksize, c.c1L1rows,
        (c.cache.set index.toNat [-1, A]).set index.toNat [A, B]⟩
      pc3 x3 index A [A, B] hd3 hi g2 (by simp)
    rw [e3] at s3
    have g3 := get?_set_same _ index.toNat [A, B] [B, A] g2
    have s4 := lwOne_step ⟨c.c1L1blocksize, c.c1L1rows,
        ((c.cache.set index.toNat [-1, A]).set index.toNat [A, B]).set index.toNat [B, A]⟩
      pc4 x4 index C [B, A] hd4 hi g3 (by simp)
    rw [e4] at s4
    have g4 := get?_set_same _ index.toNat [B, A] [A, C] g3
    refine ⟨_, _, _, _, s1, s2, s3, s4, ?_, g4⟩
    simp only [List.set_set]
  · intro c index pc1 pc2 pc3 pc4 x1 x2 x3 x4 hi hrow hwf hd1 hd2 hd3 hd4
    obtain ⟨l1, st1, i1, w1, s1⟩ := lwTwo_step_miss c pc1 x1 index A [-1, -1] hd1 hi hrow
      (by simp) hwf (by rw [f1])
    rw [f1] at s1
    have g1 := get?_set_same c.L1cache index.toNat [-1, -1] [-1, A] hrow
    obtain ⟨l2, st2, i2, w2, s2⟩ := lwTwo_step_miss
      ⟨c.c2L1blocksize, c.c2L1rows, c.c2L2blocksize, c.c2L2rows,
        c.L1cache.set index.toNat [-1, A], l1⟩
      pc2 x2 index B [-1, A] hd2 hi g1 (by simp) w1 (by rw [f2])
    rw [f2] at s2
    have g2 := get?_set_same _ index.toNat [-1, A] [A, B] g1
    have s3 := lwTwo_step_hit
      ⟨c.c2L1blocksize, c.c2L1rows, c.c2L2blocksize, c.c2L2rows,
        (c.L1cache.set index.toNat [-1, A]).set index.toNat [A, B], l2⟩
      pc3 x3 index A [A, B] hd3 hi g2 (by simp) w2 (by rw [f3])
    rw [f3] at s3
    have g3 := get?_set_same _ index.toNat [A, B] [A, A] g2
    obtain ⟨l4, st4, i4, _, s4⟩ := lwTwo_step_miss
      ⟨c.c2L1blocksize, c.c2L1rows, c.c2L2blocksize, c.c2L2rows,
        ((c.L1cache.set index.toNat [-1, A]).set index.toNat [A, B]).set index.toNat [A, A],
        l2⟩
      pc4 x4 index C [A, A] hd4 hi g3 (by simp) w2 (by rw [f4])
    rw [f4] at s4
    have g4 := get?_set_same _ index.toNat [A, A] [A, C] g3
    refine ⟨_, _, _, _, st1, st2, st4, i1, i2, i4, s1, s2, s3, s4, ?_, g4⟩
    simp only [List.set_set]
  · intro x; simp
  · simp [Ne.symm hAB, hBC]

/-- Witness of C9: the tags 1, 2, 3 through the addresses 2, 4, 2, 6, which
select set 0 of an L1 of block size 1 with 2 rows of 2 slots; in the two-level
configuration the L2 has block size 1 and 4 rows of 2 slots. -/
theorem lru_property_witness :
    lwOne ⟨1, 2, [[-1, -1], [-1, -1]]⟩ 10 2
      = some (⟨1, 2, [[-1, 1], [-1, -1]]⟩,
          [print_log_entry CacheName.L1 Status.MISS 10 2 0]) ∧
    lwOne ⟨1, 2, [[1, 2], [-1, -1]]⟩ 12 2
      = some (⟨1, 2, [[2, 1], [-1, -1]]⟩,
          [print_log_entry CacheName.L1 Status.HIT 12 2 0]) ∧
    lwTwo ⟨1, 2, 1, 4, [[1, 2], [-1, -1]], [[-1, -1], [-1, -1], [-1, 2], [-1, 1]]⟩ 12 2
      = some (⟨1, 2, 1, 4, [[1, 1], [-1, -1]], [[-1, -1], [-1, -1], [-1, 2], [-1, 1]]⟩,
          [print_log_entry CacheName.L1 Status.HIT 12 2 0]) ∧
    (∃ c1 c2 c3 c4,
      lwOne ⟨1, 2, [[-1, -1], [-1, -1]]⟩ 10 2
        = some (c1, [print_log_entry CacheName.L1 Status.MISS 10 2 0]) ∧
      lwOne c1 11 4 = some (c2, [print_log_entry CacheName.L1 Status.MISS 11 4 0]) ∧
      lwOne c2 12 2 = some (c3, [print_log_entry CacheName.L1 Status.HIT 12 2 0]) ∧
      lwOne c3 13 6 = some (c4, [print_log_entry CacheName.L1 Status.MISS 13 6 0]) ∧
      c4.cache = [[1, 3], [-1, -1]] ∧
      c4.cache.get? 0 = some [1, 3]) ∧
    (∃ c1 c2 c3 c4 st1 st2 st4 i1 i2 i4,
      lwTwo ⟨1, 2, 1, 4, [[-1, -1], [-1, -1]], [[-1, -1], [-1, -1], [-1, -1], [-1, -1]]⟩ 10 2
        = some (c1, [print_log_entry CacheName.L1 Status.MISS 10 2 0,
                     print_log_entry CacheName.L2 st1 10 2 i1]) ∧
      lwTwo c1 11 4
        = some (c2, [print_log_entry CacheName.L1 Status.MISS 11 4 0,
                     print_log_entry CacheName.L2 st2 11 4 i2]) ∧
      lwTwo c2 12 2 = some (c3, [print_log_entry CacheName.L1 Status.HIT 12 2 0]) ∧
      lwTwo c3 13 6
        = some (c4, [print_log_entry CacheName.L1 Status.MISS 13 6 0,
                     print_log_entry CacheName.L2 st4 13 6 i4]) ∧
      c4.L1cache = [[1, 3], [-1, -1]] ∧
      c4.L1cache.get? 0 = some [1, 3]) :=
  ⟨rfl, rfl, rfl,
    (lru_property 1 2 3 (by decide) (by decide) (by decide) (by decide) (by decide)
        (by decide)).1
      ⟨1, 2, [[-1, -1], [-1, -1]]⟩ 0 10 11 12 13 2 4 2 6 (by decide) rfl rfl rfl rfl rfl,
    (lru_property 1 2 3 (by decide) (by decide) (by decide) (by decide) (by decide)
        (by decide)).2.1
      ⟨1, 2, 1, 4, [[-1, -1], [-1, -1]], [[-1, -1], [-1, -1], [-1, -1], [-1, -1]]⟩
      0 10 11 12 13 2 4 2 6 (by decide) rfl (by decide) rfl rfl rfl rfl⟩

end E20
